import Mathlib

/-! y4mcreator: the frame reordering heap and the drain loop of `main`.

A shallow embedding of `src/y4mcreator.c`:

* the array-backed min-heap of `AVFrame` pointers (`avframe_heap_*`), with the
  backing array `q[MAX_REFERENCE_FRAMES]` and every access to it bounds-checked,
* the two comparators, evaluated in 32-bit `int` arithmetic,
* the part of the main loop that buffers a decoded frame and drains the heap
  (`ingest` below is lines 443-490 of the source for a packet that decoded to a frame).

Conventions.  A C `int` is an `Int` together with `wrap32` where a result is computed;
the element count `n` and array indices are `Nat` (the program never makes them negative).
A slot of `q` always holds some frame value: the contents of slots that were never
written are whatever the allocator left there, and are universally quantified in the
theorems.  Functions that can leave the array, or whose C recursion is modelled with
fuel, return `Except Fault _`.
-/

namespace Y4m

/-! ## Definitions: the embedding of the source and the predicates of the statements -/

/-- The capacity constant, `#define MAX_REFERENCE_FRAMES 1000`. -/
def MAX_REFERENCE_FRAMES : Nat := 1000

/-- Largest value of a C `int`. -/
def INT_MAX : Int := 2147483647

/-- Smallest value of a C `int`. -/
def INT_MIN : Int := -2147483648

/-- The value an `int` computation yields after two's-complement wrap-around to 32 bits. -/
def wrap32 (x : Int) : Int := (x + 2147483648) % 4294967296 - 2147483648

/-- The fields of libav's `AVFrame` that the program reads or writes; `data` stands for
the picture itself and every other field, none of which the modelled code touches. -/
structure AVFrame where
  coded_picture_number : Int
  display_picture_number : Int
  pts : Int
  data : Nat
  deriving DecidableEq

/-- The ways an execution can leave the embedding: an access outside `q[0..999]`
(undefined behaviour in C) or a recursion/loop that outlived its fuel. -/
inductive Fault where
  | out_of_bounds
  | out_of_fuel
  deriving DecidableEq

/-- The struct `avframe_heap_t`: the array `q` (only indices below
`MAX_REFERENCE_FRAMES` exist), the element count `n`, and the comparator `cmp`. -/
structure avframe_heap_t where
  q : Nat → AVFrame
  n : Nat
  cmp : AVFrame → AVFrame → Int

/-- Read of `h->q[i]`. -/
def q_load (h : avframe_heap_t) (i : Nat) : Except Fault AVFrame :=
  if i < MAX_REFERENCE_FRAMES then .ok (h.q i) else .error .out_of_bounds

/-- Write `h->q[i] = f`. -/
def q_store (h : avframe_heap_t) (i : Nat) (f : AVFrame) : Except Fault avframe_heap_t :=
  if i < MAX_REFERENCE_FRAMES then .ok { h with q := Function.update h.q i f }
  else .error .out_of_bounds

/-- Source `avframe_heap_parent`: `-1` for the root, `n/2` otherwise. -/
def avframe_heap_parent (n : Nat) : Int :=
  if n = 1 then -1 else ((n / 2 : Nat) : Int)

/-- Source `avframe_heap_young_child`. -/
def avframe_heap_young_child (n : Nat) : Nat := 2 * n

/-- Source `avframe_heap_swap`: `tmp = q[a]; q[a] = q[b]; q[b] = tmp`. -/
def avframe_heap_swap (h : avframe_heap_t) (a b : Nat) : Except Fault avframe_heap_t := do
  let tmp ← q_load h a
  let vb ← q_load h b
  let h1 ← q_store h a vb
  q_store h1 b tmp

/-- Source `avframe_heap_bubble_up`; the C recursion is bounded by `fuel`. -/
def avframe_heap_bubble_up : Nat → avframe_heap_t → Nat → Except Fault avframe_heap_t
  | 0, _, _ => .error .out_of_fuel
  | fuel + 1, h, p =>
    if avframe_heap_parent p = -1 then .ok h
    else do
      let a ← q_load h (avframe_heap_parent p).toNat
      let b ← q_load h p
      if h.cmp a b ≥ 0 then do
        let h1 ← avframe_heap_swap h p (avframe_heap_parent p).toNat
        avframe_heap_bubble_up fuel h1 (avframe_heap_parent p).toNat
      else .ok h

/-- Source `avframe_heap_insert`. -/
def avframe_heap_insert (h : avframe_heap_t) (f : AVFrame) : Except Fault avframe_heap_t :=
  if h.n ≥ MAX_REFERENCE_FRAMES then .ok h
  else do
    let h1 : avframe_heap_t := { h with n := h.n + 1 }
    let h2 ← q_store h1 h1.n f
    avframe_heap_bubble_up h2.n h2 h2.n

/-- Source `avframe_heap_cmp_coded`: the difference of two `int`s, as an `int`. -/
def avframe_heap_cmp_coded (a b : AVFrame) : Int :=
  wrap32 (a.coded_picture_number - b.coded_picture_number)

/-- Source `avframe_heap_cmp_display`. -/
def avframe_heap_cmp_display (a b : AVFrame) : Int :=
  wrap32 (a.display_picture_number - b.display_picture_number)

/-- Source `avframe_heap_create`; `mem` is the content of the freshly allocated array,
and a null comparator selects `avframe_heap_cmp_display`. -/
def avframe_heap_create (mem : Nat → AVFrame)
    (cmp : Option (AVFrame → AVFrame → Int)) : avframe_heap_t :=
  { q := mem
    n := 0
    cmp := match cmp with
      | none => avframe_heap_cmp_display
      | some c => c }

/-- Source `avframe_heap_peek_min`; `none` is the null pointer. -/
def avframe_heap_peek_min (h : avframe_heap_t) : Option AVFrame :=
  if h.n > 0 then some (h.q 1) else none

/-- One of the two `&&` chains of `avframe_heap_bubble_down`:
`c <= h->n && cmp(q[c], q[o]) <= 0 && cmp(q[c], q[p]) <= 0`, evaluated left to right. -/
def child_is_min (h : avframe_heap_t) (c o p : Nat) : Except Fault Bool :=
  if c ≤ h.n then do
    let a ← q_load h c
    let b ← q_load h o
    if h.cmp a b ≤ 0 then do
      let a2 ← q_load h c
      let r ← q_load h p
      pure (decide (h.cmp a2 r ≤ 0))
    else pure false
  else pure false

/-- Source `avframe_heap_bubble_down`; the C recursion is bounded by `fuel`. -/
def avframe_heap_bubble_down : Nat → avframe_heap_t → Nat → Except Fault avframe_heap_t
  | 0, _, _ => .error .out_of_fuel
  | fuel + 1, h, p => do
    let c := avframe_heap_young_child p
    let first ← child_is_min h c (c + 1) p
    let min_index ←
      if first then pure c
      else do
        let second ← child_is_min h (c + 1) c p
        if second then pure (c + 1) else pure p
    if min_index ≠ p then do
      let h1 ← avframe_heap_swap h p min_index
      avframe_heap_bubble_down fuel h1 min_index
    else .ok h

/-- Source `avframe_heap_get_min`: the returned pointer (`none` is null) and the heap. -/
def avframe_heap_get_min (h : avframe_heap_t) :
    Except Fault (Option AVFrame × avframe_heap_t) :=
  if h.n > 0 then do
    let min ← q_load h 1
    let last ← q_load h h.n
    let h1 ← q_store h 1 last
    let h2 : avframe_heap_t := { h1 with n := h1.n - 1 }
    let h3 ← avframe_heap_bubble_down (h2.n + 1) h2 1
    pure (some min, h3)
  else pure (none, h)

/-- The assignment `m->pts = t`. -/
def set_pts (m : AVFrame) (t : Int) : AVFrame := { m with pts := t }

/-- The assignment `frame->display_picture_number = k`. -/
def set_display (f : AVFrame) (k : Int) : AVFrame := { f with display_picture_number := k }

/-- The locals of `main` that the buffering and drain code uses. -/
structure main_state where
  frame_heap : avframe_heap_t
  nextidx : Int
  ret : Int

/-- The drain loop of `main` (source lines 465-490).  `write_frame` is the external
writer (negative result: failure); `out` collects the frames it accepted, oldest first.
Each iteration that continues pops one frame, so `fuel` bounds the loop. -/
def drain_loop (write_frame : AVFrame → Int) (coded_order : Bool) :
    Nat → main_state → List AVFrame → Except Fault (main_state × List AVFrame)
  | 0, _, _ => .error .out_of_fuel
  | fuel + 1, s, out =>
    match avframe_heap_peek_min s.frame_heap with
    | none => .ok (s, out)
    | some m =>
      let minidx := if coded_order then m.coded_picture_number else m.display_picture_number
      if minidx = s.nextidx then do
        let r ← avframe_heap_get_min s.frame_heap
        let m1 : AVFrame := set_pts m (wrap32 (s.nextidx * 1001))
        let ret := write_frame m1
        if ret < 0 then
          .ok ({ frame_heap := r.2, nextidx := s.nextidx, ret := ret }, out)
        else
          drain_loop write_frame coded_order fuel
            { frame_heap := r.2, nextidx := wrap32 (s.nextidx + 1), ret := ret } (out ++ [m1])
      else .ok (s, out)

/-- The body of the main loop for a packet that decoded to a frame (source lines
443-490): stamp `display_picture_number`, insert, drain.  `ret` is what
`avcodec_decode_video2` returned for the packet (not negative on this path, lines
435-440).  The result is the new state and the frames written during this call. -/
def ingest (write_frame : AVFrame → Int) (coded_order : Bool) (s : main_state) (ret : Int)
    (frame : AVFrame) : Except Fault (main_state × List AVFrame) := do
  let frame1 : AVFrame := set_display frame s.nextidx
  let h ← avframe_heap_insert s.frame_heap frame1
  drain_loop write_frame coded_order (h.n + 1)
    { frame_heap := h, nextidx := s.nextidx, ret := ret } []

/-- Successive iterations of the main loop, one per decoded packet (the decoder's return
value and the frame); the frames written, in order. -/
def ingest_seq (write_frame : AVFrame → Int) (coded_order : Bool) :
    main_state → List (Int × AVFrame) → Except Fault (main_state × List AVFrame)
  | s, [] => .ok (s, [])
  | s, d :: ds => do
    let r ← ingest write_frame coded_order s d.1 d.2
    let rs ← ingest_seq write_frame coded_order r.1 ds
    pure (rs.1, r.2 ++ rs.2)

/-- The picture number the drain loop reads from the minimum (`minidx`). -/
def mode_key (coded_order : Bool) (f : AVFrame) : Int :=
  if coded_order then f.coded_picture_number else f.display_picture_number

/-- The values `nextidx` takes over `n` successive `nextidx++`, starting at `k`. -/
def idx_run : Int → Nat → List Int
  | _, 0 => []
  | k, n + 1 => k :: idx_run (wrap32 (k + 1)) n

/-- The value of `nextidx` after `n` successive `nextidx++`, starting at `k`. -/
def idx_after : Int → Nat → Int
  | k, 0 => k
  | k, n + 1 => idx_after (wrap32 (k + 1)) n

/-- A frame with its timestamp cleared: what identifies the picture once the drain
loop has overwritten `pts`. -/
def no_pts (f : AVFrame) : AVFrame := { f with pts := 0 }

/-- The state of `main` just before its loop (source lines 408-414). -/
def main_init (mem : Nat → AVFrame) (coded_order : Bool) : main_state :=
  { frame_heap := avframe_heap_create mem
      (some (if coded_order then avframe_heap_cmp_coded else avframe_heap_cmp_display))
    nextidx := 0
    ret := 0 }

/-- The comparator of `h` is the 32-bit difference of the field `key`. -/
def Keyed (h : avframe_heap_t) (key : AVFrame → Int) : Prop :=
  ∀ a b, h.cmp a b = wrap32 (key a - key b)

/-- The frames held by the heap: the contents of slots `1..n`, as a multiset. -/
def live (h : avframe_heap_t) : Multiset AVFrame :=
  (Finset.Icc 1 h.n).val.map h.q

/-- Every held frame has a key that is a non-negative `int`. -/
def GoodLive (key : AVFrame → Int) (h : avframe_heap_t) : Prop :=
  ∀ x ∈ live h, 0 ≤ key x ∧ key x ≤ INT_MAX

/-- The heap-order invariant as the source's comparator sees it:
`cmp(q[p/2], q[p]) <= 0` for every slot `p` with `1 < p <= n`. -/
def heap_order (h : avframe_heap_t) : Prop :=
  ∀ p, 1 < p → p ≤ h.n → h.cmp (h.q (p / 2)) (h.q p) ≤ 0

/-- The heap-order invariant on keys: `key(parent(p)) <= key(p)`. -/
def KeyOrder (key : AVFrame → Int) (h : avframe_heap_t) : Prop :=
  ∀ p, 1 < p → p ≤ h.n → key (h.q (p / 2)) ≤ key (h.q p)

/-- Heap order everywhere except between `p` and its parent, the children of `p`
being already above the parent of `p` (the state inside `avframe_heap_bubble_up`). -/
def UpHole (key : AVFrame → Int) (h : avframe_heap_t) (p : Nat) : Prop :=
  (∀ j, 1 < j → j ≤ h.n → j ≠ p → key (h.q (j / 2)) ≤ key (h.q j)) ∧
  (∀ j, 1 < j → j ≤ h.n → j / 2 = p → 1 < p → key (h.q (p / 2)) ≤ key (h.q j))

/-- Heap order everywhere except between `p` and its children, the children of `p`
being already above the parent of `p` (the state inside `avframe_heap_bubble_down`). -/
def DownHole (key : AVFrame → Int) (h : avframe_heap_t) (p : Nat) : Prop :=
  (∀ j, 1 < j → j ≤ h.n → j / 2 ≠ p → key (h.q (j / 2)) ≤ key (h.q j)) ∧
  (∀ j, 1 < j → j ≤ h.n → j / 2 = p → 1 < p → key (h.q (p / 2)) ≤ key (h.q j))

/-- The array after `avframe_heap_swap(h, a, b)`. -/
def swapq (q : Nat → AVFrame) (a b : Nat) : Nat → AVFrame :=
  Function.update (Function.update q a (q b)) b (q a)

/-- What the proofs carry from one heap call to the next: the comparator is the wrapped
key difference, the count leaves room in the array, held keys are non-negative `int`s
and the heap order holds. -/
def Inv (key : AVFrame → Int) (h : avframe_heap_t) : Prop :=
  Keyed h key ∧ h.n < MAX_REFERENCE_FRAMES ∧ GoodLive key h ∧ KeyOrder key h

/-- Calls `avframe_heap_insert` once per frame of the list, in order. -/
def insert_all (h : avframe_heap_t) : List AVFrame → Except Fault avframe_heap_t
  | [] => .ok h
  | f :: fs => do
    let h1 ← avframe_heap_insert h f
    insert_all h1 fs

/-- Calls `avframe_heap_get_min` `k` times; the returned pointers in call order, and
the final heap. -/
def get_min_n : Nat → avframe_heap_t → Except Fault (List (Option AVFrame) × avframe_heap_t)
  | 0, h => .ok ([], h)
  | k + 1, h => do
    let r ← avframe_heap_get_min h
    let rs ← get_min_n k r.2
    pure (r.1 :: rs.1, rs.2)

/-- The comparator argument of `avframe_heap_create` and the field it orders by:
null or `avframe_heap_cmp_display` order by `display_picture_number`,
`avframe_heap_cmp_coded` by `coded_picture_number`. -/
def comparator_key (c : Option (AVFrame → AVFrame → Int)) (key : AVFrame → Int) : Prop :=
  (c = none ∧ key = AVFrame.display_picture_number) ∨
  (c = some avframe_heap_cmp_display ∧ key = AVFrame.display_picture_number) ∨
  (c = some avframe_heap_cmp_coded ∧ key = AVFrame.coded_picture_number)

/-- Source `test_alloc`: a fresh frame with both picture numbers set to `n`. -/
def test_alloc (n : Int) : AVFrame :=
  { coded_picture_number := n, display_picture_number := n, pts := 0, data := 0 }

/-- A call of one of the two mutating heap functions. -/
inductive heap_call where
  | insert (f : AVFrame)
  | get_min

/-- Runs a sequence of calls on a heap, left to right. -/
def run_calls (h : avframe_heap_t) : List heap_call → Except Fault avframe_heap_t
  | [] => .ok h
  | heap_call.insert f :: cs => do
    let h1 ← avframe_heap_insert h f
    run_calls h1 cs
  | heap_call.get_min :: cs => do
    let r ← avframe_heap_get_min h
    run_calls r.2 cs

/-- The largest number of frames held at any point of a call sequence that starts
with `n` frames held. -/
def peak_held : Nat → List heap_call → Nat
  | n, [] => n
  | n, heap_call.insert _ :: cs => max n (peak_held (n + 1) cs)
  | n, heap_call.get_min :: cs => max n (peak_held (n - 1) cs)

/-- The states the main loop reaches in coded-order mode from its start when every decoded
frame carries a non-negative coded number not seen before and is ingested with at most
998 frames already held (999 after the insertion); `seen` lists the coded numbers ingested
so far, `ret` is the decoder's non-negative result for the packet. -/
inductive Reachable (w : AVFrame → Int) (mem : Nat → AVFrame) :
    main_state → List Int → Prop where
  | init : Reachable w mem (main_init mem true) []
  | step {s s1 : main_state} {seen : List Int} {ws : List AVFrame} (ret : Int)
      (frame : AVFrame) :
      Reachable w mem s seen → 0 ≤ ret →
      0 ≤ frame.coded_picture_number → frame.coded_picture_number ≤ INT_MAX →
      frame.coded_picture_number ∉ seen →
      s.frame_heap.n + 1 < MAX_REFERENCE_FRAMES →
      ingest w true s ret frame = .ok (s1, ws) →
      Reachable w mem s1 (frame.coded_picture_number :: seen)

/-- What identifies the picture a frame carries: its coded number and its data. The loop
changes neither (it only stamps `display_picture_number` and `pts`). -/
def frame_id (f : AVFrame) : Int × Nat := (f.coded_picture_number, f.data)

/-- What display-order mode hands to the writer for a list of decoded packets when
`nextidx = k` at the start: each frame in arrival order, stamped with the running index
as `display_picture_number` and with its `int` multiple of 1001 as `pts`. -/
def pass_through : Int → List (Int × AVFrame) → List AVFrame
  | _, [] => []
  | k, d :: ds =>
    set_pts (set_display d.2 k) (wrap32 (k * 1001)) :: pass_through (wrap32 (k + 1)) ds

/-- The controller is stalled on a key below `nextidx`: the heap is a well-formed heap
ordered by coded number and holds a frame whose coded number is less than `nextidx`. -/
def StalledBelow (s : main_state) : Prop :=
  Inv AVFrame.coded_picture_number s.frame_heap ∧
  ∃ x ∈ live s.frame_heap, x.coded_picture_number < s.nextidx

/-- The controller waits for an index that no held frame carries. -/
def StalledGap (s : main_state) : Prop :=
  ∀ x ∈ live s.frame_heap, x.coded_picture_number ≠ s.nextidx

/-- Heap order on every edge except those from `p` to its children and the edge into
`r`, the children of `p` being already above the parent of `p` unless `p = r` (the state
inside a run of `avframe_heap_bubble_down` that started at `r`). -/
def SubHole (key : AVFrame → Int) (h : avframe_heap_t) (p r : Nat) : Prop :=
  (∀ j, 1 < j → j ≤ h.n → j / 2 ≠ p → j ≠ r → key (h.q (j / 2)) ≤ key (h.q j)) ∧
  (∀ j, 1 < j → j ≤ h.n → j / 2 = p → p ≠ r → key (h.q (p / 2)) ≤ key (h.q j))

/-! ## Basic facts -/

@[simp] theorem ok_bind {α β : Type} (x : α) (f : α → Except Fault β) :
    (Except.ok x >>= f) = f x := rfl

@[simp] theorem error_bind {α β : Type} (e : Fault) (f : α → Except Fault β) :
    ((Except.error e : Except Fault α) >>= f) = Except.error e := rfl

@[simp] theorem pure_eq_ok {α : Type} (x : α) : (pure x : Except Fault α) = Except.ok x := rfl

theorem wrap32_id {x : Int} (h1 : -2147483648 ≤ x) (h2 : x ≤ 2147483647) : wrap32 x = x := by
  unfold wrap32; omega

theorem q_load_ok (h : avframe_heap_t) {i : Nat} (hi : i < MAX_REFERENCE_FRAMES) :
    q_load h i = .ok (h.q i) := by
  simp [q_load, hi]

theorem q_store_ok (h : avframe_heap_t) {i : Nat} (f : AVFrame) (hi : i < MAX_REFERENCE_FRAMES) :
    q_store h i f = .ok { h with q := Function.update h.q i f } := by
  simp [q_store, hi]

theorem swap_ok (h : avframe_heap_t) {a b : Nat} (ha : a < MAX_REFERENCE_FRAMES)
    (hb : b < MAX_REFERENCE_FRAMES) :
    avframe_heap_swap h a b = .ok { h with q := swapq h.q a b } := by
  simp [avframe_heap_swap, q_load_ok h ha, q_load_ok h hb, q_store_ok _ _ ha, q_store_ok _ _ hb,
    swapq]

theorem swapq_left (q : Nat → AVFrame) (a b : Nat) : swapq q a b a = q b := by
  unfold swapq
  by_cases hab : a = b
  · subst hab; simp
  · rw [Function.update_noteq hab, Function.update_same]

theorem swapq_right (q : Nat → AVFrame) (a b : Nat) : swapq q a b b = q a := by
  unfold swapq; simp

theorem swapq_other (q : Nat → AVFrame) {a b i : Nat} (hia : i ≠ a) (hib : i ≠ b) :
    swapq q a b i = q i := by
  unfold swapq
  rw [Function.update_noteq hib, Function.update_noteq hia]

theorem swapq_eq_comp (q : Nat → AVFrame) (a b : Nat) : swapq q a b = q ∘ Equiv.swap b a := by
  unfold swapq
  rw [Equiv.comp_swap_eq_update]

theorem live_swap (h : avframe_heap_t) {a b : Nat} (ha1 : 1 ≤ a) (han : a ≤ h.n)
    (hb1 : 1 ≤ b) (hbn : b ≤ h.n) :
    live { h with q := swapq h.q a b } = live h := by
  unfold live
  simp only [swapq_eq_comp]
  rw [← Multiset.map_map]
  congr 1
  have hs : ({ x | (Equiv.swap b a) x ≠ x } : Set Nat) ⊆ ↑(Finset.Icc 1 h.n) := by
    intro x hx
    simp only [Set.mem_setOf_eq] at hx
    have : x = b ∨ x = a := by
      by_contra hcon
      push_neg at hcon
      exact hx (Equiv.swap_apply_of_ne_of_ne hcon.1 hcon.2)
    simp only [Finset.coe_Icc, Set.mem_Icc]
    rcases this with rfl | rfl <;> omega
  have := Finset.map_perm hs
  have h2 := congrArg Finset.val this
  simpa [Finset.map_val] using h2

theorem mem_live (h : avframe_heap_t) {i : Nat} (h1 : 1 ≤ i) (hn : i ≤ h.n) : h.q i ∈ live h := by
  unfold live
  exact Multiset.mem_map_of_mem _ (by simp [h1, hn])

theorem cmp_le_iff {h : avframe_heap_t} {key : AVFrame → Int} (hk : Keyed h key) {a b : AVFrame}
    (ha : 0 ≤ key a ∧ key a ≤ INT_MAX) (hb : 0 ≤ key b ∧ key b ≤ INT_MAX) :
    h.cmp a b ≤ 0 ↔ key a ≤ key b := by
  unfold INT_MAX at ha hb
  rw [hk a b, wrap32_id (by omega) (by omega)]; omega

theorem cmp_ge_iff {h : avframe_heap_t} {key : AVFrame → Int} (hk : Keyed h key) {a b : AVFrame}
    (ha : 0 ≤ key a ∧ key a ≤ INT_MAX) (hb : 0 ≤ key b ∧ key b ≤ INT_MAX) :
    h.cmp a b ≥ 0 ↔ key b ≤ key a := by
  unfold INT_MAX at ha hb
  rw [hk a b, wrap32_id (by omega) (by omega)]; omega

/-! ## `avframe_heap_bubble_up` restores the heap order -/

theorem bubble_up_spec (key : AVFrame → Int) :
    ∀ (fuel : Nat) (h : avframe_heap_t) (p : Nat),
      Keyed h key → h.n < MAX_REFERENCE_FRAMES → 1 ≤ p → p ≤ h.n → p ≤ fuel →
      GoodLive key h → UpHole key h p →
      ∃ h1, avframe_heap_bubble_up fuel h p = .ok h1 ∧ h1.n = h.n ∧ h1.cmp = h.cmp ∧
        KeyOrder key h1 ∧ live h1 = live h ∧ ∀ i, h.n < i → h1.q i = h.q i := by
  intro fuel
  induction fuel with
  | zero => intro h p _ _ hp1 _ hpf; omega
  | succ fuel ih =>
    intro h p hk hn hp1 hpn hpf hg hu
    have hM : MAX_REFERENCE_FRAMES = 1000 := rfl
    by_cases hroot : p = 1
    · subst hroot
      refine ⟨h, ?_, rfl, rfl, ?_, rfl, fun _ _ => rfl⟩
      · simp [avframe_heap_bubble_up, avframe_heap_parent]
      · intro j hj1 hjn
        exact hu.1 j hj1 hjn (by omega)
    · have hpar : avframe_heap_parent p = ((p / 2 : Nat) : Int) := by
        simp [avframe_heap_parent, hroot]
      have hne : avframe_heap_parent p ≠ -1 := by rw [hpar]; omega
      have htn : (avframe_heap_parent p).toNat = p / 2 := by rw [hpar]; omega
      have hp2 : 1 ≤ p / 2 := by omega
      have hp2lt : p / 2 < p := by omega
      have hgp : 0 ≤ key (h.q p) ∧ key (h.q p) ≤ INT_MAX := hg _ (mem_live h hp1 hpn)
      have hgpp : 0 ≤ key (h.q (p / 2)) ∧ key (h.q (p / 2)) ≤ INT_MAX :=
        hg _ (mem_live h hp2 (by omega))
      unfold avframe_heap_bubble_up
      simp only [hne, if_false, htn, q_load_ok h (show p / 2 < MAX_REFERENCE_FRAMES by omega),
        q_load_ok h (show p < MAX_REFERENCE_FRAMES by omega), ok_bind]
      by_cases hc : h.cmp (h.q (p / 2)) (h.q p) ≥ 0
      · have hle : key (h.q p) ≤ key (h.q (p / 2)) := (cmp_ge_iff hk hgpp hgp).1 hc
        simp only [hc, if_true,
          swap_ok h (show p < MAX_REFERENCE_FRAMES by omega)
            (show p / 2 < MAX_REFERENCE_FRAMES by omega), ok_bind]
        have hlive : live { h with q := swapq h.q p (p / 2) } = live h :=
          live_swap h hp1 hpn hp2 (by omega)
        obtain ⟨h1, he, hn1, hc1, ho1, hl1, hq1⟩ :=
          ih { h with q := swapq h.q p (p / 2) } (p / 2) hk hn hp2 (by simp; omega) (by omega)
            (by intro x hx; rw [hlive] at hx; exact hg x hx)
            (by
              constructor
              · intro j hj1 hjn hjne
                simp only at hjn ⊢
                by_cases hjp : j = p
                · subst hjp
                  rw [swapq_left, swapq_right]; exact hle
                · rw [swapq_other h.q hjp hjne]
                  by_cases hj2p : j / 2 = p
                  · rw [hj2p, swapq_left]
                    by_cases hp1' : 1 < p
                    · exact hu.2 j hj1 hjn hj2p hp1'
                    · omega
                  · by_cases hj2pp : j / 2 = p / 2
                    · rw [hj2pp, swapq_right]
                      have := hu.1 j hj1 hjn hjp
                      rw [hj2pp] at this
                      omega
                    · rw [swapq_other h.q hj2p hj2pp]
                      exact hu.1 j hj1 hjn hjp
              · intro j hj1 hjn hj2 hpp1
                simp only at hjn ⊢
                have hx : p / 2 / 2 ≠ p := by omega
                have hy : p / 2 / 2 ≠ p / 2 := by omega
                rw [swapq_other h.q hx hy]
                have hpar1 := hu.1 (p / 2) hpp1 (by omega) (by omega)
                by_cases hjp : j = p
                · subst hjp
                  rw [swapq_left]; exact hpar1
                · have hjne : j ≠ p / 2 := by omega
                  rw [swapq_other h.q hjp hjne]
                  have := hu.1 j hj1 hjn hjp
                  rw [hj2] at this
                  omega)
        exact ⟨h1, he, hn1, hc1, ho1, by rw [hl1, hlive], fun i hi => by
          rw [hq1 i hi]; exact swapq_other h.q (by omega) (by omega)⟩
      · simp only [hc, if_false]
        have hlt : ¬ key (h.q p) ≤ key (h.q (p / 2)) := fun hh => hc ((cmp_ge_iff hk hgpp hgp).2 hh)
        refine ⟨h, rfl, rfl, rfl, ?_, rfl, fun _ _ => rfl⟩
        intro j hj1 hjn
        by_cases hjp : j = p
        · subst hjp; omega
        · exact hu.1 j hj1 hjn hjp

/-! ## `avframe_heap_insert` -/

theorem live_store_new (h : avframe_heap_t) (f : AVFrame) :
    live { q := Function.update h.q (h.n + 1) f, n := h.n + 1, cmp := h.cmp } = f ::ₘ live h := by
  unfold live
  simp only
  rw [← Nat.Icc_insert_succ_right (by omega : 1 ≤ h.n + 1)]
  rw [Finset.insert_val_of_not_mem (by simp)]
  rw [Multiset.map_cons, Function.update_same]
  congr 1
  apply Multiset.map_congr rfl
  intro x hx
  have : x ≤ h.n := by
    have := Finset.mem_Icc.1 (Finset.mem_val.1 hx)
    exact this.2
  exact Function.update_noteq (by omega) _ _

theorem insert_spec (key : AVFrame → Int) (h : avframe_heap_t) (f : AVFrame)
    (hi : Inv key h) (hroom : h.n + 1 < MAX_REFERENCE_FRAMES)
    (hf : 0 ≤ key f ∧ key f ≤ INT_MAX) :
    ∃ h1, avframe_heap_insert h f = .ok h1 ∧ h1.n = h.n + 1 ∧ Inv key h1 ∧
      live h1 = f ::ₘ live h ∧ ∀ i, h.n + 1 < i → h1.q i = h.q i := by
  obtain ⟨hk, hn, hg, ho⟩ := hi
  have hM : MAX_REFERENCE_FRAMES = 1000 := rfl
  have hlive := live_store_new h f
  obtain ⟨h1, he, hn1, hc1, ho1, hl1, hq1⟩ :=
    bubble_up_spec key (h.n + 1)
      { q := Function.update h.q (h.n + 1) f, n := h.n + 1, cmp := h.cmp } (h.n + 1)
      hk hroom (by omega) (le_refl _) (le_refl _)
      (by
        intro x hx
        rw [hlive, Multiset.mem_cons] at hx
        rcases hx with rfl | hx
        · exact hf
        · exact hg x hx)
      (by
        constructor
        · intro j hj1 hjn hjne
          simp only at hjn ⊢
          rw [Function.update_noteq (by omega), Function.update_noteq (by omega)]
          exact ho j hj1 (by omega)
        · intro j hj1 hjn hj2 _
          simp only at hjn
          omega)
  refine ⟨h1, ?_, hn1, ⟨fun a b => by rw [hc1]; exact hk a b, by rw [hn1]; exact hroom, ?_, ho1⟩,
    by rw [hl1, hlive], fun i hi => ?_⟩
  · unfold avframe_heap_insert
    have : ¬ h.n ≥ MAX_REFERENCE_FRAMES := by omega
    simp only [this, if_false, q_store_ok _ _ hroom, ok_bind]
    exact he
  · intro x hx
    rw [hl1, hlive, Multiset.mem_cons] at hx
    rcases hx with rfl | hx
    · exact hf
    · exact hg x hx
  · rw [hq1 i hi]
    exact Function.update_noteq (by omega) _ _

/-! ## `avframe_heap_bubble_down` restores the heap order -/

theorem child_is_min_ok (h : avframe_heap_t) (c o p : Nat)
    (hb : c ≤ h.n → c < MAX_REFERENCE_FRAMES ∧ o < MAX_REFERENCE_FRAMES ∧
      p < MAX_REFERENCE_FRAMES) :
    child_is_min h c o p =
      .ok (decide (c ≤ h.n ∧ h.cmp (h.q c) (h.q o) ≤ 0 ∧ h.cmp (h.q c) (h.q p) ≤ 0)) := by
  unfold child_is_min
  by_cases hc : c ≤ h.n
  · obtain ⟨h1, h2, h3⟩ := hb hc
    simp only [hc, if_true, q_load_ok h h1, q_load_ok h h2, q_load_ok h h3, ok_bind, true_and]
    by_cases hx : h.cmp (h.q c) (h.q o) ≤ 0
    · simp [hx]
    · simp [hx]
  · simp [hc]

theorem downhole_swap (key : AVFrame → Int) (h : avframe_heap_t) (p m : Nat)
    (hd : DownHole key h p) (hp1 : 1 ≤ p) (hm : m ≤ h.n) (hm2 : m / 2 = p)
    (hmp : key (h.q m) ≤ key (h.q p))
    (hsib : ∀ j, 1 < j → j ≤ h.n → j / 2 = p → j ≠ m → key (h.q m) ≤ key (h.q j)) :
    DownHole key { h with q := swapq h.q p m } m := by
  constructor
  · intro j hj1 hjn hj2
    simp only at hjn ⊢
    by_cases hjm : j = m
    · subst hjm
      rw [hm2, swapq_left, swapq_right]; exact hmp
    · by_cases hjp : j = p
      · subst hjp
        have h1 : j / 2 ≠ j := by omega
        have h2 : j / 2 ≠ m := by omega
        rw [swapq_other h.q h1 h2, swapq_left]
        exact hd.2 m (by omega) hm hm2 hj1
      · rw [swapq_other h.q hjp hjm]
        by_cases hj2p : j / 2 = p
        · rw [hj2p, swapq_left]
          exact hsib j hj1 hjn hj2p hjm
        · rw [swapq_other h.q hj2p hj2]
          exact hd.1 j hj1 hjn hj2p
  · intro j hj1 hjn hj2 hm1
    simp only at hjn ⊢
    rw [hm2, swapq_left]
    have hjp : j ≠ p := by omega
    have hjm : j ≠ m := by omega
    rw [swapq_other h.q hjp hjm]
    have := hd.1 j hj1 hjn (by omega)
    rw [hj2] at this
    exact this

theorem bubble_down_spec (key : AVFrame → Int) :
    ∀ (fuel : Nat) (h : avframe_heap_t) (p : Nat),
      Keyed h key → h.n + 1 < MAX_REFERENCE_FRAMES → 1 ≤ p → h.n + 1 ≤ fuel + p → 1 ≤ fuel →
      GoodLive key h → h.q (h.n + 1) = h.q p → DownHole key h p →
      ∃ h1, avframe_heap_bubble_down fuel h p = .ok h1 ∧ h1.n = h.n ∧ h1.cmp = h.cmp ∧
        KeyOrder key h1 ∧ live h1 = live h ∧ ∀ i, h.n < i → h1.q i = h.q i := by
  intro fuel
  induction fuel with
  | zero => intro h p _ _ _ _ hf; omega
  | succ fuel ih =>
    intro h p hk hn hp1 hfp _ hg hst hd
    have hM : MAX_REFERENCE_FRAMES = 1000 := rfl
    have hgood : ∀ i, 1 ≤ i → i ≤ h.n → 0 ≤ key (h.q i) ∧ key (h.q i) ≤ INT_MAX :=
      fun i h1 h2 => hg _ (mem_live h h1 h2)
    have hgood1 : 2 * p ≤ h.n → 0 ≤ key (h.q (2 * p + 1)) ∧ key (h.q (2 * p + 1)) ≤ INT_MAX := by
      intro hc
      by_cases hc1 : 2 * p + 1 ≤ h.n
      · exact hgood _ (by omega) hc1
      · have : 2 * p + 1 = h.n + 1 := by omega
        rw [this, hst]
        exact hgood _ hp1 (by omega)
    have hA : (2 * p ≤ h.n ∧ h.cmp (h.q (2 * p)) (h.q (2 * p + 1)) ≤ 0 ∧
        h.cmp (h.q (2 * p)) (h.q p) ≤ 0) ↔
        (2 * p ≤ h.n ∧ key (h.q (2 * p)) ≤ key (h.q (2 * p + 1)) ∧
          key (h.q (2 * p)) ≤ key (h.q p)) := by
      constructor
      · rintro ⟨h1, h2, h3⟩
        exact ⟨h1, (cmp_le_iff hk (hgood _ (by omega) h1) (hgood1 h1)).1 h2,
          (cmp_le_iff hk (hgood _ (by omega) h1) (hgood _ hp1 (by omega))).1 h3⟩
      · rintro ⟨h1, h2, h3⟩
        exact ⟨h1, (cmp_le_iff hk (hgood _ (by omega) h1) (hgood1 h1)).2 h2,
          (cmp_le_iff hk (hgood _ (by omega) h1) (hgood _ hp1 (by omega))).2 h3⟩
    have hB : (2 * p + 1 ≤ h.n ∧ h.cmp (h.q (2 * p + 1)) (h.q (2 * p)) ≤ 0 ∧
        h.cmp (h.q (2 * p + 1)) (h.q p) ≤ 0) ↔
        (2 * p + 1 ≤ h.n ∧ key (h.q (2 * p + 1)) ≤ key (h.q (2 * p)) ∧
          key (h.q (2 * p + 1)) ≤ key (h.q p)) := by
      constructor
      · rintro ⟨h1, h2, h3⟩
        exact ⟨h1, (cmp_le_iff hk (hgood _ (by omega) h1) (hgood _ (by omega) (by omega))).1 h2,
          (cmp_le_iff hk (hgood _ (by omega) h1) (hgood _ hp1 (by omega))).1 h3⟩
      · rintro ⟨h1, h2, h3⟩
        exact ⟨h1, (cmp_le_iff hk (hgood _ (by omega) h1) (hgood _ (by omega) (by omega))).2 h2,
          (cmp_le_iff hk (hgood _ (by omega) h1) (hgood _ hp1 (by omega))).2 h3⟩
    unfold avframe_heap_bubble_down
    simp only [avframe_heap_young_child]
    rw [child_is_min_ok h (2 * p) (2 * p + 1) p (by intro hc; omega)]
    simp only [ok_bind, decide_eq_true_eq]
    have hswap : ∀ m, m ≤ h.n → m / 2 = p → key (h.q m) ≤ key (h.q p) →
        (∀ j, 1 < j → j ≤ h.n → j / 2 = p → j ≠ m → key (h.q m) ≤ key (h.q j)) →
        ∃ h1, (do
            let h1 ← avframe_heap_swap h p m
            avframe_heap_bubble_down fuel h1 m) = Except.ok h1 ∧ h1.n = h.n ∧ h1.cmp = h.cmp ∧
          KeyOrder key h1 ∧ live h1 = live h ∧ ∀ i, h.n < i → h1.q i = h.q i := by
      intro m hm hm2 hmp hsib
      have hlive : live { h with q := swapq h.q p m } = live h :=
        live_swap h hp1 (by omega) (by omega) hm
      rw [swap_ok h (show p < MAX_REFERENCE_FRAMES by omega)
        (show m < MAX_REFERENCE_FRAMES by omega), ok_bind]
      obtain ⟨h1, he, hn1, hc1, ho1, hl1, hq1⟩ :=
        ih { h with q := swapq h.q p m } m hk hn (by omega)
          (by show h.n + 1 ≤ fuel + m; omega) (by omega)
          (by intro x hx; rw [hlive] at hx; exact hg x hx)
          (by
            simp only
            rw [swapq_right, swapq_other h.q (by omega) (by omega)]
            exact hst)
          (downhole_swap key h p m hd hp1 hm hm2 hmp hsib)
      exact ⟨h1, he, hn1, hc1, ho1, by rw [hl1, hlive], fun i hi => by
        rw [hq1 i hi]; exact swapq_other h.q (by omega) (by omega)⟩
    by_cases hfirst : 2 * p ≤ h.n ∧ h.cmp (h.q (2 * p)) (h.q (2 * p + 1)) ≤ 0 ∧
        h.cmp (h.q (2 * p)) (h.q p) ≤ 0
    · have hne : (2 * p) ≠ p := by omega
      simp only [hfirst, and_self, if_true, ok_bind, pure_eq_ok, ne_eq, hne, not_false_eq_true]
      obtain ⟨h1, h2, h3⟩ := hA.1 hfirst
      apply hswap (2 * p) h1 (by omega) h3
      intro j hj1 hjn hj2 hjm
      have : j = 2 * p + 1 := by omega
      rw [this]; exact h2
    · simp only [hfirst, if_false]
      rw [child_is_min_ok h (2 * p + 1) (2 * p) p (by intro hc; omega)]
      simp only [ok_bind, decide_eq_true_eq]
      by_cases hsecond : 2 * p + 1 ≤ h.n ∧ h.cmp (h.q (2 * p + 1)) (h.q (2 * p)) ≤ 0 ∧
          h.cmp (h.q (2 * p + 1)) (h.q p) ≤ 0
      · have hne : (2 * p + 1) ≠ p := by omega
        simp only [hsecond, and_self, if_true, ok_bind, pure_eq_ok, ne_eq, hne,
          not_false_eq_true]
        obtain ⟨h1, h2, h3⟩ := hB.1 hsecond
        apply hswap (2 * p + 1) h1 (by omega) h3
        intro j hj1 hjn hj2 hjm
        have : j = 2 * p := by omega
        rw [this]; exact h2
      · simp only [hsecond, if_false, ok_bind, pure_eq_ok, ne_eq, not_true_eq_false]
        refine ⟨h, rfl, rfl, rfl, ?_, rfl, fun _ _ => rfl⟩
        rw [hA] at hfirst
        rw [hB] at hsecond
        intro j hj1 hjn
        by_cases hj2 : j / 2 = p
        · rw [hj2]
          by_cases hjc : j = 2 * p
          · rw [hjc] at hjn ⊢
            by_cases hc1 : 2 * p + 1 ≤ h.n
            · by_contra hcon
              have h1 : ¬ (key (h.q (2 * p)) ≤ key (h.q (2 * p + 1))) := by
                intro hh; exact hfirst ⟨hjn, hh, by omega⟩
              exact hsecond ⟨hc1, by omega, by omega⟩
            · have : 2 * p + 1 = h.n + 1 := by omega
              rw [this, hst] at hfirst
              by_contra hcon
              exact hfirst ⟨hjn, by omega, by omega⟩
          · have hjc1 : j = 2 * p + 1 := by omega
            rw [hjc1] at hjn ⊢
            by_contra hcon
            have h1 : ¬ (key (h.q (2 * p + 1)) ≤ key (h.q (2 * p))) := by
              intro hh; exact hsecond ⟨hjn, hh, by omega⟩
            exact hfirst ⟨by omega, by omega, by omega⟩
        · exact hd.1 j hj1 hjn hj2

/-! ## `avframe_heap_get_min` -/

theorem root_min (key : AVFrame → Int) (h : avframe_heap_t) (ho : KeyOrder key h) :
    ∀ i, 1 ≤ i → i ≤ h.n → key (h.q 1) ≤ key (h.q i) := by
  intro i
  induction i using Nat.strong_induction_on with
  | _ i ih =>
    intro h1 hn
    by_cases hi : i = 1
    · subst hi; exact le_refl _
    · have := ih (i / 2) (by omega) (by omega) (by omega)
      have := ho i (by omega) hn
      omega

theorem root_min_live (key : AVFrame → Int) (h : avframe_heap_t) (ho : KeyOrder key h) :
    ∀ x ∈ live h, key (h.q 1) ≤ key x := by
  intro x hx
  unfold live at hx
  obtain ⟨i, hi, rfl⟩ := Multiset.mem_map.1 hx
  have := Finset.mem_Icc.1 (Finset.mem_val.1 hi)
  exact root_min key h ho i this.1 this.2

theorem live_pop (h : avframe_heap_t) (hpos : 0 < h.n) :
    live h = h.q 1 ::ₘ
      live { q := Function.update h.q 1 (h.q h.n), n := h.n - 1, cmp := h.cmp } := by
  unfold live
  simp only
  obtain ⟨m, hm⟩ : ∃ m, h.n = m + 1 := ⟨h.n - 1, by omega⟩
  rw [hm, Nat.add_sub_cancel]
  by_cases hm0 : m = 0
  · subst hm0
    simp
  · rw [← Nat.Icc_insert_succ_right (by omega : 1 ≤ m + 1)]
    rw [Finset.insert_val_of_not_mem (by simp)]
    rw [← Nat.Icc_insert_succ_left (by omega : 1 ≤ m)]
    rw [Finset.insert_val_of_not_mem (by simp)]
    simp only [Multiset.map_cons, Function.update_same]
    rw [Multiset.cons_swap]
    congr 2
    apply Multiset.map_congr rfl
    intro x hx
    have := Finset.mem_Icc.1 (Finset.mem_val.1 hx)
    exact (Function.update_noteq (by omega) _ _).symm

theorem get_min_spec (key : AVFrame → Int) (h : avframe_heap_t) (hi : Inv key h)
    (hpos : 0 < h.n) :
    ∃ h1, avframe_heap_get_min h = .ok (some (h.q 1), h1) ∧ h1.n = h.n - 1 ∧ Inv key h1 ∧
      live h = h.q 1 ::ₘ live h1 ∧ ∀ x ∈ live h, key (h.q 1) ≤ key x := by
  obtain ⟨hk, hn, hg, ho⟩ := hi
  have hM : MAX_REFERENCE_FRAMES = 1000 := rfl
  have hlive := live_pop h hpos
  obtain ⟨h1, he, hn1, hc1, ho1, hl1, _⟩ :=
    bubble_down_spec key (h.n - 1 + 1)
      { q := Function.update h.q 1 (h.q h.n), n := h.n - 1, cmp := h.cmp } 1
      hk (by show h.n - 1 + 1 < MAX_REFERENCE_FRAMES; omega) (le_refl _)
      (by show h.n - 1 + 1 ≤ h.n - 1 + 1 + 1; omega) (by omega)
      (by
        intro x hx
        apply hg
        rw [hlive]
        exact Multiset.mem_cons_of_mem hx)
      (by
        show Function.update h.q 1 (h.q h.n) (h.n - 1 + 1) = Function.update h.q 1 (h.q h.n) 1
        rw [Function.update_same]
        by_cases h1 : h.n = 1
        · rw [h1]; simp
        · rw [Function.update_noteq (by omega)]
          congr 1; omega)
      (by
        constructor
        · intro j hj1 hjn hj2
          simp only at hjn ⊢
          rw [Function.update_noteq (by omega), Function.update_noteq (by omega)]
          exact ho j hj1 (by omega)
        · intro j _ _ _ hlt
          omega)
  refine ⟨h1, ?_, hn1, ⟨fun a b => by rw [hc1]; exact hk a b, by rw [hn1]; show h.n - 1 < _; omega,
    ?_, ho1⟩, by rw [hl1]; exact hlive, root_min_live key h ho⟩
  · unfold avframe_heap_get_min
    simp only [gt_iff_lt, hpos, if_true, q_load_ok h (show 1 < MAX_REFERENCE_FRAMES by omega),
      q_load_ok h hn, q_store_ok _ _ (show 1 < MAX_REFERENCE_FRAMES by omega), ok_bind]
    rw [he]
    rfl
  · intro x hx
    apply hg
    rw [hlive]
    rw [hl1] at hx
    exact Multiset.mem_cons_of_mem hx

/-! ## Inserting a list and extracting repeatedly -/

theorem create_keyed (mem : Nat → AVFrame) (c : Option (AVFrame → AVFrame → Int))
    (key : AVFrame → Int) (hc : comparator_key c key) :
    Keyed (avframe_heap_create mem c) key := by
  rcases hc with ⟨rfl, rfl⟩ | ⟨rfl, rfl⟩ | ⟨rfl, rfl⟩ <;> intro a b <;> rfl

theorem live_empty (h : avframe_heap_t) (h0 : h.n = 0) : live h = 0 := by
  unfold live; rw [h0]; simp

theorem create_inv (mem : Nat → AVFrame) (c : Option (AVFrame → AVFrame → Int))
    (key : AVFrame → Int) (hc : comparator_key c key) :
    Inv key (avframe_heap_create mem c) := by
  refine ⟨create_keyed mem c key hc, by show 0 < MAX_REFERENCE_FRAMES; decide, ?_, ?_⟩
  · intro x hx
    rw [live_empty _ rfl] at hx
    simp at hx
  · intro p hp1 hpn
    have : p ≤ 0 := hpn
    omega

theorem insert_all_spec (key : AVFrame → Int) :
    ∀ (frames : List AVFrame) (h : avframe_heap_t), Inv key h →
      h.n + frames.length < MAX_REFERENCE_FRAMES →
      (∀ f ∈ frames, 0 ≤ key f ∧ key f ≤ INT_MAX) →
      ∃ h1, insert_all h frames = .ok h1 ∧ h1.n = h.n + frames.length ∧ Inv key h1 ∧
        live h1 = (frames : Multiset AVFrame) + live h := by
  intro frames
  induction frames with
  | nil => intro h hi _ _; exact ⟨h, rfl, rfl, hi, by simp⟩
  | cons f fs ih =>
    intro h hi hlen hgood
    simp only [List.length_cons] at hlen
    obtain ⟨h1, he1, hn1, hi1, hl1, _⟩ :=
      insert_spec key h f hi (by omega) (hgood f (List.mem_cons_self _ _))
    obtain ⟨h2, he2, hn2, hi2, hl2⟩ :=
      ih h1 hi1 (by omega) (fun g hg => hgood g (List.mem_cons_of_mem _ hg))
    refine ⟨h2, ?_, by rw [hn2, hn1, List.length_cons]; omega, hi2, ?_⟩
    · simp only [insert_all, he1, ok_bind]; exact he2
    · rw [hl2, hl1, ← Multiset.cons_coe, Multiset.cons_add, Multiset.add_cons]

theorem get_min_n_spec (key : AVFrame → Int) :
    ∀ (k : Nat) (h : avframe_heap_t), Inv key h → k ≤ h.n →
      ∃ (out : List AVFrame) (h2 : avframe_heap_t),
      get_min_n k h = .ok (out.map some, h2) ∧ h2.n = h.n - k ∧ Inv key h2 ∧
        live h = (out : Multiset AVFrame) + live h2 ∧ (out.map key).Sorted (· ≤ ·) ∧
        ∀ x ∈ out, ∀ y ∈ live h2, key x ≤ key y := by
  intro k
  induction k with
  | zero => intro h hi _; exact ⟨[], h, rfl, rfl, hi, by simp, by simp, by simp⟩
  | succ k ih =>
    intro h hi hk
    obtain ⟨h1, he1, hn1, hi1, hl1, hmin⟩ := get_min_spec key h hi (by omega)
    obtain ⟨out, h2, he2, hn2, hi2, hl2, hs2, hb2⟩ := ih h1 hi1 (by omega)
    refine ⟨h.q 1 :: out, h2, ?_, by omega, hi2, ?_, ?_, ?_⟩
    · simp only [get_min_n, he1, ok_bind, he2]; rfl
    · rw [hl1, hl2, ← Multiset.cons_coe, Multiset.cons_add]
    · simp only [List.map_cons, List.sorted_cons]
      refine ⟨?_, hs2⟩
      intro b hb
      obtain ⟨y, hy, rfl⟩ := List.mem_map.1 hb
      apply hmin
      rw [hl1, hl2]
      exact Multiset.mem_cons_of_mem (Multiset.mem_add.2 (Or.inl (Multiset.mem_coe.2 hy)))
    · intro x hx y hy
      rcases List.mem_cons.1 hx with rfl | hx
      · apply hmin
        rw [hl1, hl2]
        exact Multiset.mem_cons_of_mem (Multiset.mem_add.2 (Or.inr hy))
      · exact hb2 x hx y hy

/-! ## Arbitrary sequences of heap calls -/

theorem le_peak_held : ∀ (cs : List heap_call) (n : Nat), n ≤ peak_held n cs := by
  intro cs
  cases cs with
  | nil => intro n; exact le_refl _
  | cons c cs => intro n; cases c <;> exact le_max_left _ _

theorem peak_held_take : ∀ (cs : List heap_call) (n j : Nat),
    peak_held n (cs.take j) ≤ peak_held n cs := by
  intro cs
  induction cs with
  | nil => intro n j; simp
  | cons c cs ih =>
    intro n j
    cases j with
    | zero => simpa [peak_held] using le_peak_held (c :: cs) n
    | succ j =>
      cases c with
      | insert f =>
        simp only [List.take_succ_cons, peak_held]
        exact max_le_max (le_refl _) (ih (n + 1) j)
      | get_min =>
        simp only [List.take_succ_cons, peak_held]
        exact max_le_max (le_refl _) (ih (n - 1) j)

theorem get_min_empty (h : avframe_heap_t) (h0 : h.n = 0) :
    avframe_heap_get_min h = .ok (none, h) := by
  simp [avframe_heap_get_min, h0]

theorem inv_heap_order (key : AVFrame → Int) (h : avframe_heap_t) (hi : Inv key h) :
    heap_order h := by
  obtain ⟨hk, _, hg, ho⟩ := hi
  intro p hp1 hpn
  exact (cmp_le_iff hk (hg _ (mem_live h (by omega) (by omega))) (hg _ (mem_live h (by omega) hpn))).2
    (ho p hp1 hpn)

theorem run_calls_spec (key : AVFrame → Int) :
    ∀ (cs : List heap_call) (h : avframe_heap_t), Inv key h → peak_held h.n cs ≤ 999 →
      (∀ f, heap_call.insert f ∈ cs → 0 ≤ key f ∧ key f ≤ INT_MAX) →
      ∃ h1, run_calls h cs = .ok h1 ∧ Inv key h1 := by
  intro cs
  induction cs with
  | nil => intro h hi _ _; exact ⟨h, rfl, hi⟩
  | cons c cs ih =>
    intro h hi hpk hgood
    have hM : MAX_REFERENCE_FRAMES = 1000 := rfl
    cases c with
    | insert f =>
      simp only [peak_held] at hpk
      have hle := le_peak_held cs (h.n + 1)
      obtain ⟨h1, he1, hn1, hi1, _, _⟩ :=
        insert_spec key h f hi (by omega) (hgood f (List.mem_cons_self _ _))
      obtain ⟨h2, he2, hi2⟩ := ih h1 hi1 (by rw [hn1]; omega)
        (fun g hg => hgood g (List.mem_cons_of_mem _ hg))
      exact ⟨h2, by simp only [run_calls, he1, ok_bind]; exact he2, hi2⟩
    | get_min =>
      simp only [peak_held] at hpk
      by_cases h0 : h.n = 0
      · obtain ⟨h2, he2, hi2⟩ := ih h hi (by rw [h0] at hpk ⊢; simpa using hpk)
          (fun g hg => hgood g (List.mem_cons_of_mem _ hg))
        exact ⟨h2, by simp only [run_calls, get_min_empty h h0, ok_bind]; exact he2, hi2⟩
      · obtain ⟨h1, he1, hn1, hi1, _, _⟩ := get_min_spec key h hi (by omega)
        obtain ⟨h2, he2, hi2⟩ := ih h1 hi1 (by rw [hn1]; omega)
          (fun g hg => hgood g (List.mem_cons_of_mem _ hg))
        exact ⟨h2, by simp only [run_calls, he1, ok_bind]; exact he2, hi2⟩

/-! ## The capacity boundary -/

theorem insert_all_append (h : avframe_heap_t) (l1 l2 : List AVFrame) :
    insert_all h (l1 ++ l2) = insert_all h l1 >>= fun h1 => insert_all h1 l2 := by
  induction l1 generalizing h with
  | nil => rfl
  | cons f fs ih =>
    simp only [List.cons_append, insert_all]
    cases avframe_heap_insert h f with
    | error e => rfl
    | ok h1 => simp only [ok_bind]; exact ih h1

theorem insert_at_999 (h : avframe_heap_t) (f : AVFrame) (hn : h.n = 999) :
    avframe_heap_insert h f = .error .out_of_bounds := by
  simp [avframe_heap_insert, hn, MAX_REFERENCE_FRAMES, q_store]

theorem insert_all_overflow (key : AVFrame → Int) (mem : Nat → AVFrame)
    (c : Option (AVFrame → AVFrame → Int)) (hc : comparator_key c key)
    (frames : List AVFrame) (hlen : 1000 ≤ frames.length)
    (hkeys : ∀ f ∈ frames, 0 ≤ key f ∧ key f ≤ INT_MAX) :
    insert_all (avframe_heap_create mem c) frames = .error .out_of_bounds := by
  have hsplit : frames = frames.take 999 ++ frames.drop 999 := (List.take_append_drop 999 frames).symm
  have hlt : (frames.take 999).length = 999 := by rw [List.length_take]; omega
  obtain ⟨h1, he1, hn1, _, _⟩ :=
    insert_all_spec key (frames.take 999) (avframe_heap_create mem c) (create_inv mem c key hc)
      (by rw [hlt]; show 0 + 999 < 1000; omega)
      (fun f hf => hkeys f (List.mem_of_mem_take hf))
  have hn1' : h1.n = 999 := by rw [hn1, hlt]; show 0 + 999 = 999; rfl
  rw [hsplit, insert_all_append, he1, ok_bind]
  cases hd : frames.drop 999 with
  | nil =>
    have := congrArg List.length hd
    rw [List.length_drop] at this
    simp at this
    omega
  | cons f fs =>
    simp only [insert_all, insert_at_999 h1 f hn1', error_bind]

/-! ## Frame accounting on arbitrary heaps (no order assumed) -/

theorem bubble_up_live :
    ∀ (fuel : Nat) (h : avframe_heap_t) (p : Nat),
      h.n < MAX_REFERENCE_FRAMES → 1 ≤ p → p ≤ h.n → p ≤ fuel →
      ∃ h1, avframe_heap_bubble_up fuel h p = .ok h1 ∧ h1.n = h.n ∧ h1.cmp = h.cmp ∧
        live h1 = live h := by
  intro fuel
  induction fuel with
  | zero => intro h p _ hp1 _ hpf; omega
  | succ fuel ih =>
    intro h p hn hp1 hpn hpf
    have hM : MAX_REFERENCE_FRAMES = 1000 := rfl
    by_cases hroot : p = 1
    · subst hroot
      exact ⟨h, by simp [avframe_heap_bubble_up, avframe_heap_parent], rfl, rfl, rfl⟩
    · have hpar : avframe_heap_parent p = ((p / 2 : Nat) : Int) := by
        simp [avframe_heap_parent, hroot]
      have hne : avframe_heap_parent p ≠ -1 := by rw [hpar]; omega
      have htn : (avframe_heap_parent p).toNat = p / 2 := by rw [hpar]; omega
      unfold avframe_heap_bubble_up
      simp only [hne, if_false, htn, q_load_ok h (show p / 2 < MAX_REFERENCE_FRAMES by omega),
        q_load_ok h (show p < MAX_REFERENCE_FRAMES by omega), ok_bind]
      by_cases hc : h.cmp (h.q (p / 2)) (h.q p) ≥ 0
      · simp only [hc, if_true,
          swap_ok h (show p < MAX_REFERENCE_FRAMES by omega)
            (show p / 2 < MAX_REFERENCE_FRAMES by omega), ok_bind]
        obtain ⟨h1, he, hn1, hc1, hl1⟩ :=
          ih { h with q := swapq h.q p (p / 2) } (p / 2) hn (by omega)
            (by show p / 2 ≤ h.n; omega) (by omega)
        exact ⟨h1, he, hn1, hc1, by
          rw [hl1]; exact live_swap h hp1 hpn (by omega) (by omega)⟩
      · simp only [hc, if_false]
        exact ⟨h, rfl, rfl, rfl, rfl⟩

theorem insert_live (h : avframe_heap_t) (f : AVFrame)
    (hroom : h.n + 1 < MAX_REFERENCE_FRAMES) :
    ∃ h1, avframe_heap_insert h f = .ok h1 ∧ h1.n = h.n + 1 ∧ h1.cmp = h.cmp ∧
      live h1 = f ::ₘ live h := by
  have hM : MAX_REFERENCE_FRAMES = 1000 := rfl
  obtain ⟨h1, he, hn1, hc1, hl1⟩ :=
    bubble_up_live (h.n + 1)
      { q := Function.update h.q (h.n + 1) f, n := h.n + 1, cmp := h.cmp } (h.n + 1)
      hroom (by omega) (le_refl _) (le_refl _)
  refine ⟨h1, ?_, hn1, hc1, by rw [hl1]; exact live_store_new h f⟩
  unfold avframe_heap_insert
  have : ¬ h.n ≥ MAX_REFERENCE_FRAMES := by omega
  simp only [this, if_false, q_store_ok _ _ hroom, ok_bind]
  exact he

theorem bubble_down_live :
    ∀ (fuel : Nat) (h : avframe_heap_t) (p : Nat),
      h.n + 1 < MAX_REFERENCE_FRAMES → 1 ≤ p → h.n + 1 ≤ fuel + p → 1 ≤ fuel →
      ∃ h1, avframe_heap_bubble_down fuel h p = .ok h1 ∧ h1.n = h.n ∧ h1.cmp = h.cmp ∧
        live h1 = live h := by
  intro fuel
  induction fuel with
  | zero => intro h p _ _ _ hf; omega
  | succ fuel ih =>
    intro h p hn hp1 hfp _
    have hM : MAX_REFERENCE_FRAMES = 1000 := rfl
    have hswap : ∀ m, m ≤ h.n → 2 * p ≤ m →
        ∃ h1, (do
            let h1 ← avframe_heap_swap h p m
            avframe_heap_bubble_down fuel h1 m) = Except.ok h1 ∧ h1.n = h.n ∧ h1.cmp = h.cmp ∧
          live h1 = live h := by
      intro m hm hm2
      rw [swap_ok h (show p < MAX_REFERENCE_FRAMES by omega)
        (show m < MAX_REFERENCE_FRAMES by omega), ok_bind]
      obtain ⟨h1, he, hn1, hc1, hl1⟩ :=
        ih { h with q := swapq h.q p m } m hn (by omega)
          (by show h.n + 1 ≤ fuel + m; omega) (by omega)
      exact ⟨h1, he, hn1, hc1, by
        rw [hl1]; exact live_swap h hp1 (by omega) (by omega) hm⟩
    unfold avframe_heap_bubble_down
    simp only [avframe_heap_young_child]
    rw [child_is_min_ok h (2 * p) (2 * p + 1) p (by intro hc; omega)]
    simp only [ok_bind, decide_eq_true_eq]
    by_cases hfirst : 2 * p ≤ h.n ∧ h.cmp (h.q (2 * p)) (h.q (2 * p + 1)) ≤ 0 ∧
        h.cmp (h.q (2 * p)) (h.q p) ≤ 0
    · have hne : (2 * p) ≠ p := by omega
      simp only [hfirst, and_self, if_true, ok_bind, pure_eq_ok, ne_eq, hne, not_false_eq_true]
      exact hswap (2 * p) hfirst.1 (le_refl _)
    · simp only [hfirst, if_false]
      rw [child_is_min_ok h (2 * p + 1) (2 * p) p (by intro hc; omega)]
      simp only [ok_bind, decide_eq_true_eq]
      by_cases hsecond : 2 * p + 1 ≤ h.n ∧ h.cmp (h.q (2 * p + 1)) (h.q (2 * p)) ≤ 0 ∧
          h.cmp (h.q (2 * p + 1)) (h.q p) ≤ 0
      · have hne : (2 * p + 1) ≠ p := by omega
        simp only [hsecond, and_self, if_true, ok_bind, pure_eq_ok, ne_eq, hne,
          not_false_eq_true]
        exact hswap (2 * p + 1) hsecond.1 (by omega)
      · simp only [hsecond, if_false, ok_bind, pure_eq_ok, ne_eq, not_true_eq_false]
        exact ⟨h, rfl, rfl, rfl, rfl⟩

theorem get_min_live (h : avframe_heap_t) (hpos : 0 < h.n) (hn : h.n < MAX_REFERENCE_FRAMES) :
    ∃ h1, avframe_heap_get_min h = .ok (some (h.q 1), h1) ∧ h1.n = h.n - 1 ∧
      h1.cmp = h.cmp ∧ live h = h.q 1 ::ₘ live h1 := by
  have hM : MAX_REFERENCE_FRAMES = 1000 := rfl
  obtain ⟨h1, he, hn1, hc1, hl1⟩ :=
    bubble_down_live (h.n - 1 + 1)
      { q := Function.update h.q 1 (h.q h.n), n := h.n - 1, cmp := h.cmp } 1
      (by show h.n - 1 + 1 < MAX_REFERENCE_FRAMES; omega) (le_refl _)
      (by show h.n - 1 + 1 ≤ h.n - 1 + 1 + 1; omega) (by omega)
  refine ⟨h1, ?_, hn1, hc1, by rw [hl1]; exact live_pop h hpos⟩
  unfold avframe_heap_get_min
  simp only [gt_iff_lt, hpos, if_true, q_load_ok h (show 1 < MAX_REFERENCE_FRAMES by omega),
    q_load_ok h hn, q_store_ok _ _ (show 1 < MAX_REFERENCE_FRAMES by omega), ok_bind]
  rw [he]
  rfl

/-! ## The drain loop -/

theorem mode_key_pts (co : Bool) (m : AVFrame) (t : Int) :
    mode_key co (set_pts m t) = mode_key co m := by
  cases co <;> rfl

theorem no_pts_pts (m : AVFrame) (t : Int) : no_pts (set_pts m t) = no_pts m := rfl

theorem drain_general (w : AVFrame → Int) (co : Bool) :
    ∀ (fuel : Nat) (s : main_state) (out : List AVFrame),
      s.frame_heap.n < fuel → s.frame_heap.n < MAX_REFERENCE_FRAMES →
      ∃ (s1 : main_state) (ws : List AVFrame),
        drain_loop w co fuel s out = .ok (s1, out ++ ws) ∧
        (∀ f ∈ ws, 0 ≤ w f) ∧
        ws.map (mode_key co) = idx_run s.nextidx ws.length ∧
        ws.map AVFrame.pts = (idx_run s.nextidx ws.length).map (fun i => wrap32 (i * 1001)) ∧
        s1.nextidx = idx_after s.nextidx ws.length ∧
        s1.frame_heap.cmp = s.frame_heap.cmp ∧
        s1.frame_heap.n + ws.length ≤ s.frame_heap.n ∧
        (∀ key, Inv key s.frame_heap → Inv key s1.frame_heap) ∧
        ((s1.ret < 0 ∧ ∃ m, mode_key co m = s1.nextidx ∧
            s1.ret = w (set_pts m (wrap32 (s1.nextidx * 1001))) ∧
            (live s.frame_heap).map no_pts =
              (ws.map no_pts : Multiset AVFrame) + no_pts m ::ₘ (live s1.frame_heap).map no_pts) ∨
          ((ws = [] → s1.ret = s.ret) ∧ (ws ≠ [] → 0 ≤ s1.ret) ∧
            (live s.frame_heap).map no_pts =
              (ws.map no_pts : Multiset AVFrame) + (live s1.frame_heap).map no_pts ∧
            ∀ m, avframe_heap_peek_min s1.frame_heap = some m → mode_key co m ≠ s1.nextidx)) := by
  intro fuel
  induction fuel with
  | zero => intro s out h0; omega
  | succ fuel ih =>
    intro s out hfuel hn
    by_cases hpos : 0 < s.frame_heap.n
    · have hpeek : avframe_heap_peek_min s.frame_heap = some (s.frame_heap.q 1) := by
        simp [avframe_heap_peek_min, hpos]
      by_cases hkey : mode_key co (s.frame_heap.q 1) = s.nextidx
      · obtain ⟨h1, he, hn1, hc1, hl1⟩ := get_min_live s.frame_heap hpos hn
        have hinv : ∀ key, Inv key s.frame_heap → Inv key h1 := by
          intro key hi
          obtain ⟨h2, he2, _, hi2, _, _⟩ := get_min_spec key s.frame_heap hi hpos
          rw [he] at he2
          have : h1 = h2 := by
            have := Except.ok.inj he2
            exact (Prod.mk.inj this).2
          rw [this]; exact hi2
        have hkey2 : (if co = true then (s.frame_heap.q 1).coded_picture_number
            else (s.frame_heap.q 1).display_picture_number) = s.nextidx := hkey
        by_cases hfail : w (set_pts (s.frame_heap.q 1) (wrap32 (s.nextidx * 1001))) < 0
        · refine ⟨{ frame_heap := h1, nextidx := s.nextidx,
                    ret := w (set_pts (s.frame_heap.q 1) (wrap32 (s.nextidx * 1001))) }, [], ?_,
            by simp, rfl, rfl, rfl, hc1, by simp only [List.length_nil]; omega, hinv, ?_⟩
          · simp only [drain_loop, hpeek, hkey2, if_true, he, ok_bind, hfail, List.append_nil]
          · left
            refine ⟨hfail, s.frame_heap.q 1, hkey, rfl, ?_⟩
            rw [hl1]; simp
        · obtain ⟨s1, ws, hd, hw, hks, hpts, hnx, hcm, hcnt, hiv, hcase⟩ :=
            ih { frame_heap := h1, nextidx := wrap32 (s.nextidx + 1),
                 ret := w (set_pts (s.frame_heap.q 1) (wrap32 (s.nextidx * 1001))) }
              (out ++ [(set_pts (s.frame_heap.q 1) (wrap32 (s.nextidx * 1001)))])
              (by show h1.n < fuel; omega) (by show h1.n < _; omega)
          refine ⟨s1, (set_pts (s.frame_heap.q 1) (wrap32 (s.nextidx * 1001))) :: ws, ?_, ?_,
            ?_, ?_, ?_, by rw [hcm]; exact hc1, ?_, fun key hi => hiv key (hinv key hi), ?_⟩
          · simp only [drain_loop, hpeek, hkey2, if_true, he, ok_bind, hfail, if_false]
            rw [hd]; simp
          · intro f hf
            rcases List.mem_cons.1 hf with rfl | hf
            · omega
            · exact hw f hf
          · simp only [List.map_cons, List.length_cons, idx_run, mode_key_pts, hkey]
            rw [hks]
          · simp only [List.map_cons, List.length_cons, idx_run]
            rw [hpts]
            rfl
          · simp only [List.length_cons, idx_after]; exact hnx
          · simp only [List.length_cons]
            have hcnt2 : s1.frame_heap.n + ws.length ≤ h1.n := hcnt
            omega
          · rcases hcase with ⟨hneg, m, hm1, hm2, hm3⟩ | ⟨hr1, hr2, hl, hstop⟩
            · left
              refine ⟨hneg, m, hm1, hm2, ?_⟩
              rw [hl1, Multiset.map_cons, hm3]
              simp only [List.map_cons, no_pts_pts, ← Multiset.cons_coe, Multiset.cons_add]
            · right
              refine ⟨by simp, fun _ => ?_, ?_, hstop⟩
              · by_cases hws : ws = []
                · rw [hr1 hws]; show 0 ≤ w _; omega
                · exact hr2 hws
              · rw [hl1, Multiset.map_cons, hl]
                simp only [List.map_cons, no_pts_pts, ← Multiset.cons_coe, Multiset.cons_add]
      · have hkey2 : ¬ (if co = true then (s.frame_heap.q 1).coded_picture_number
            else (s.frame_heap.q 1).display_picture_number) = s.nextidx := hkey
        refine ⟨s, [], ?_, by simp, rfl, rfl, rfl, rfl, by simp, fun _ hi => hi, ?_⟩
        · simp only [drain_loop, hpeek, hkey2, if_false, List.append_nil]
        · right
          refine ⟨fun _ => rfl, by simp, by simp, ?_⟩
          intro m hm
          rw [hpeek] at hm
          have := Option.some.inj hm
          rw [← this]; exact hkey
    · have hpeek : avframe_heap_peek_min s.frame_heap = none := by
        simp [avframe_heap_peek_min, hpos]
      refine ⟨s, [], ?_, by simp, rfl, rfl, rfl, rfl, by simp, fun _ hi => hi, ?_⟩
      · simp only [drain_loop, hpeek, List.append_nil]
      · right
        refine ⟨fun _ => rfl, by simp, by simp, ?_⟩
        intro m hm
        rw [hpeek] at hm
        exact absurd hm (by simp)

/-! ## One iteration of the main loop -/

theorem ingest_general (w : AVFrame → Int) (co : Bool) (s : main_state) (ret : Int)
    (frame : AVFrame) (hroom : s.frame_heap.n + 1 < MAX_REFERENCE_FRAMES) :
    ∃ (s1 : main_state) (ws : List AVFrame),
      ingest w co s ret frame = .ok (s1, ws) ∧
      (∀ f ∈ ws, 0 ≤ w f) ∧
      ws.map (mode_key co) = idx_run s.nextidx ws.length ∧
      ws.map AVFrame.pts = (idx_run s.nextidx ws.length).map (fun i => wrap32 (i * 1001)) ∧
      s1.nextidx = idx_after s.nextidx ws.length ∧
      s1.frame_heap.cmp = s.frame_heap.cmp ∧
      s1.frame_heap.n + ws.length ≤ s.frame_heap.n + 1 ∧
      (∀ key, Inv key s.frame_heap →
        (0 ≤ key (set_display frame s.nextidx) ∧ key (set_display frame s.nextidx) ≤ INT_MAX) →
        Inv key s1.frame_heap) ∧
      ((s1.ret < 0 ∧ ∃ m, mode_key co m = s1.nextidx ∧
          s1.ret = w (set_pts m (wrap32 (s1.nextidx * 1001))) ∧
          (set_display frame s.nextidx ::ₘ live s.frame_heap).map no_pts =
            (ws.map no_pts : Multiset AVFrame) + no_pts m ::ₘ (live s1.frame_heap).map no_pts) ∨
        ((ws = [] → s1.ret = ret) ∧ (ws ≠ [] → 0 ≤ s1.ret) ∧
          (set_display frame s.nextidx ::ₘ live s.frame_heap).map no_pts =
            (ws.map no_pts : Multiset AVFrame) + (live s1.frame_heap).map no_pts ∧
          ∀ m, avframe_heap_peek_min s1.frame_heap = some m → mode_key co m ≠ s1.nextidx)) := by
  obtain ⟨h, he, hn, hc, hl⟩ := insert_live s.frame_heap (set_display frame s.nextidx) hroom
  obtain ⟨s1, ws, hd, hw, hks, hpts, hnx, hcm, hcnt, hiv, hcase⟩ :=
    drain_general w co (h.n + 1) { frame_heap := h, nextidx := s.nextidx, ret := ret } []
      (by show h.n < h.n + 1; omega) (by show h.n < _; omega)
  refine ⟨s1, ws, ?_, hw, hks, hpts, hnx, by rw [hcm]; exact hc, ?_, ?_, ?_⟩
  · simp only [ingest, he, ok_bind]
    rw [hd]; simp
  · have : s1.frame_heap.n + ws.length ≤ h.n := hcnt
    omega
  · intro key hi hg
    obtain ⟨h2, he2, _, hi2, _, _⟩ :=
      insert_spec key s.frame_heap (set_display frame s.nextidx) hi hroom hg
    rw [he] at he2
    have : h = h2 := Except.ok.inj he2
    exact hiv key (by show Inv key h; rw [this]; exact hi2)
  · have hl2 : live ({ frame_heap := h, nextidx := s.nextidx, ret := ret } : main_state).frame_heap
        = set_display frame s.nextidx ::ₘ live s.frame_heap := hl
    rw [hl2] at hcase
    exact hcase

theorem wrap32_succ {k : Int} (h1 : INT_MIN ≤ k) (h2 : k < INT_MAX) : wrap32 (k + 1) = k + 1 := by
  unfold INT_MIN at h1; unfold INT_MAX at h2
  exact wrap32_id (by omega) (by omega)

theorem wrap32_max : wrap32 (INT_MAX + 1) = INT_MIN := by decide

theorem idx_run_length : ∀ (n : Nat) (k : Int), (idx_run k n).length = n := by
  intro n
  induction n with
  | zero => intro k; rfl
  | succ n ih => intro k; simp [idx_run, ih]

theorem idx_run_eq : ∀ (n : Nat) (k : Int), INT_MIN ≤ k → k + n ≤ INT_MAX + 1 →
    idx_run k n = (List.range n).map (fun (i : Nat) => k + (i : Int)) := by
  intro n
  induction n with
  | zero => intro k _ _; rfl
  | succ n ih =>
    intro k h1 h2
    by_cases hn : n = 0
    · subst hn
      show [k] = List.map (fun (i : Nat) => k + (i : Int)) [0]
      simp
    · have hlt : k < INT_MAX := by push_cast at h2; omega
      rw [idx_run, wrap32_succ h1 hlt, ih (k + 1) (by omega) (by push_cast at h2; omega)]
      rw [List.range_succ_eq_map, List.map_cons, List.map_map]
      simp only [Nat.cast_zero, add_zero, List.cons.injEq, true_and]
      apply List.map_congr_left
      intro i _
      simp only [Function.comp, Nat.succ_eq_add_one, Nat.cast_add, Nat.cast_one]
      omega

theorem idx_after_eq : ∀ (n : Nat) (k : Int), INT_MIN ≤ k → k + n ≤ INT_MAX →
    idx_after k n = k + n := by
  intro n
  induction n with
  | zero => intro k _ _; simp [idx_after]
  | succ n ih =>
    intro k h1 h2
    have hlt : k < INT_MAX := by push_cast at h2; omega
    rw [idx_after, wrap32_succ h1 hlt, ih (k + 1) (by omega) (by push_cast at h2; omega)]
    push_cast; omega

theorem idx_after_wrap (n : Nat) (k : Int) (h1 : INT_MIN ≤ k) (h2 : k + n = INT_MAX + 1)
    (hn : 0 < n) : idx_after k n = INT_MIN := by
  obtain ⟨m, rfl⟩ : ∃ m, n = m + 1 := ⟨n - 1, by omega⟩
  have : idx_after k (m + 1) = wrap32 (idx_after k m + 1) := by
    clear h1 h2 hn
    induction m generalizing k with
    | zero => rfl
    | succ m ih => rw [idx_after, ih (wrap32 (k + 1))]; rfl
  rw [this, idx_after_eq m k h1 (by push_cast at h2; omega)]
  have : k + (m : Int) + 1 = INT_MAX + 1 := by push_cast at h2; omega
  rw [this]; exact wrap32_max

theorem idx_run_good : ∀ (n : Nat) (k : Int),
    (∀ i ∈ idx_run k n, 0 ≤ i ∧ i ≤ INT_MAX) → 0 < n → 0 ≤ k ∧ k + n ≤ INT_MAX + 1 := by
  intro n
  induction n with
  | zero => intro k _ h; omega
  | succ n ih =>
    intro k hall _
    have hk := hall k (by simp [idx_run])
    by_cases hn : n = 0
    · subst hn; simp; omega
    · have hrest : ∀ i ∈ idx_run (wrap32 (k + 1)) n, 0 ≤ i ∧ i ≤ INT_MAX := by
        intro i hi; exact hall i (by simp [idx_run, hi])
      have := ih (wrap32 (k + 1)) hrest (by omega)
      by_cases hlt : k < INT_MAX
      · rw [wrap32_succ (by unfold INT_MIN; omega) hlt] at this
        push_cast; omega
      · have hkm : k = INT_MAX := by omega
        rw [hkm, wrap32_max] at this
        unfold INT_MIN at this; omega

/-! ## Emission order of one ingest -/

theorem get_min_out_of_bounds (h : avframe_heap_t) (hn : MAX_REFERENCE_FRAMES ≤ h.n) :
    avframe_heap_get_min h = .error .out_of_bounds := by
  have hM : MAX_REFERENCE_FRAMES = 1000 := rfl
  have hpos : 0 < h.n := by omega
  have h1 : (1 : Nat) < MAX_REFERENCE_FRAMES := by omega
  have h2 : ¬ h.n < MAX_REFERENCE_FRAMES := by omega
  simp [avframe_heap_get_min, hpos, q_load, h1, h2]

theorem drain_blocked (w : AVFrame → Int) (co : Bool) (fuel : Nat) (s : main_state)
    (out : List AVFrame)
    (hroot : 0 < s.frame_heap.n → mode_key co (s.frame_heap.q 1) ≠ s.nextidx) :
    drain_loop w co (fuel + 1) s out = .ok (s, out) := by
  by_cases hpos : 0 < s.frame_heap.n
  · have hpeek : avframe_heap_peek_min s.frame_heap = some (s.frame_heap.q 1) := by
      simp [avframe_heap_peek_min, hpos]
    have hkey : ¬ (if co = true then (s.frame_heap.q 1).coded_picture_number
        else (s.frame_heap.q 1).display_picture_number) = s.nextidx := hroot hpos
    simp only [drain_loop, hpeek, hkey, if_false]
  · have hpeek : avframe_heap_peek_min s.frame_heap = none := by
      simp [avframe_heap_peek_min, hpos]
    simp only [drain_loop, hpeek]

theorem drain_full (w : AVFrame → Int) (co : Bool) (fuel : Nat) (s s1 : main_state)
    (out ws : List AVFrame) (hn : MAX_REFERENCE_FRAMES ≤ s.frame_heap.n)
    (hd : drain_loop w co (fuel + 1) s out = .ok (s1, ws)) : s1 = s ∧ ws = out := by
  have hM : MAX_REFERENCE_FRAMES = 1000 := rfl
  have hpos : 0 < s.frame_heap.n := by omega
  by_cases hkey : mode_key co (s.frame_heap.q 1) = s.nextidx
  · have hpeek : avframe_heap_peek_min s.frame_heap = some (s.frame_heap.q 1) := by
      simp [avframe_heap_peek_min, hpos]
    have hkey2 : (if co = true then (s.frame_heap.q 1).coded_picture_number
        else (s.frame_heap.q 1).display_picture_number) = s.nextidx := hkey
    simp only [drain_loop, hpeek, hkey2, if_true, get_min_out_of_bounds _ hn, error_bind] at hd
    exact absurd hd (by simp)
  · rw [drain_blocked w co fuel s out (fun _ => hkey)] at hd
    have := Except.ok.inj hd
    exact ⟨(Prod.mk.inj this).1.symm, (Prod.mk.inj this).2.symm⟩

/-! ## Gap blocking -/

theorem ingest_blocked (w : AVFrame → Int) (s : main_state) (ret : Int) (frame : AVFrame)
    (hroom : s.frame_heap.n + 1 < MAX_REFERENCE_FRAMES)
    (hheap : ∀ x ∈ live s.frame_heap, x.coded_picture_number ≠ s.nextidx)
    (hframe : frame.coded_picture_number ≠ s.nextidx) :
    ∃ s1, ingest w true s ret frame = .ok (s1, []) ∧ s1.nextidx = s.nextidx ∧
      s1.ret = ret ∧ s1.frame_heap.n = s.frame_heap.n + 1 ∧
      live s1.frame_heap = set_display frame s.nextidx ::ₘ live s.frame_heap := by
  obtain ⟨h, he, hn, _, hl⟩ := insert_live s.frame_heap (set_display frame s.nextidx) hroom
  refine ⟨{ frame_heap := h, nextidx := s.nextidx, ret := ret }, ?_, rfl, rfl, hn, hl⟩
  simp only [ingest, he, ok_bind]
  apply drain_blocked
  intro hpos
  have hmem : h.q 1 ∈ live h := mem_live h (le_refl _) hpos
  rw [hl, Multiset.mem_cons] at hmem
  show (h.q 1).coded_picture_number ≠ s.nextidx
  rcases hmem with heq | hmem
  · rw [heq]; exact hframe
  · exact hheap _ hmem

theorem ingest_silent (w : AVFrame → Int) (s s1 : main_state) (ret : Int) (frame : AVFrame)
    (ws : List AVFrame)
    (hheap : ∀ x ∈ live s.frame_heap, x.coded_picture_number ≠ s.nextidx)
    (hframe : frame.coded_picture_number ≠ s.nextidx)
    (he : ingest w true s ret frame = .ok (s1, ws)) : ws = [] := by
  have hM : MAX_REFERENCE_FRAMES = 1000 := rfl
  by_cases hroom : s.frame_heap.n + 1 < MAX_REFERENCE_FRAMES
  · obtain ⟨s2, he2, _⟩ := ingest_blocked w s ret frame hroom hheap hframe
    rw [he] at he2
    exact (Prod.mk.inj (Except.ok.inj he2)).2
  · by_cases h999 : s.frame_heap.n = 999
    · simp only [ingest, insert_at_999 _ _ h999, error_bind] at he
      exact absurd he (by simp)
    · have hfull : MAX_REFERENCE_FRAMES ≤ s.frame_heap.n := by omega
      have hins : avframe_heap_insert s.frame_heap (set_display frame s.nextidx)
          = .ok s.frame_heap := by
        simp [avframe_heap_insert, hfull]
      simp only [ingest, hins, ok_bind] at he
      exact (drain_full w true _
        { frame_heap := s.frame_heap, nextidx := s.nextidx, ret := ret } _ _ _ hfull he).2

theorem ingest_blocked_any (w : AVFrame → Int) (k : Int) (s s1 : main_state) (ret : Int)
    (frame : AVFrame) (ws : List AVFrame) (hk : s.nextidx = k)
    (hheap : ∀ x ∈ live s.frame_heap, k < x.coded_picture_number)
    (hframe : k < frame.coded_picture_number)
    (he : ingest w true s ret frame = .ok (s1, ws)) :
    ws = [] ∧ s1.nextidx = k ∧ ∀ x ∈ live s1.frame_heap, k < x.coded_picture_number := by
  have hM : MAX_REFERENCE_FRAMES = 1000 := rfl
  have hheap2 : ∀ x ∈ live s.frame_heap, x.coded_picture_number ≠ s.nextidx :=
    fun x hx => by rw [hk]; exact ne_of_gt (hheap x hx)
  by_cases hroom : s.frame_heap.n + 1 < MAX_REFERENCE_FRAMES
  · obtain ⟨s2, he2, hn2, _, _, hl2⟩ := ingest_blocked w s ret frame hroom hheap2
      (by rw [hk]; exact ne_of_gt hframe)
    rw [he] at he2
    have heq := Prod.mk.inj (Except.ok.inj he2)
    rw [heq.1, heq.2]
    refine ⟨rfl, by rw [hn2, hk], ?_⟩
    intro x hx
    rw [hl2, Multiset.mem_cons] at hx
    rcases hx with rfl | hx
    · exact hframe
    · exact hheap x hx
  · by_cases h999 : s.frame_heap.n = 999
    · simp only [ingest, insert_at_999 _ _ h999, error_bind] at he
      exact absurd he (by simp)
    · have hfull : MAX_REFERENCE_FRAMES ≤ s.frame_heap.n := by omega
      have hins : avframe_heap_insert s.frame_heap (set_display frame s.nextidx)
          = .ok s.frame_heap := by
        simp [avframe_heap_insert, hfull]
      simp only [ingest, hins, ok_bind] at he
      obtain ⟨h1, h2⟩ := drain_full w true _
        { frame_heap := s.frame_heap, nextidx := s.nextidx, ret := ret } _ _ _ hfull he
      rw [h1, h2]
      exact ⟨rfl, hk, hheap⟩

theorem seq_blocked (w : AVFrame → Int) (k : Int) :
    ∀ (arrivals : List (Int × AVFrame)) (s s1 : main_state) (ws : List AVFrame),
      s.nextidx = k → (∀ x ∈ live s.frame_heap, k < x.coded_picture_number) →
      (∀ d ∈ arrivals, k < d.2.coded_picture_number) →
      ingest_seq w true s arrivals = .ok (s1, ws) →
      ws = [] ∧ s1.nextidx = k ∧ ∀ x ∈ live s1.frame_heap, k < x.coded_picture_number := by
  intro arrivals
  induction arrivals with
  | nil =>
    intro s s1 ws hk hheap _ he
    have heq := Prod.mk.inj (Except.ok.inj he)
    rw [← heq.1, ← heq.2]
    exact ⟨rfl, hk, hheap⟩
  | cons d ds ih =>
    intro s s1 ws hk hheap harr he
    simp only [ingest_seq] at he
    cases h1 : ingest w true s d.1 d.2 with
    | error e => rw [h1] at he; exact absurd he (by simp)
    | ok r1 =>
      rw [h1, ok_bind] at he
      obtain ⟨hw1, hn1, hh1⟩ := ingest_blocked_any w k s r1.1 d.1 d.2 r1.2 hk hheap
        (harr d (List.mem_cons_self _ _)) h1
      cases h2 : ingest_seq w true r1.1 ds with
      | error e => rw [h2] at he; exact absurd he (by simp)
      | ok r2 =>
        rw [h2, ok_bind] at he
        obtain ⟨hw2, hn2, hh2⟩ := ih r1.1 r2.1 r2.2 hn1 hh1
          (fun e he => harr e (List.mem_cons_of_mem _ he)) h2
        have heq := Prod.mk.inj (Except.ok.inj he)
        rw [← heq.1, ← heq.2, hw1, hw2]
        exact ⟨rfl, hn2, hh2⟩

theorem seq_blocked_runs (w : AVFrame → Int) (k : Int) :
    ∀ (arrivals : List (Int × AVFrame)) (s : main_state), s.nextidx = k →
      s.frame_heap.n + arrivals.length < MAX_REFERENCE_FRAMES →
      (∀ x ∈ live s.frame_heap, k < x.coded_picture_number) →
      (∀ d ∈ arrivals, k < d.2.coded_picture_number) →
      ∃ s1, ingest_seq w true s arrivals = .ok (s1, []) := by
  intro arrivals
  induction arrivals with
  | nil => intro s _ _ _ _; exact ⟨s, rfl⟩
  | cons d ds ih =>
    intro s hk hroom hheap harr
    simp only [List.length_cons] at hroom
    obtain ⟨s1, he1, hn1, _, hcnt1, hl1⟩ := ingest_blocked w s d.1 d.2 (by omega)
      (fun x hx => by rw [hk]; exact ne_of_gt (hheap x hx))
      (by rw [hk]; exact ne_of_gt (harr d (List.mem_cons_self _ _)))
    obtain ⟨s2, he2⟩ := ih s1 (by rw [hn1, hk]) (by omega)
      (by
        intro x hx
        rw [hl1, Multiset.mem_cons] at hx
        rcases hx with rfl | hx
        · exact harr d (List.mem_cons_self _ _)
        · exact hheap x hx)
      (fun e he => harr e (List.mem_cons_of_mem _ he))
    refine ⟨s2, ?_⟩
    simp only [ingest_seq, he1, ok_bind, he2]
    rfl

/-! ## One ingest in coded-order mode, distinct keys -/

theorem map_no_pts_coded (M : Multiset AVFrame) :
    (M.map no_pts).map AVFrame.coded_picture_number = M.map AVFrame.coded_picture_number := by
  rw [Multiset.map_map]; rfl

theorem keys_of_rel (L A : Multiset AVFrame) (ws : List AVFrame)
    (h : L.map no_pts = (ws.map no_pts : Multiset AVFrame) + A.map no_pts) :
    L.map AVFrame.coded_picture_number =
      ((ws.map AVFrame.coded_picture_number : List Int) : Multiset Int) +
        A.map AVFrame.coded_picture_number := by
  have h1 : ((ws.map no_pts : List AVFrame) : Multiset AVFrame) =
      (ws : Multiset AVFrame).map no_pts := (Multiset.map_coe _ _).symm
  rw [h1] at h
  have := congrArg (Multiset.map AVFrame.coded_picture_number) h
  rw [Multiset.map_add, map_no_pts_coded, map_no_pts_coded, map_no_pts_coded,
    Multiset.map_coe] at this
  exact this

theorem ingest_step (w : AVFrame → Int) (s : main_state) (ret : Int) (frame : AVFrame)
    (hinv : Inv AVFrame.coded_picture_number s.frame_heap)
    (hroom : s.frame_heap.n + 1 < MAX_REFERENCE_FRAMES)
    (hgood : 0 ≤ frame.coded_picture_number ∧ frame.coded_picture_number ≤ INT_MAX)
    (hnodup : ((set_display frame s.nextidx ::ₘ live s.frame_heap).map
      AVFrame.coded_picture_number).Nodup)
    (hL : ∀ x ∈ live s.frame_heap, s.nextidx ≤ x.coded_picture_number)
    (hLf : s.nextidx ≤ frame.coded_picture_number) :
    ∃ (s1 : main_state) (ws : List AVFrame),
      ingest w true s ret frame = .ok (s1, ws) ∧
      Inv AVFrame.coded_picture_number s1.frame_heap ∧
      (∀ f ∈ ws, 0 ≤ w f) ∧
      ws.map AVFrame.coded_picture_number =
        (List.range ws.length).map (fun (i : Nat) => s.nextidx + (i : Int)) ∧
      (s1.nextidx = s.nextidx + ws.length ∨
        (s1.nextidx = INT_MIN ∧ s.nextidx + ws.length = INT_MAX + 1)) ∧
      (∀ x ∈ live s1.frame_heap, s.nextidx + ws.length ≤ x.coded_picture_number) ∧
      s1.frame_heap.n + ws.length ≤ s.frame_heap.n + 1 ∧
      ((ws.map AVFrame.coded_picture_number : List Int) : Multiset Int) +
        (live s1.frame_heap).map AVFrame.coded_picture_number ≤
        (set_display frame s.nextidx ::ₘ live s.frame_heap).map AVFrame.coded_picture_number ∧
      ((s1.ret < 0 ∧ ∃ m, m.coded_picture_number = s.nextidx + ws.length ∧
          s1.ret = w (set_pts m (wrap32 (s1.nextidx * 1001))) ∧
          (set_display frame s.nextidx ::ₘ live s.frame_heap).map no_pts =
            (ws.map no_pts : Multiset AVFrame) + no_pts m ::ₘ (live s1.frame_heap).map no_pts) ∨
        ((ws = [] → s1.ret = ret) ∧ (ws ≠ [] → 0 ≤ s1.ret) ∧
          (set_display frame s.nextidx ::ₘ live s.frame_heap).map no_pts =
            (ws.map no_pts : Multiset AVFrame) + (live s1.frame_heap).map no_pts ∧
          ∀ x ∈ live s1.frame_heap, s.nextidx + ws.length < x.coded_picture_number)) := by
  obtain ⟨s1, ws, he, hw, hks, _, hnx, _, hcnt, hiv, hcase⟩ :=
    ingest_general w true s ret frame hroom
  have hi1 : Inv AVFrame.coded_picture_number s1.frame_heap :=
    hiv AVFrame.coded_picture_number hinv hgood
  have hks2 : ws.map AVFrame.coded_picture_number = idx_run s.nextidx ws.length := hks
  -- every frame of the enlarged heap has a good key, not below `nextidx`
  have hL0 : ∀ c ∈ (set_display frame s.nextidx ::ₘ live s.frame_heap).map
      AVFrame.coded_picture_number, 0 ≤ c ∧ c ≤ INT_MAX ∧ s.nextidx ≤ c := by
    intro c hc
    obtain ⟨x, hx, rfl⟩ := Multiset.mem_map.1 hc
    rcases Multiset.mem_cons.1 hx with rfl | hx
    · exact ⟨hgood.1, hgood.2, hLf⟩
    · exact ⟨(hinv.2.2.1 x hx).1, (hinv.2.2.1 x hx).2, hL x hx⟩
  -- the written keys and the keys still held are disjoint parts of the enlarged heap
  have hsub : ((ws.map AVFrame.coded_picture_number : List Int) : Multiset Int) +
      (live s1.frame_heap).map AVFrame.coded_picture_number ≤
      (set_display frame s.nextidx ::ₘ live s.frame_heap).map AVFrame.coded_picture_number := by
    rcases hcase with ⟨_, m, _, _, hrel⟩ | ⟨_, _, hrel, _⟩
    · rw [← Multiset.map_cons] at hrel
      rw [keys_of_rel _ _ _ hrel, Multiset.map_cons, Multiset.add_cons]
      exact Multiset.le_cons_self _ _
    · rw [keys_of_rel _ _ _ hrel]
  have hnd := Multiset.nodup_of_le hsub hnodup
  have hdisj := (Multiset.nodup_add.1 hnd).2.2
  have hwsmem : ∀ c ∈ ws.map AVFrame.coded_picture_number, 0 ≤ c ∧ c ≤ INT_MAX ∧ s.nextidx ≤ c :=
    fun c hc => hL0 c (Multiset.mem_of_le hsub (Multiset.mem_add.2 (Or.inl (Multiset.mem_coe.2 hc))))
  have hlivemem : ∀ x ∈ live s1.frame_heap, s.nextidx ≤ x.coded_picture_number ∧
      x.coded_picture_number ∉ ws.map AVFrame.coded_picture_number := by
    intro x hx
    have hxm : x.coded_picture_number ∈ (live s1.frame_heap).map AVFrame.coded_picture_number :=
      Multiset.mem_map_of_mem _ hx
    refine ⟨(hL0 _ (Multiset.mem_of_le hsub (Multiset.mem_add.2 (Or.inr hxm)))).2.2, ?_⟩
    intro hin
    exact Multiset.disjoint_left.1 hdisj (Multiset.mem_coe.2 hin) hxm
  -- no wrap-around among the written indices
  have hbound : 0 < ws.length → 0 ≤ s.nextidx ∧ s.nextidx + ws.length ≤ INT_MAX + 1 := by
    intro hpos
    apply idx_run_good ws.length s.nextidx _ hpos
    intro i hi
    rw [← hks2] at hi
    exact ⟨(hwsmem i hi).1, (hwsmem i hi).2.1⟩
  have hrange : ws.map AVFrame.coded_picture_number =
      (List.range ws.length).map (fun (i : Nat) => s.nextidx + (i : Int)) := by
    by_cases hpos : 0 < ws.length
    · obtain ⟨h0, h1⟩ := hbound hpos
      rw [hks2, idx_run_eq _ _ (by unfold INT_MIN; omega) h1]
    · have : ws = [] := List.length_eq_zero.1 (by omega)
      subst this; rfl
  have hnext : s1.nextidx = s.nextidx + ws.length ∨
      (s1.nextidx = INT_MIN ∧ s.nextidx + ws.length = INT_MAX + 1) := by
    by_cases hpos : 0 < ws.length
    · obtain ⟨h0, h1⟩ := hbound hpos
      by_cases hle : s.nextidx + ws.length ≤ INT_MAX
      · left; rw [hnx, idx_after_eq _ _ (by unfold INT_MIN; omega) hle]
      · right
        have heq : s.nextidx + ws.length = INT_MAX + 1 := by omega
        exact ⟨by rw [hnx, idx_after_wrap _ _ (by unfold INT_MIN; omega) heq hpos], heq⟩
    · left
      have : ws = [] := List.length_eq_zero.1 (by omega)
      subst this
      rw [hnx]; simp [idx_after]
  have hlow : ∀ x ∈ live s1.frame_heap, s.nextidx + ws.length ≤ x.coded_picture_number := by
    intro x hx
    obtain ⟨h1, h2⟩ := hlivemem x hx
    by_contra hcon
    apply h2
    rw [hrange]
    refine List.mem_map.2 ⟨(x.coded_picture_number - s.nextidx).toNat, ?_, ?_⟩
    · rw [List.mem_range]; omega
    · show s.nextidx + (((x.coded_picture_number - s.nextidx).toNat : Nat) : Int) = _
      omega
  refine ⟨s1, ws, he, hi1, hw, hrange, hnext, hlow, hcnt, hsub, ?_⟩
  rcases hcase with ⟨hneg, m, hm1, hm2, hrel⟩ | ⟨hr1, hr2, hrel, hstop⟩
  · left
    refine ⟨hneg, m, ?_, hm2, hrel⟩
    have hm1' : m.coded_picture_number = s1.nextidx := hm1
    have hmin : no_pts m ∈ (set_display frame s.nextidx ::ₘ live s.frame_heap).map no_pts := by
      rw [hrel]
      exact Multiset.mem_add.2 (Or.inr (Multiset.mem_cons_self _ _))
    obtain ⟨y, hy, hym⟩ := Multiset.mem_map.1 hmin
    have hyc : y.coded_picture_number = m.coded_picture_number := by
      have := congrArg AVFrame.coded_picture_number hym
      exact this
    have hgm := hL0 _ (Multiset.mem_map_of_mem AVFrame.coded_picture_number hy)
    rw [hyc] at hgm
    rcases hnext with h | ⟨h, _⟩
    · rw [hm1', h]
    · rw [hm1', h] at hgm
      unfold INT_MIN at hgm; omega
  · right
    refine ⟨hr1, hr2, hrel, ?_⟩
    intro x hx
    have hxl := hlow x hx
    have hxg := hi1.2.2.1 x hx
    rcases hnext with h | ⟨_, h⟩
    · have hpos : 0 < s1.frame_heap.n := by
        by_contra hcon
        rw [live_empty _ (by omega)] at hx
        simp at hx
      have hroot := hstop (s1.frame_heap.q 1) (by simp [avframe_heap_peek_min, hpos])
      have hroot2 : (s1.frame_heap.q 1).coded_picture_number ≠ s1.nextidx := hroot
      have hrl := hlow _ (mem_live s1.frame_heap (le_refl _) hpos)
      have hmin := root_min_live AVFrame.coded_picture_number s1.frame_heap hi1.2.2.2 x hx
      rw [h] at hroot2
      omega
    · omega

/-! ## The lifecycle invariant -/

theorem reachable_inv (w : AVFrame → Int) (mem : Nat → AVFrame) (s : main_state)
    (seen : List Int) (hr : Reachable w mem s seen) :
    Inv AVFrame.coded_picture_number s.frame_heap ∧
    ((live s.frame_heap).map AVFrame.coded_picture_number).Nodup ∧
    (∀ x ∈ live s.frame_heap, x.coded_picture_number ∈ seen) ∧
    (∀ x ∈ live s.frame_heap, s.nextidx ≤ x.coded_picture_number) ∧
    (0 ≤ s.ret → ∀ x ∈ live s.frame_heap, s.nextidx < x.coded_picture_number) ∧
    (∀ i : Int, 0 ≤ i → i < s.nextidx → i ∈ seen) := by
  induction hr with
  | init =>
    have hl : live (main_init mem true).frame_heap = 0 := live_empty _ rfl
    refine ⟨create_inv mem (some avframe_heap_cmp_coded) _ (Or.inr (Or.inr ⟨rfl, rfl⟩)),
      by rw [hl]; simp, by rw [hl]; simp, by rw [hl]; simp, by rw [hl]; simp, ?_⟩
    intro i h0 h1
    have : (main_init mem true).nextidx = 0 := rfl
    omega
  | @step s s1 seen ws ret frame _ hret hc0 hc1 hfresh hroom he ih =>
    obtain ⟨hinv, hnd, hseen, hL, _, hbelow⟩ := ih
    have hLf : s.nextidx ≤ frame.coded_picture_number := by
      by_contra hcon
      exact hfresh (hbelow _ hc0 (by omega))
    have hnodup : ((set_display frame s.nextidx ::ₘ live s.frame_heap).map
        AVFrame.coded_picture_number).Nodup := by
      rw [Multiset.map_cons, Multiset.nodup_cons]
      refine ⟨?_, hnd⟩
      intro hin
      obtain ⟨x, hx, hxe⟩ := Multiset.mem_map.1 hin
      apply hfresh
      have := hseen x hx
      rw [hxe] at this
      exact this
    obtain ⟨s2, ws2, he2, hi2, _, hrange, hnext, hlow, _, hsub, hcase⟩ :=
      ingest_step w s ret frame hinv hroom ⟨hc0, hc1⟩ hnodup hL hLf
    rw [he] at he2
    have heq := Prod.mk.inj (Except.ok.inj he2)
    have heq1 : s1 = s2 := heq.1
    have heq2 : ws = ws2 := heq.2
    subst heq1; subst heq2
    have hmemL0 : ∀ c ∈ (set_display frame s.nextidx ::ₘ live s.frame_heap).map
        AVFrame.coded_picture_number, c ∈ frame.coded_picture_number :: seen := by
      intro c hc
      obtain ⟨x, hx, rfl⟩ := Multiset.mem_map.1 hc
      rcases Multiset.mem_cons.1 hx with rfl | hx
      · exact List.mem_cons_self _ _
      · exact List.mem_cons_of_mem _ (hseen x hx)
    have hle : s1.nextidx ≤ s.nextidx + ws.length := by
      rcases hnext with h | ⟨h, h2⟩
      · omega
      · rw [h, h2]; unfold INT_MIN INT_MAX; omega
    refine ⟨hi2, ?_, ?_, ?_, ?_, ?_⟩
    · exact Multiset.nodup_of_le (le_trans (Multiset.le_add_left _ _) hsub) hnodup
    · intro x hx
      exact hmemL0 _ (Multiset.mem_of_le hsub
        (Multiset.mem_add.2 (Or.inr (Multiset.mem_map_of_mem _ hx))))
    · intro x hx
      exact le_trans hle (hlow x hx)
    · intro hr1 x hx
      rcases hcase with ⟨hneg, _⟩ | ⟨_, _, _, hstrict⟩
      · omega
      · exact lt_of_le_of_lt hle (hstrict x hx)
    · intro i hi0 hi1
      by_cases hik : i < s.nextidx
      · exact List.mem_cons_of_mem _ (hbelow i hi0 hik)
      · rcases hnext with h | ⟨h, _⟩
        · apply hmemL0
          apply Multiset.mem_of_le hsub
          apply Multiset.mem_add.2
          left
          rw [Multiset.mem_coe, hrange]
          refine List.mem_map.2 ⟨(i - s.nextidx).toNat, ?_, ?_⟩
          · rw [List.mem_range]; omega
          · show s.nextidx + (((i - s.nextidx).toNat : Nat) : Int) = i
            omega
        · rw [h] at hi1
          unfold INT_MIN at hi1; omega

/-! ## Coded-order reordering of a complete run of indices -/

theorem map_no_pts_id (M : Multiset AVFrame) : (M.map no_pts).map frame_id = M.map frame_id := by
  rw [Multiset.map_map]; rfl

theorem ids_of_rel (L A : Multiset AVFrame) (ws : List AVFrame)
    (h : L.map no_pts = (ws.map no_pts : Multiset AVFrame) + A.map no_pts) :
    L.map frame_id = ((ws.map frame_id : List (Int × Nat)) : Multiset (Int × Nat)) +
      A.map frame_id := by
  have h1 : ((ws.map no_pts : List AVFrame) : Multiset AVFrame) =
      (ws : Multiset AVFrame).map no_pts := (Multiset.map_coe _ _).symm
  rw [h1] at h
  have := congrArg (Multiset.map frame_id) h
  rw [Multiset.map_add, map_no_pts_id, map_no_pts_id, map_no_pts_id, Multiset.map_coe] at this
  exact this

theorem card_live (h : avframe_heap_t) : Multiset.card (live h) = h.n := by
  simp [live]

theorem seq_sorted (w : AVFrame → Int) (hw : ∀ f, 0 ≤ w f) :
    ∀ (arrivals : List (Int × AVFrame)) (s : main_state),
      Inv AVFrame.coded_picture_number s.frame_heap →
      s.frame_heap.n + arrivals.length < MAX_REFERENCE_FRAMES →
      (((arrivals.map (fun d => d.2.coded_picture_number) : List Int) : Multiset Int) +
        (live s.frame_heap).map AVFrame.coded_picture_number).Nodup →
      (∀ x ∈ live s.frame_heap, s.nextidx < x.coded_picture_number ∧
        x.coded_picture_number < INT_MAX) →
      (∀ d ∈ arrivals, s.nextidx ≤ d.2.coded_picture_number ∧
        d.2.coded_picture_number < INT_MAX) →
      0 ≤ s.nextidx →
      ∃ (s1 : main_state) (ws : List AVFrame),
        ingest_seq w true s arrivals = .ok (s1, ws) ∧
        ws.map AVFrame.coded_picture_number =
          (List.range ws.length).map (fun (i : Nat) => s.nextidx + (i : Int)) ∧
        s1.nextidx = s.nextidx + ws.length ∧
        (∀ x ∈ live s1.frame_heap, s1.nextidx < x.coded_picture_number) ∧
        ((arrivals.map (fun d => frame_id d.2) : List (Int × Nat)) : Multiset (Int × Nat)) +
            (live s.frame_heap).map frame_id =
          ((ws.map frame_id : List (Int × Nat)) : Multiset (Int × Nat)) +
            (live s1.frame_heap).map frame_id := by
  intro arrivals
  induction arrivals with
  | nil =>
    intro s _ _ _ hL _ _
    exact ⟨s, [], rfl, rfl, by simp, fun x hx => (hL x hx).1, rfl⟩
  | cons d ds ih =>
    intro s hinv hroom hnd hL harr hk0
    simp only [List.length_cons] at hroom
    have hd := harr d (List.mem_cons_self _ _)
    have hndeq : ((((d :: ds).map (fun d => d.2.coded_picture_number) : List Int) :
        Multiset Int) + (live s.frame_heap).map AVFrame.coded_picture_number) =
        ((ds.map (fun d => d.2.coded_picture_number) : List Int) : Multiset Int) +
          (set_display d.2 s.nextidx ::ₘ live s.frame_heap).map
            AVFrame.coded_picture_number := by
      rw [List.map_cons, ← Multiset.cons_coe, Multiset.cons_add, Multiset.map_cons,
        Multiset.add_cons]
      rfl
    rw [hndeq] at hnd
    have hnodup := (Multiset.nodup_add.1 hnd).2.1
    have hdisj := (Multiset.nodup_add.1 hnd).2.2
    have hL0 : ∀ c ∈ (set_display d.2 s.nextidx ::ₘ live s.frame_heap).map
        AVFrame.coded_picture_number, c < INT_MAX := by
      intro c hc
      obtain ⟨x, hx, rfl⟩ := Multiset.mem_map.1 hc
      rcases Multiset.mem_cons.1 hx with rfl | hx
      · exact hd.2
      · exact (hL x hx).2
    obtain ⟨sa, wa, hea, hia, _, hra, hna, _, hcnta, hsuba, hcasea⟩ :=
      ingest_step w s d.1 d.2 hinv (by omega) ⟨by omega, le_of_lt hd.2⟩ hnodup
        (fun x hx => le_of_lt (hL x hx).1) hd.1
    have hwamem : ∀ c ∈ wa.map AVFrame.coded_picture_number,
        c ∈ (set_display d.2 s.nextidx ::ₘ live s.frame_heap).map
          AVFrame.coded_picture_number :=
      fun c hc => Multiset.mem_of_le hsuba (Multiset.mem_add.2 (Or.inl (Multiset.mem_coe.2 hc)))
    have hlamem : ∀ x ∈ live sa.frame_heap, x.coded_picture_number ∈
        (set_display d.2 s.nextidx ::ₘ live s.frame_heap).map AVFrame.coded_picture_number :=
      fun x hx => Multiset.mem_of_le hsuba
        (Multiset.mem_add.2 (Or.inr (Multiset.mem_map_of_mem _ hx)))
    have hnexta : sa.nextidx = s.nextidx + wa.length := by
      rcases hna with h | ⟨_, h⟩
      · exact h
      · exfalso
        have hpos : 0 < wa.length := by
          by_contra hcon
          have : wa.length = 0 := by omega
          rw [this] at h
          have := hd.2
          push_cast at h
          omega
        have hin : INT_MAX ∈ wa.map AVFrame.coded_picture_number := by
          rw [hra]
          refine List.mem_map.2 ⟨wa.length - 1, by rw [List.mem_range]; omega, ?_⟩
          show s.nextidx + ((wa.length - 1 : Nat) : Int) = INT_MAX
          omega
        have := hL0 _ (hwamem _ hin)
        omega
    rcases hcasea with ⟨hneg, m, _, hm2, _⟩ | ⟨_, _, hrela, hstricta⟩
    · exfalso
      have := hw (set_pts m (wrap32 (sa.nextidx * 1001)))
      omega
    · obtain ⟨s1, wb, heb, hrb, hnb, hLb, hrelb⟩ := ih sa hia (by omega)
        (by
          apply Multiset.nodup_of_le _ hnd
          exact add_le_add_left (le_trans (Multiset.le_add_left _ _) hsuba) _)
        (fun x hx => ⟨by rw [hnexta]; exact hstricta x hx, hL0 _ (hlamem x hx)⟩)
        (by
          intro e he
          have hee := harr e (List.mem_cons_of_mem _ he)
          refine ⟨?_, hee.2⟩
          rw [hnexta]
          by_contra hcon
          have hin : e.2.coded_picture_number ∈ wa.map AVFrame.coded_picture_number := by
            rw [hra]
            refine List.mem_map.2 ⟨(e.2.coded_picture_number - s.nextidx).toNat, ?_, ?_⟩
            · rw [List.mem_range]; omega
            · show s.nextidx + (((e.2.coded_picture_number - s.nextidx).toNat : Nat) : Int) = _
              omega
          have hin2 : e.2.coded_picture_number ∈
              ((ds.map (fun d => d.2.coded_picture_number) : List Int) : Multiset Int) :=
            Multiset.mem_coe.2 (List.mem_map.2 ⟨e, he, rfl⟩)
          exact Multiset.disjoint_left.1 hdisj hin2 (hwamem _ hin))
        (by rw [hnexta]; omega)
      refine ⟨s1, wa ++ wb, ?_, ?_, ?_, hLb, ?_⟩
      · simp only [ingest_seq, hea, ok_bind, heb]
        rfl
      · rw [List.map_append, List.length_append, List.range_add, List.map_append, hra, hrb,
          List.map_map]
        congr 1
        apply List.map_congr_left
        intro i _
        simp only [Function.comp]
        rw [hnexta]
        push_cast
        omega
      · rw [hnb, hnexta, List.length_append]
        push_cast
        omega
      · have h1 := ids_of_rel _ _ _ hrela
        rw [Multiset.map_cons] at h1
        have hfid : frame_id (set_display d.2 s.nextidx) = frame_id d.2 := rfl
        rw [hfid] at h1
        rw [List.map_cons, ← Multiset.cons_coe, List.map_append, ← Multiset.coe_add]
        calc (frame_id d.2 ::ₘ ((ds.map (fun d => frame_id d.2) : List (Int × Nat)) :
                Multiset (Int × Nat))) + (live s.frame_heap).map frame_id
            = ((ds.map (fun d => frame_id d.2) : List (Int × Nat)) : Multiset (Int × Nat)) +
                (frame_id d.2 ::ₘ (live s.frame_heap).map frame_id) := by
              rw [Multiset.cons_add, Multiset.add_cons]
          _ = ((ds.map (fun d => frame_id d.2) : List (Int × Nat)) : Multiset (Int × Nat)) +
                (((wa.map frame_id : List (Int × Nat)) : Multiset (Int × Nat)) +
                  (live sa.frame_heap).map frame_id) := by rw [h1]
          _ = ((wa.map frame_id : List (Int × Nat)) : Multiset (Int × Nat)) +
                (((ds.map (fun d => frame_id d.2) : List (Int × Nat)) : Multiset (Int × Nat)) +
                  (live sa.frame_heap).map frame_id) := by
              rw [add_left_comm]
          _ = ((wa.map frame_id : List (Int × Nat)) : Multiset (Int × Nat)) +
                (((wb.map frame_id : List (Int × Nat)) : Multiset (Int × Nat)) +
                  (live s1.frame_heap).map frame_id) := by rw [hrelb]
          _ = _ := by rw [add_assoc]

/-! ## The comparators -/

/-- Where the difference of the picture numbers fits a 32-bit `int` (as for all pairs of
non-negative picture numbers), each comparator is positive, zero or negative exactly as
the first picture number is greater than, equal to or less than the second; and on frames
with non-negative `int` picture numbers the relation `cmp <= 0` is total and transitive. -/
theorem cmp_sign_of_small_difference (a b : AVFrame)
    (hcoded : INT_MIN ≤ a.coded_picture_number - b.coded_picture_number ∧
      a.coded_picture_number - b.coded_picture_number ≤ INT_MAX)
    (hdisplay : INT_MIN ≤ a.display_picture_number - b.display_picture_number ∧
      a.display_picture_number - b.display_picture_number ≤ INT_MAX) :
    ((0 < avframe_heap_cmp_coded a b ↔ a.coded_picture_number > b.coded_picture_number) ∧
      (avframe_heap_cmp_coded a b = 0 ↔ a.coded_picture_number = b.coded_picture_number) ∧
      (avframe_heap_cmp_coded a b < 0 ↔ a.coded_picture_number < b.coded_picture_number)) ∧
    ((0 < avframe_heap_cmp_display a b ↔
        a.display_picture_number > b.display_picture_number) ∧
      (avframe_heap_cmp_display a b = 0 ↔
        a.display_picture_number = b.display_picture_number) ∧
      (avframe_heap_cmp_display a b < 0 ↔
        a.display_picture_number < b.display_picture_number)) ∧
    (∀ x y z : AVFrame,
      (0 ≤ x.coded_picture_number ∧ x.coded_picture_number ≤ INT_MAX) →
      (0 ≤ y.coded_picture_number ∧ y.coded_picture_number ≤ INT_MAX) →
      (0 ≤ z.coded_picture_number ∧ z.coded_picture_number ≤ INT_MAX) →
      (avframe_heap_cmp_coded x y ≤ 0 ∨ avframe_heap_cmp_coded y x ≤ 0) ∧
      (avframe_heap_cmp_coded x y ≤ 0 → avframe_heap_cmp_coded y z ≤ 0 →
        avframe_heap_cmp_coded x z ≤ 0)) ∧
    (∀ x y z : AVFrame,
      (0 ≤ x.display_picture_number ∧ x.display_picture_number ≤ INT_MAX) →
      (0 ≤ y.display_picture_number ∧ y.display_picture_number ≤ INT_MAX) →
      (0 ≤ z.display_picture_number ∧ z.display_picture_number ≤ INT_MAX) →
      (avframe_heap_cmp_display x y ≤ 0 ∨ avframe_heap_cmp_display y x ≤ 0) ∧
      (avframe_heap_cmp_display x y ≤ 0 → avframe_heap_cmp_display y z ≤ 0 →
        avframe_heap_cmp_display x z ≤ 0)) := by
  unfold INT_MIN INT_MAX at *
  refine ⟨?_, ?_, ?_, ?_⟩
  · unfold avframe_heap_cmp_coded
    rw [wrap32_id hcoded.1 hcoded.2]
    omega
  · unfold avframe_heap_cmp_display
    rw [wrap32_id hdisplay.1 hdisplay.2]
    omega
  · intro x y z hx hy hz
    unfold avframe_heap_cmp_coded
    rw [wrap32_id (by omega) (by omega), wrap32_id (by omega) (by omega),
      wrap32_id (by omega) (by omega), wrap32_id (by omega) (by omega)]
    omega
  · intro x y z hx hy hz
    unfold avframe_heap_cmp_display
    rw [wrap32_id (by omega) (by omega), wrap32_id (by omega) (by omega),
      wrap32_id (by omega) (by omega), wrap32_id (by omega) (by omega)]
    omega

/-! ## Timestamps of written frames -/

theorem written_pts (w : AVFrame → Int) (co : Bool) (s s1 : main_state) (ret : Int)
    (frame : AVFrame) (ws : List AVFrame) (he : ingest w co s ret frame = .ok (s1, ws)) :
    ws.map AVFrame.pts = (ws.map (mode_key co)).map (fun i => wrap32 (i * 1001)) := by
  have hM : MAX_REFERENCE_FRAMES = 1000 := rfl
  by_cases hroom : s.frame_heap.n + 1 < MAX_REFERENCE_FRAMES
  · obtain ⟨s2, ws2, he2, _, hks, hpts, _⟩ := ingest_general w co s ret frame hroom
    rw [he] at he2
    have heq := Prod.mk.inj (Except.ok.inj he2)
    rw [heq.2, hks, hpts]
  · by_cases h999 : s.frame_heap.n = 999
    · simp only [ingest, insert_at_999 _ _ h999, error_bind] at he
      exact absurd he (by simp)
    · have hfull : MAX_REFERENCE_FRAMES ≤ s.frame_heap.n := by omega
      have hins : avframe_heap_insert s.frame_heap (set_display frame s.nextidx)
          = .ok s.frame_heap := by
        simp [avframe_heap_insert, hfull]
      simp only [ingest, hins, ok_bind] at he
      rw [(drain_full w co _
        { frame_heap := s.frame_heap, nextidx := s.nextidx, ret := ret } _ _ _ hfull he).2]
      rfl

theorem wrap32_mul_small (i : Int) (h0 : 0 ≤ i) (h1 : i ≤ 2145338) :
    wrap32 (i * 1001) = 1001 * i := by
  rw [wrap32_id (by omega) (by omega)]; omega

/-! ## `avframe_heap_peek_min` and `avframe_heap_get_min`, call by call -/

theorem heap_order_key (key : AVFrame → Int) (h : avframe_heap_t) (hk : Keyed h key)
    (hg : GoodLive key h) (ho : heap_order h) : KeyOrder key h := by
  intro p hp1 hpn
  exact (cmp_le_iff hk (hg _ (mem_live h (by omega) (by omega)))
    (hg _ (mem_live h (by omega) hpn))).1 (ho p hp1 hpn)

theorem get_min_n_empty (h : avframe_heap_t) (h0 : h.n = 0) :
    ∀ k, get_min_n k h = .ok (List.replicate k none, h) := by
  intro k
  induction k with
  | zero => rfl
  | succ k ih =>
    simp only [get_min_n, get_min_empty h h0, ok_bind, ih]
    rfl

/-! ## Display-order mode -/

theorem live_one (h : avframe_heap_t) (h1 : h.n = 1) : live h = {h.q 1} := by
  unfold live; rw [h1]; simp

theorem display_step (w : AVFrame → Int) (s : main_state) (ret : Int) (frame : AVFrame)
    (hn : s.frame_heap.n = 0)
    (hw : 0 ≤ w (set_pts (set_display frame s.nextidx) (wrap32 (s.nextidx * 1001)))) :
    ∃ s1, ingest w false s ret frame =
        .ok (s1, [set_pts (set_display frame s.nextidx) (wrap32 (s.nextidx * 1001))]) ∧
      s1.frame_heap.n = 0 ∧ s1.frame_heap.cmp = s.frame_heap.cmp ∧
      s1.nextidx = wrap32 (s.nextidx + 1) ∧
      s1.ret = w (set_pts (set_display frame s.nextidx) (wrap32 (s.nextidx * 1001))) := by
  have hM : MAX_REFERENCE_FRAMES = 1000 := rfl
  obtain ⟨h, he, hn1, hc1, hl1⟩ :=
    insert_live s.frame_heap (set_display frame s.nextidx) (by omega)
  have hn1' : h.n = 1 := by omega
  have hq : h.q 1 = set_display frame s.nextidx := by
    rw [live_one h hn1', live_empty _ hn] at hl1
    have := Multiset.singleton_inj.1 hl1
    exact this
  obtain ⟨h2, he2, hn2, hc2, _⟩ := get_min_live h (by omega) (by omega)
  rw [hq] at he2
  have hpeek : avframe_heap_peek_min h = some (set_display frame s.nextidx) := by
    simp [avframe_heap_peek_min, hn1', hq]
  have hnf : ¬ w (set_pts (set_display frame s.nextidx) (wrap32 (s.nextidx * 1001))) < 0 := by
    omega
  refine ⟨{ frame_heap := h2, nextidx := wrap32 (s.nextidx + 1),
            ret := w (set_pts (set_display frame s.nextidx) (wrap32 (s.nextidx * 1001))) },
    ?_, by show h2.n = 0; omega, by show h2.cmp = _; rw [hc2, hc1], rfl, rfl⟩
  simp only [ingest, he, ok_bind, hn1']
  have hkey : (if false = true then (set_display frame s.nextidx).coded_picture_number
      else (set_display frame s.nextidx).display_picture_number) = s.nextidx := rfl
  simp only [drain_loop, hpeek, hkey, if_true, he2, ok_bind, hnf, if_false, List.nil_append]
  have hpeek2 : avframe_heap_peek_min h2 = none := by
    have : h2.n = 0 := by omega
    simp [avframe_heap_peek_min, this]
  simp only [hpeek2]

theorem display_seq (w : AVFrame → Int) (hw : ∀ f, 0 ≤ w f) :
    ∀ (arrivals : List (Int × AVFrame)) (s : main_state), s.frame_heap.n = 0 →
      ∃ s1, ingest_seq w false s arrivals = .ok (s1, pass_through s.nextidx arrivals) ∧
        s1.frame_heap.n = 0 ∧ s1.frame_heap.cmp = s.frame_heap.cmp ∧
        s1.nextidx = idx_after s.nextidx arrivals.length := by
  intro arrivals
  induction arrivals with
  | nil => intro s hn; exact ⟨s, rfl, hn, rfl, rfl⟩
  | cons d ds ih =>
    intro s hn
    obtain ⟨sa, hea, hna, hca, hxa, _⟩ := display_step w s d.1 d.2 hn (hw _)
    obtain ⟨s1, he1, hn1, hc1, hx1⟩ := ih sa hna
    refine ⟨s1, ?_, hn1, by rw [hc1, hca], ?_⟩
    · simp only [ingest_seq, hea, ok_bind, he1, pass_through]
      rw [hxa]
      rfl
    · rw [hx1, hxa]; rfl

theorem pass_through_ids : ∀ (arrivals : List (Int × AVFrame)) (k : Int),
    (pass_through k arrivals).map frame_id = arrivals.map (fun d => frame_id d.2) := by
  intro arrivals
  induction arrivals with
  | nil => intro k; rfl
  | cons d ds ih =>
    intro k
    simp only [pass_through, List.map_cons, ih]
    rfl

theorem pass_through_display : ∀ (arrivals : List (Int × AVFrame)) (k : Int),
    (pass_through k arrivals).map AVFrame.display_picture_number =
      idx_run k arrivals.length := by
  intro arrivals
  induction arrivals with
  | nil => intro k; rfl
  | cons d ds ih =>
    intro k
    simp only [pass_through, List.map_cons, ih, List.length_cons, idx_run]
    rfl

theorem pass_through_pts : ∀ (arrivals : List (Int × AVFrame)) (k : Int),
    (pass_through k arrivals).map AVFrame.pts =
      (idx_run k arrivals.length).map (fun i => wrap32 (i * 1001)) := by
  intro arrivals
  induction arrivals with
  | nil => intro k; rfl
  | cons d ds ih =>
    intro k
    simp only [pass_through, List.map_cons, ih, List.length_cons, idx_run]
    rfl

/-! ## Termination -/

theorem bubble_up_terminates :
    ∀ (p : Nat) (h : avframe_heap_t), h.n < MAX_REFERENCE_FRAMES → 1 ≤ p → p ≤ h.n →
      ∃ h1, h1.n = h.n ∧ ∀ fuel, p ≤ fuel → avframe_heap_bubble_up fuel h p = .ok h1 := by
  intro p
  induction p using Nat.strong_induction_on with
  | _ p ih =>
    intro h hn hp1 hpn
    have hM : MAX_REFERENCE_FRAMES = 1000 := rfl
    by_cases hroot : p = 1
    · subst hroot
      refine ⟨h, rfl, fun fuel hf => ?_⟩
      obtain ⟨f, rfl⟩ : ∃ f, fuel = f + 1 := ⟨fuel - 1, by omega⟩
      simp [avframe_heap_bubble_up, avframe_heap_parent]
    · have hpar : avframe_heap_parent p = ((p / 2 : Nat) : Int) := by
        simp [avframe_heap_parent, hroot]
      have hne : avframe_heap_parent p ≠ -1 := by rw [hpar]; omega
      have htn : (avframe_heap_parent p).toNat = p / 2 := by rw [hpar]; omega
      by_cases hc : h.cmp (h.q (p / 2)) (h.q p) ≥ 0
      · obtain ⟨h1, hn1, hall⟩ := ih (p / 2) (by omega) { h with q := swapq h.q p (p / 2) } hn
          (by omega) (by show p / 2 ≤ h.n; omega)
        refine ⟨h1, hn1, fun fuel hf => ?_⟩
        obtain ⟨f, rfl⟩ : ∃ f, fuel = f + 1 := ⟨fuel - 1, by omega⟩
        unfold avframe_heap_bubble_up
        simp only [hne, if_false, htn, q_load_ok h (show p / 2 < MAX_REFERENCE_FRAMES by omega),
          q_load_ok h (show p < MAX_REFERENCE_FRAMES by omega), ok_bind, hc, if_true,
          swap_ok h (show p < MAX_REFERENCE_FRAMES by omega)
            (show p / 2 < MAX_REFERENCE_FRAMES by omega)]
        exact hall f (by omega)
      · refine ⟨h, rfl, fun fuel hf => ?_⟩
        obtain ⟨f, rfl⟩ : ∃ f, fuel = f + 1 := ⟨fuel - 1, by omega⟩
        unfold avframe_heap_bubble_up
        simp only [hne, if_false, htn, q_load_ok h (show p / 2 < MAX_REFERENCE_FRAMES by omega),
          q_load_ok h (show p < MAX_REFERENCE_FRAMES by omega), ok_bind, hc]

theorem bubble_down_terminates :
    ∀ (k : Nat) (h : avframe_heap_t) (p : Nat), h.n + 1 - p = k →
      h.n < MAX_REFERENCE_FRAMES → 1 ≤ p →
      ∃ h1, h1.n = h.n ∧
        ∀ fuel, h.n + 1 ≤ fuel + p → 1 ≤ fuel → avframe_heap_bubble_down fuel h p = .ok h1 := by
  intro k
  induction k using Nat.strong_induction_on with
  | _ k ih =>
    intro h p hk hn hp1
    have hM : MAX_REFERENCE_FRAMES = 1000 := rfl
    have hstep : ∀ m, m ≤ h.n → 2 * p ≤ m →
        ∃ h1, h1.n = h.n ∧ ∀ f, h.n + 1 ≤ f + 1 + p →
          (do
            let h1 ← avframe_heap_swap h p m
            avframe_heap_bubble_down f h1 m) = Except.ok h1 := by
      intro m hm hm2
      obtain ⟨h1, hn1, hall⟩ := ih (h.n + 1 - m) (by omega) { h with q := swapq h.q p m } m rfl
        hn (by omega)
      refine ⟨h1, hn1, fun f hf => ?_⟩
      rw [swap_ok h (show p < MAX_REFERENCE_FRAMES by omega)
        (show m < MAX_REFERENCE_FRAMES by omega), ok_bind]
      exact hall f (by show h.n + 1 ≤ f + m; omega) (by omega)
    by_cases hfirst : 2 * p ≤ h.n ∧ h.cmp (h.q (2 * p)) (h.q (2 * p + 1)) ≤ 0 ∧
        h.cmp (h.q (2 * p)) (h.q p) ≤ 0
    · obtain ⟨h1, hn1, hall⟩ := hstep (2 * p) hfirst.1 (le_refl _)
      refine ⟨h1, hn1, fun fuel hf hf1 => ?_⟩
      obtain ⟨f, rfl⟩ : ∃ f, fuel = f + 1 := ⟨fuel - 1, by omega⟩
      have hne : (2 * p) ≠ p := by omega
      unfold avframe_heap_bubble_down
      simp only [avframe_heap_young_child]
      rw [child_is_min_ok h (2 * p) (2 * p + 1) p (by intro hc; omega)]
      simp only [ok_bind, decide_eq_true_eq, hfirst, and_self, if_true, pure_eq_ok, ne_eq, hne,
        not_false_eq_true]
      exact hall f hf
    · by_cases hsecond : 2 * p + 1 ≤ h.n ∧ h.cmp (h.q (2 * p + 1)) (h.q (2 * p)) ≤ 0 ∧
          h.cmp (h.q (2 * p + 1)) (h.q p) ≤ 0
      · obtain ⟨h1, hn1, hall⟩ := hstep (2 * p + 1) hsecond.1 (by omega)
        refine ⟨h1, hn1, fun fuel hf hf1 => ?_⟩
        obtain ⟨f, rfl⟩ : ∃ f, fuel = f + 1 := ⟨fuel - 1, by omega⟩
        have hne : (2 * p + 1) ≠ p := by omega
        unfold avframe_heap_bubble_down
        simp only [avframe_heap_young_child]
        rw [child_is_min_ok h (2 * p) (2 * p + 1) p (by intro hc; omega)]
        simp only [ok_bind, decide_eq_true_eq, hfirst, if_false]
        rw [child_is_min_ok h (2 * p + 1) (2 * p) p (by intro hc; omega)]
        simp only [ok_bind, decide_eq_true_eq, hsecond, and_self, if_true, pure_eq_ok, ne_eq,
          hne, not_false_eq_true]
        exact hall f hf
      · refine ⟨h, rfl, fun fuel hf hf1 => ?_⟩
        obtain ⟨f, rfl⟩ : ∃ f, fuel = f + 1 := ⟨fuel - 1, by omega⟩
        unfold avframe_heap_bubble_down
        simp only [avframe_heap_young_child]
        rw [child_is_min_ok h (2 * p) (2 * p + 1) p (by intro hc; omega)]
        simp only [ok_bind, decide_eq_true_eq, hfirst, if_false]
        rw [child_is_min_ok h (2 * p + 1) (2 * p) p (by intro hc; omega)]
        simp only [ok_bind, decide_eq_true_eq, hsecond, if_false, pure_eq_ok, ne_eq,
          not_true_eq_false]

theorem drain_terminates (w : AVFrame → Int) (co : Bool) :
    ∀ (n : Nat) (s : main_state) (out : List AVFrame), s.frame_heap.n = n →
      n < MAX_REFERENCE_FRAMES →
      ∃ (s1 : main_state) (ws : List AVFrame), s1.frame_heap.n + ws.length ≤ n ∧
        ∀ fuel, n < fuel → drain_loop w co fuel s out = .ok (s1, out ++ ws) := by
  intro n
  induction n with
  | zero =>
    intro s out hn _
    refine ⟨s, [], by simp [hn], fun fuel hf => ?_⟩
    obtain ⟨f, rfl⟩ : ∃ f, fuel = f + 1 := ⟨fuel - 1, by omega⟩
    rw [drain_blocked w co f s out (fun hpos => by omega)]
    simp
  | succ n ih =>
    intro s out hn hlt
    have hpos : 0 < s.frame_heap.n := by omega
    have hpeek : avframe_heap_peek_min s.frame_heap = some (s.frame_heap.q 1) := by
      simp [avframe_heap_peek_min, hpos]
    by_cases hkey : mode_key co (s.frame_heap.q 1) = s.nextidx
    · obtain ⟨h1, he, hn1, _, _⟩ := get_min_live s.frame_heap hpos (by omega)
      have hkey2 : (if co = true then (s.frame_heap.q 1).coded_picture_number
          else (s.frame_heap.q 1).display_picture_number) = s.nextidx := hkey
      by_cases hfail : w (set_pts (s.frame_heap.q 1) (wrap32 (s.nextidx * 1001))) < 0
      · refine ⟨{ frame_heap := h1, nextidx := s.nextidx,
                  ret := w (set_pts (s.frame_heap.q 1) (wrap32 (s.nextidx * 1001))) }, [],
          by show h1.n + 0 ≤ n + 1; omega, fun fuel hf => ?_⟩
        obtain ⟨f, rfl⟩ : ∃ f, fuel = f + 1 := ⟨fuel - 1, by omega⟩
        simp only [drain_loop, hpeek, hkey2, if_true, he, ok_bind, hfail, List.append_nil]
      · obtain ⟨s1, ws, hcnt, hall⟩ :=
          ih { frame_heap := h1, nextidx := wrap32 (s.nextidx + 1),
               ret := w (set_pts (s.frame_heap.q 1) (wrap32 (s.nextidx * 1001))) }
            (out ++ [set_pts (s.frame_heap.q 1) (wrap32 (s.nextidx * 1001))])
            (by show h1.n = n; omega) (by omega)
        refine ⟨s1, set_pts (s.frame_heap.q 1) (wrap32 (s.nextidx * 1001)) :: ws,
          by simp only [List.length_cons]; omega, fun fuel hf => ?_⟩
        obtain ⟨f, rfl⟩ : ∃ f, fuel = f + 1 := ⟨fuel - 1, by omega⟩
        simp only [drain_loop, hpeek, hkey2, if_true, he, ok_bind, hfail, if_false]
        rw [hall f (by omega)]
        simp
    · refine ⟨s, [], by simp [hn], fun fuel hf => ?_⟩
      obtain ⟨f, rfl⟩ : ∃ f, fuel = f + 1 := ⟨fuel - 1, by omega⟩
      rw [drain_blocked w co f s out (fun _ => hkey)]
      simp

theorem ingest_never_out_of_fuel (w : AVFrame → Int) (co : Bool) (s : main_state) (ret : Int)
    (frame : AVFrame) : ingest w co s ret frame ≠ .error .out_of_fuel := by
  have hM : MAX_REFERENCE_FRAMES = 1000 := rfl
  by_cases hroom : s.frame_heap.n + 1 < MAX_REFERENCE_FRAMES
  · obtain ⟨s1, ws, he, _⟩ := ingest_general w co s ret frame hroom
    rw [he]; simp
  · by_cases h999 : s.frame_heap.n = 999
    · simp only [ingest, insert_at_999 _ _ h999, error_bind]
      simp
    · have hfull : MAX_REFERENCE_FRAMES ≤ s.frame_heap.n := by omega
      have hins : avframe_heap_insert s.frame_heap (set_display frame s.nextidx)
          = .ok s.frame_heap := by
        simp [avframe_heap_insert, hfull]
      simp only [ingest, hins, ok_bind]
      have hpos : 0 < s.frame_heap.n := by omega
      have hpeek : avframe_heap_peek_min s.frame_heap = some (s.frame_heap.q 1) := by
        simp [avframe_heap_peek_min, hpos]
      by_cases hkey : mode_key co (s.frame_heap.q 1) = s.nextidx
      · have hkey2 : (if co = true then (s.frame_heap.q 1).coded_picture_number
            else (s.frame_heap.q 1).display_picture_number) = s.nextidx := hkey
        simp only [drain_loop, hpeek, hkey2, if_true, get_min_out_of_bounds _ hfull, error_bind]
        simp
      · rw [drain_blocked w co s.frame_heap.n
          { frame_heap := s.frame_heap, nextidx := s.nextidx, ret := ret } [] (fun _ => hkey)]
        simp

/-! ## Stalls -/

theorem silent_seq (w : AVFrame → Int) (co : Bool) (P : main_state → Prop)
    (Q : Int → AVFrame → Prop)
    (hstep : ∀ (s s1 : main_state) (ret : Int) (frame : AVFrame) (ws : List AVFrame),
      P s → Q s.nextidx frame → ingest w co s ret frame = .ok (s1, ws) →
      ws = [] ∧ s1.nextidx = s.nextidx ∧ s1.ret = ret ∧
      live s.frame_heap ≤ live s1.frame_heap ∧ P s1) :
    ∀ (arrivals : List (Int × AVFrame)) (s s1 : main_state) (ws : List AVFrame),
      P s → (∀ d ∈ arrivals, Q s.nextidx d.2) →
      ingest_seq w co s arrivals = .ok (s1, ws) →
      ws = [] ∧ s1.nextidx = s.nextidx ∧ s1.ret = (arrivals.map Prod.fst).getLastD s.ret ∧
      live s.frame_heap ≤ live s1.frame_heap ∧ P s1 := by
  intro arrivals
  induction arrivals with
  | nil =>
    intro s s1 ws hP _ he
    have heq := Prod.mk.inj (Except.ok.inj he)
    rw [← heq.1, ← heq.2]
    exact ⟨rfl, rfl, rfl, le_refl _, hP⟩
  | cons d ds ih =>
    intro s s1 ws hP hQ he
    simp only [ingest_seq] at he
    cases h1 : ingest w co s d.1 d.2 with
    | error e => rw [h1] at he; exact absurd he (by simp)
    | ok r1 =>
      rw [h1, ok_bind] at he
      obtain ⟨hw1, hn1, hr1, hl1, hP1⟩ := hstep s r1.1 d.1 d.2 r1.2 hP
        (hQ d (List.mem_cons_self _ _)) h1
      cases h2 : ingest_seq w co r1.1 ds with
      | error e => rw [h2] at he; exact absurd he (by simp)
      | ok r2 =>
        rw [h2, ok_bind] at he
        obtain ⟨hw2, hn2, hr2, hl2, hP2⟩ := ih r1.1 r2.1 r2.2 hP1
          (fun e he => by rw [hn1]; exact hQ e (List.mem_cons_of_mem _ he)) h2
        have heq := Prod.mk.inj (Except.ok.inj he)
        rw [← heq.1, ← heq.2, hw1, hw2]
        refine ⟨rfl, by rw [hn2, hn1], ?_, le_trans hl1 hl2, hP2⟩
        rw [hr2, hr1, List.map_cons, List.getLastD_cons]

theorem silent_seq_runs (w : AVFrame → Int) (co : Bool) (P : main_state → Prop)
    (Q : Int → AVFrame → Prop)
    (hstep : ∀ (s : main_state) (ret : Int) (frame : AVFrame),
      P s → Q s.nextidx frame → s.frame_heap.n + 1 < MAX_REFERENCE_FRAMES →
      ∃ s1, ingest w co s ret frame = .ok (s1, []) ∧ s1.nextidx = s.nextidx ∧
        s1.frame_heap.n = s.frame_heap.n + 1 ∧ P s1) :
    ∀ (arrivals : List (Int × AVFrame)) (s : main_state),
      P s → (∀ d ∈ arrivals, Q s.nextidx d.2) →
      s.frame_heap.n + arrivals.length < MAX_REFERENCE_FRAMES →
      ∃ s1, ingest_seq w co s arrivals = .ok (s1, []) := by
  intro arrivals
  induction arrivals with
  | nil => intro s _ _ _; exact ⟨s, rfl⟩
  | cons d ds ih =>
    intro s hP hQ hroom
    simp only [List.length_cons] at hroom
    obtain ⟨sa, hea, hna, hca, hPa⟩ := hstep s d.1 d.2 hP (hQ d (List.mem_cons_self _ _))
      (by omega)
    obtain ⟨s1, he1⟩ := ih sa hPa
      (fun e he => by rw [hna]; exact hQ e (List.mem_cons_of_mem _ he)) (by omega)
    refine ⟨s1, ?_⟩
    simp only [ingest_seq, hea, ok_bind, he1]
    rfl

theorem stalled_below_runs (w : AVFrame → Int) (s : main_state) (ret : Int) (frame : AVFrame)
    (hP : StalledBelow s)
    (hQ : 0 ≤ frame.coded_picture_number ∧ frame.coded_picture_number ≤ INT_MAX)
    (hroom : s.frame_heap.n + 1 < MAX_REFERENCE_FRAMES) :
    ∃ s1, ingest w true s ret frame = .ok (s1, []) ∧ s1.nextidx = s.nextidx ∧
      s1.frame_heap.n = s.frame_heap.n + 1 ∧ StalledBelow s1 ∧ s1.ret = ret ∧
      live s1.frame_heap = set_display frame s.nextidx ::ₘ live s.frame_heap := by
  obtain ⟨hinv, x, hx, hlt⟩ := hP
  obtain ⟨h, he, hn, hi, hl, _⟩ := insert_spec AVFrame.coded_picture_number s.frame_heap
    (set_display frame s.nextidx) hinv hroom hQ
  have hxh : x ∈ live h := by rw [hl]; exact Multiset.mem_cons_of_mem hx
  refine ⟨{ frame_heap := h, nextidx := s.nextidx, ret := ret }, ?_, rfl, hn,
    ⟨hi, x, hxh, hlt⟩, rfl, hl⟩
  simp only [ingest, he, ok_bind]
  apply drain_blocked
  intro hpos
  have hmin := root_min_live AVFrame.coded_picture_number h hi.2.2.2 x hxh
  show (h.q 1).coded_picture_number ≠ s.nextidx
  omega

theorem stalled_below_step (w : AVFrame → Int) (s s1 : main_state) (ret : Int)
    (frame : AVFrame) (ws : List AVFrame) (hP : StalledBelow s)
    (hQ : 0 ≤ frame.coded_picture_number ∧ frame.coded_picture_number ≤ INT_MAX)
    (he : ingest w true s ret frame = .ok (s1, ws)) :
    ws = [] ∧ s1.nextidx = s.nextidx ∧ s1.ret = ret ∧
      live s.frame_heap ≤ live s1.frame_heap ∧ StalledBelow s1 := by
  have hM : MAX_REFERENCE_FRAMES = 1000 := rfl
  by_cases hroom : s.frame_heap.n + 1 < MAX_REFERENCE_FRAMES
  · obtain ⟨s2, he2, hn2, _, hP2, hr2, hl2⟩ := stalled_below_runs w s ret frame hP hQ hroom
    rw [he] at he2
    have heq := Prod.mk.inj (Except.ok.inj he2)
    rw [heq.1, heq.2]
    exact ⟨rfl, hn2, hr2, by rw [hl2]; exact Multiset.le_cons_self _ _, hP2⟩
  · have h999 : s.frame_heap.n = 999 := by
      have := hP.1.2.1
      omega
    simp only [ingest, insert_at_999 _ _ h999, error_bind] at he
    exact absurd he (by simp)

theorem stalled_gap_runs (w : AVFrame → Int) (s : main_state) (ret : Int) (frame : AVFrame)
    (hP : StalledGap s) (hQ : frame.coded_picture_number ≠ s.nextidx)
    (hroom : s.frame_heap.n + 1 < MAX_REFERENCE_FRAMES) :
    ∃ s1, ingest w true s ret frame = .ok (s1, []) ∧ s1.nextidx = s.nextidx ∧
      s1.frame_heap.n = s.frame_heap.n + 1 ∧ StalledGap s1 := by
  obtain ⟨s1, he, hn, _, hcnt, hl⟩ := ingest_blocked w s ret frame hroom hP hQ
  refine ⟨s1, he, hn, hcnt, ?_⟩
  intro x hx
  rw [hl, Multiset.mem_cons] at hx
  rw [hn]
  rcases hx with rfl | hx
  · exact hQ
  · exact hP x hx

theorem stalled_gap_step (w : AVFrame → Int) (s s1 : main_state) (ret : Int)
    (frame : AVFrame) (ws : List AVFrame) (hP : StalledGap s)
    (hQ : frame.coded_picture_number ≠ s.nextidx)
    (he : ingest w true s ret frame = .ok (s1, ws)) :
    ws = [] ∧ s1.nextidx = s.nextidx ∧ s1.ret = ret ∧
      live s.frame_heap ≤ live s1.frame_heap ∧ StalledGap s1 := by
  have hM : MAX_REFERENCE_FRAMES = 1000 := rfl
  by_cases hroom : s.frame_heap.n + 1 < MAX_REFERENCE_FRAMES
  · obtain ⟨s2, he2, hn2, hr2, _, hl2⟩ := ingest_blocked w s ret frame hroom hP hQ
    rw [he] at he2
    have heq := Prod.mk.inj (Except.ok.inj he2)
    rw [heq.1, heq.2]
    refine ⟨rfl, hn2, hr2, by rw [hl2]; exact Multiset.le_cons_self _ _, ?_⟩
    intro x hx
    rw [hl2, Multiset.mem_cons] at hx
    rw [hn2]
    rcases hx with rfl | hx
    · exact hQ
    · exact hP x hx
  · by_cases h999 : s.frame_heap.n = 999
    · simp only [ingest, insert_at_999 _ _ h999, error_bind] at he
      exact absurd he (by simp)
    · have hfull : MAX_REFERENCE_FRAMES ≤ s.frame_heap.n := by omega
      have hins : avframe_heap_insert s.frame_heap (set_display frame s.nextidx)
          = .ok s.frame_heap := by
        simp [avframe_heap_insert, hfull]
      simp only [ingest, hins, ok_bind] at he
      obtain ⟨h1, h2⟩ := drain_full w true _
        { frame_heap := s.frame_heap, nextidx := s.nextidx, ret := ret } _ _ _ hfull he
      rw [h1, h2]
      exact ⟨rfl, rfl, rfl, le_refl _, hP⟩

theorem failure_leaves_gap (w : AVFrame → Int) (fuel : Nat) (s : main_state)
    (out : List AVFrame) (m : AVFrame)
    (hn : s.frame_heap.n < MAX_REFERENCE_FRAMES)
    (hnd : ((live s.frame_heap).map AVFrame.coded_picture_number).Nodup)
    (hpeek : avframe_heap_peek_min s.frame_heap = some m)
    (hidx : m.coded_picture_number = s.nextidx)
    (hfail : w (set_pts m (wrap32 (s.nextidx * 1001))) < 0) :
    ∃ s1, drain_loop w true (fuel + 1) s out = .ok (s1, out) ∧ s1.nextidx = s.nextidx ∧
      s1.ret < 0 ∧ StalledGap s1 := by
  have hpos : 0 < s.frame_heap.n := by
    by_contra hcon
    simp [avframe_heap_peek_min, hcon] at hpeek
  have hm : s.frame_heap.q 1 = m := by
    simp [avframe_heap_peek_min, hpos] at hpeek
    exact hpeek
  obtain ⟨h1, he, _, _, hl⟩ := get_min_live s.frame_heap hpos hn
  rw [hm] at he hl
  have hkey2 : (if true = true then m.coded_picture_number
      else m.display_picture_number) = s.nextidx := hidx
  refine ⟨{ frame_heap := h1, nextidx := s.nextidx,
            ret := w (set_pts m (wrap32 (s.nextidx * 1001))) }, ?_, rfl, hfail, ?_⟩
  · simp only [drain_loop, hpeek, hkey2, if_true, he, ok_bind, hfail]
    rw [if_pos hidx]
  · intro x hx
    show x.coded_picture_number ≠ s.nextidx
    rw [hl, Multiset.map_cons, Multiset.nodup_cons] at hnd
    intro hxe
    apply hnd.1
    rw [hidx, ← hxe]
    exact Multiset.mem_map_of_mem _ hx

/-! ## `avframe_heap_bubble_down` at any position, and the dead slot `n + 1` -/

theorem subhole_swap (key : AVFrame → Int) (h : avframe_heap_t) (p r m : Nat)
    (hd : SubHole key h p r) (hp1 : 1 ≤ p) (hrp : r ≤ p) (hm : m ≤ h.n) (hm2 : m / 2 = p)
    (hmp : key (h.q m) ≤ key (h.q p))
    (hsib : ∀ j, 1 < j → j ≤ h.n → j / 2 = p → j ≠ m → key (h.q m) ≤ key (h.q j)) :
    SubHole key { h with q := swapq h.q p m } m r := by
  constructor
  · intro j hj1 hjn hj2 hjr
    simp only at hjn ⊢
    by_cases hjm : j = m
    · subst hjm
      rw [hm2, swapq_left, swapq_right]; exact hmp
    · by_cases hjp : j = p
      · subst hjp
        have h1 : j / 2 ≠ j := by omega
        have h2 : j / 2 ≠ m := by omega
        rw [swapq_other h.q h1 h2, swapq_left]
        exact hd.2 m (by omega) hm hm2 hjr
      · rw [swapq_other h.q hjp hjm]
        by_cases hj2p : j / 2 = p
        · rw [hj2p, swapq_left]
          exact hsib j hj1 hjn hj2p hjm
        · rw [swapq_other h.q hj2p hj2]
          exact hd.1 j hj1 hjn hj2p hjr
  · intro j hj1 hjn hj2 _
    simp only at hjn ⊢
    rw [hm2, swapq_left]
    have hjp : j ≠ p := by omega
    have hjm : j ≠ m := by omega
    rw [swapq_other h.q hjp hjm]
    have := hd.1 j hj1 hjn (by omega) (by omega)
    rw [hj2] at this
    exact this

theorem bubble_down_hole (key : AVFrame → Int) :
    ∀ (fuel : Nat) (h : avframe_heap_t) (p r : Nat),
      Keyed h key → h.n + 1 < MAX_REFERENCE_FRAMES → 1 ≤ p → r ≤ p → h.n + 1 ≤ fuel + p →
      1 ≤ fuel → GoodLive key h →
      0 ≤ key (h.q (h.n + 1)) → key (h.q (h.n + 1)) ≤ INT_MAX →
      key (h.q p) ≤ key (h.q (h.n + 1)) → SubHole key h p r →
      ∃ h1, avframe_heap_bubble_down fuel h p = .ok h1 ∧ h1.n = h.n ∧ h1.cmp = h.cmp ∧
        (∀ j, 1 < j → j ≤ h.n → j ≠ r → key (h1.q (j / 2)) ≤ key (h1.q j)) ∧
        live h1 = live h ∧ ∀ i, h.n < i → h1.q i = h.q i := by
  intro fuel
  induction fuel with
  | zero => intro h p r _ _ _ _ _ hf; omega
  | succ fuel ih =>
    intro h p r hk hn hp1 hrp hfp _ hg hd0 hd1 hst hd
    have hM : MAX_REFERENCE_FRAMES = 1000 := rfl
    have hgood : ∀ i, 1 ≤ i → i ≤ h.n → 0 ≤ key (h.q i) ∧ key (h.q i) ≤ INT_MAX :=
      fun i h1 h2 => hg _ (mem_live h h1 h2)
    have hgood1 : 2 * p ≤ h.n → 0 ≤ key (h.q (2 * p + 1)) ∧ key (h.q (2 * p + 1)) ≤ INT_MAX := by
      intro hc
      by_cases hc1 : 2 * p + 1 ≤ h.n
      · exact hgood _ (by omega) hc1
      · have : 2 * p + 1 = h.n + 1 := by omega
        rw [this]
        exact ⟨hd0, hd1⟩
    have hA : (2 * p ≤ h.n ∧ h.cmp (h.q (2 * p)) (h.q (2 * p + 1)) ≤ 0 ∧
        h.cmp (h.q (2 * p)) (h.q p) ≤ 0) ↔
        (2 * p ≤ h.n ∧ key (h.q (2 * p)) ≤ key (h.q (2 * p + 1)) ∧
          key (h.q (2 * p)) ≤ key (h.q p)) := by
      constructor
      · rintro ⟨h1, h2, h3⟩
        exact ⟨h1, (cmp_le_iff hk (hgood _ (by omega) h1) (hgood1 h1)).1 h2,
          (cmp_le_iff hk (hgood _ (by omega) h1) (hgood _ hp1 (by omega))).1 h3⟩
      · rintro ⟨h1, h2, h3⟩
        exact ⟨h1, (cmp_le_iff hk (hgood _ (by omega) h1) (hgood1 h1)).2 h2,
          (cmp_le_iff hk (hgood _ (by omega) h1) (hgood _ hp1 (by omega))).2 h3⟩
    have hB : (2 * p + 1 ≤ h.n ∧ h.cmp (h.q (2 * p + 1)) (h.q (2 * p)) ≤ 0 ∧
        h.cmp (h.q (2 * p + 1)) (h.q p) ≤ 0) ↔
        (2 * p + 1 ≤ h.n ∧ key (h.q (2 * p + 1)) ≤ key (h.q (2 * p)) ∧
          key (h.q (2 * p + 1)) ≤ key (h.q p)) := by
      constructor
      · rintro ⟨h1, h2, h3⟩
        exact ⟨h1, (cmp_le_iff hk (hgood _ (by omega) h1) (hgood _ (by omega) (by omega))).1 h2,
          (cmp_le_iff hk (hgood _ (by omega) h1) (hgood _ hp1 (by omega))).1 h3⟩
      · rintro ⟨h1, h2, h3⟩
        exact ⟨h1, (cmp_le_iff hk (hgood _ (by omega) h1) (hgood _ (by omega) (by omega))).2 h2,
          (cmp_le_iff hk (hgood _ (by omega) h1) (hgood _ hp1 (by omega))).2 h3⟩
    unfold avframe_heap_bubble_down
    simp only [avframe_heap_young_child]
    rw [child_is_min_ok h (2 * p) (2 * p + 1) p (by intro hc; omega)]
    simp only [ok_bind, decide_eq_true_eq]
    have hswap : ∀ m, m ≤ h.n → m / 2 = p → key (h.q m) ≤ key (h.q p) →
        (∀ j, 1 < j → j ≤ h.n → j / 2 = p → j ≠ m → key (h.q m) ≤ key (h.q j)) →
        ∃ h1, (do
            let h1 ← avframe_heap_swap h p m
            avframe_heap_bubble_down fuel h1 m) = Except.ok h1 ∧ h1.n = h.n ∧ h1.cmp = h.cmp ∧
          (∀ j, 1 < j → j ≤ h.n → j ≠ r → key (h1.q (j / 2)) ≤ key (h1.q j)) ∧
          live h1 = live h ∧ ∀ i, h.n < i → h1.q i = h.q i := by
      intro m hm hm2 hmp hsib
      have hlive : live { h with q := swapq h.q p m } = live h :=
        live_swap h hp1 (by omega) (by omega) hm
      have hdead : swapq h.q p m (h.n + 1) = h.q (h.n + 1) :=
        swapq_other h.q (by omega) (by omega)
      rw [swap_ok h (show p < MAX_REFERENCE_FRAMES by omega)
        (show m < MAX_REFERENCE_FRAMES by omega), ok_bind]
      obtain ⟨h1, he, hn1, hc1, ho1, hl1, hq1⟩ :=
        ih { h with q := swapq h.q p m } m r hk hn (by omega) (by omega)
          (by show h.n + 1 ≤ fuel + m; omega) (by omega)
          (by intro x hx; rw [hlive] at hx; exact hg x hx)
          (by show 0 ≤ key (swapq h.q p m (h.n + 1)); rw [hdead]; exact hd0)
          (by show key (swapq h.q p m (h.n + 1)) ≤ INT_MAX; rw [hdead]; exact hd1)
          (by
            show key (swapq h.q p m m) ≤ key (swapq h.q p m (h.n + 1))
            rw [hdead, swapq_right]
            exact hst)
          (subhole_swap key h p r m hd hp1 hrp hm hm2 hmp hsib)
      exact ⟨h1, he, hn1, hc1, ho1, by rw [hl1, hlive], fun i hi => by
        rw [hq1 i hi]; exact swapq_other h.q (by omega) (by omega)⟩
    by_cases hfirst : 2 * p ≤ h.n ∧ h.cmp (h.q (2 * p)) (h.q (2 * p + 1)) ≤ 0 ∧
        h.cmp (h.q (2 * p)) (h.q p) ≤ 0
    · have hne : (2 * p) ≠ p := by omega
      simp only [hfirst, and_self, if_true, ok_bind, pure_eq_ok, ne_eq, hne, not_false_eq_true]
      obtain ⟨h1, h2, h3⟩ := hA.1 hfirst
      apply hswap (2 * p) h1 (by omega) h3
      intro j hj1 hjn hj2 hjm
      have : j = 2 * p + 1 := by omega
      rw [this]; exact h2
    · simp only [hfirst, if_false]
      rw [child_is_min_ok h (2 * p + 1) (2 * p) p (by intro hc; omega)]
      simp only [ok_bind, decide_eq_true_eq]
      by_cases hsecond : 2 * p + 1 ≤ h.n ∧ h.cmp (h.q (2 * p + 1)) (h.q (2 * p)) ≤ 0 ∧
          h.cmp (h.q (2 * p + 1)) (h.q p) ≤ 0
      · have hne : (2 * p + 1) ≠ p := by omega
        simp only [hsecond, and_self, if_true, ok_bind, pure_eq_ok, ne_eq, hne,
          not_false_eq_true]
        obtain ⟨h1, h2, h3⟩ := hB.1 hsecond
        apply hswap (2 * p + 1) h1 (by omega) h3
        intro j hj1 hjn hj2 hjm
        have : j = 2 * p := by omega
        rw [this]; exact h2
      · simp only [hsecond, if_false, ok_bind, pure_eq_ok, ne_eq, not_true_eq_false]
        refine ⟨h, rfl, rfl, rfl, ?_, rfl, fun _ _ => rfl⟩
        rw [hA] at hfirst
        rw [hB] at hsecond
        intro j hj1 hjn hjr
        by_cases hj2 : j / 2 = p
        · rw [hj2]
          by_cases hjc : j = 2 * p
          · rw [hjc] at hjn ⊢
            by_cases hc1 : 2 * p + 1 ≤ h.n
            · by_contra hcon
              have h1 : ¬ (key (h.q (2 * p)) ≤ key (h.q (2 * p + 1))) := by
                intro hh; exact hfirst ⟨hjn, hh, by omega⟩
              exact hsecond ⟨hc1, by omega, by omega⟩
            · have : 2 * p + 1 = h.n + 1 := by omega
              rw [this] at hfirst
              by_contra hcon
              exact hfirst ⟨hjn, by omega, by omega⟩
          · have hjc1 : j = 2 * p + 1 := by omega
            rw [hjc1] at hjn ⊢
            by_contra hcon
            have h1 : ¬ (key (h.q (2 * p + 1)) ≤ key (h.q (2 * p))) := by
              intro hh; exact hsecond ⟨hjn, hh, by omega⟩
            exact hfirst ⟨by omega, by omega, by omega⟩
        · exact hd.1 j hj1 hjn hj2 hjr

/-! ## The properties of the specification, C1 to C19 -/

/-- C1 (counterexample). From an empty heap and `nextidx = INT_MAX` (so `k = INT_MAX`,
`N = 1`), ingesting the one frame with coded number `INT_MAX` writes it and the heap is
empty again, but the counter ends at `INT_MIN`, not at `k + N`. -/
theorem C1_counterexample :
    (ingest_seq (fun _ => 0) true
        { frame_heap := avframe_heap_create (fun _ => test_alloc 0) (some avframe_heap_cmp_coded),
          nextidx := 2147483647, ret := 0 } [(0, test_alloc 2147483647)]).map
      (fun r => (r.2.map AVFrame.coded_picture_number, r.1.frame_heap.n, r.1.nextidx))
      = .ok ([2147483647], 0, -2147483648) ∧
    ((-2147483648 : Int) ≠ 2147483647 + 1) := by
  constructor
  · rfl
  · decide

/-- C1 (amended). Coded-order mode, a writer that always succeeds: for every `k >= 0` and
every `N <= 999` with `k + N <= INT_MAX`, from an empty heap and `nextidx = k`, ingesting
`N` frames whose coded numbers are exactly `k, ..., k+N-1`, in any arrival order, runs
without fault and writes all `N` frames, in the order `k, k+1, ..., k+N-1`, each exactly
once (the written pictures are a permutation of those that arrived), and ends with an
empty heap and `nextidx = k + N`. -/
theorem C1_coded_order_reordering (w : AVFrame → Int) (hw : ∀ f, 0 ≤ w f) (s : main_state)
    (k : Int) (N : Nat) (arrivals : List (Int × AVFrame))
    (hk : 0 ≤ k) (hN : N ≤ 999) (hmax : k + N ≤ INT_MAX)
    (hempty : s.frame_heap.n = 0) (hcmp : s.frame_heap.cmp = avframe_heap_cmp_coded)
    (hnext : s.nextidx = k)
    (hperm : (arrivals.map (fun d => d.2.coded_picture_number)).Perm
      ((List.range N).map (fun (i : Nat) => k + (i : Int)))) :
    ∃ (s1 : main_state) (ws : List AVFrame),
      ingest_seq w true s arrivals = .ok (s1, ws) ∧
      ws.map AVFrame.coded_picture_number = (List.range N).map (fun (i : Nat) => k + (i : Int)) ∧
      (ws.map frame_id).Perm (arrivals.map (fun d => frame_id d.2)) ∧
      s1.frame_heap.n = 0 ∧ s1.nextidx = k + N := by
  have hM : MAX_REFERENCE_FRAMES = 1000 := rfl
  have hlive : live s.frame_heap = 0 := live_empty _ hempty
  have hlen : arrivals.length = N := by
    have := hperm.length_eq
    simpa using this
  have hinv : Inv AVFrame.coded_picture_number s.frame_heap := by
    refine ⟨fun a b => by rw [hcmp]; rfl, by omega, ?_, ?_⟩
    · intro x hx; rw [hlive] at hx; simp at hx
    · intro p _ hp; omega
  have hkeys : ∀ c ∈ arrivals.map (fun d => d.2.coded_picture_number),
      k ≤ c ∧ c < k + N := by
    intro c hc
    have := hperm.mem_iff.1 hc
    obtain ⟨i, hi, rfl⟩ := List.mem_map.1 this
    have := List.mem_range.1 hi
    constructor <;> omega
  obtain ⟨s1, ws, he, hr, hn, hL, hrel⟩ := seq_sorted w hw arrivals s hinv (by omega)
    (by
      rw [hlive, Multiset.map_zero, add_zero, Multiset.coe_nodup]
      apply hperm.nodup_iff.2
      apply List.Nodup.map _ (List.nodup_range N)
      intro a b hab
      simp only at hab
      omega)
    (by intro x hx; rw [hlive] at hx; simp at hx)
    (by
      intro d hd
      have := hkeys _ (List.mem_map.2 ⟨d, hd, rfl⟩)
      rw [hnext]
      constructor <;> omega)
    (by rw [hnext]; exact hk)
  rw [hlive, Multiset.map_zero, add_zero] at hrel
  rw [hnext] at hr hn
  have hcard := congrArg Multiset.card hrel
  rw [Multiset.card_add, Multiset.coe_card, Multiset.coe_card, List.length_map,
    List.length_map, Multiset.card_map, card_live, hlen] at hcard
  have hwsN : ws.length = N := by
    by_contra hne
    have hlt : ws.length < N := by omega
    have hin : k + (ws.length : Int) ∈ arrivals.map (fun d => d.2.coded_picture_number) :=
      hperm.mem_iff.2 (List.mem_map.2 ⟨ws.length, List.mem_range.2 hlt, rfl⟩)
    obtain ⟨d, hd, hdk⟩ := List.mem_map.1 hin
    have hdid : frame_id d.2 ∈ ((arrivals.map (fun d => frame_id d.2) : List (Int × Nat)) :
        Multiset (Int × Nat)) := Multiset.mem_coe.2 (List.mem_map.2 ⟨d, hd, rfl⟩)
    rw [hrel] at hdid
    rcases Multiset.mem_add.1 hdid with h1 | h1
    · obtain ⟨f, hf, hfe⟩ := List.mem_map.1 (Multiset.mem_coe.1 h1)
      have hfc : f.coded_picture_number = d.2.coded_picture_number :=
        congrArg Prod.fst hfe
      have hfin : f.coded_picture_number ∈ ws.map AVFrame.coded_picture_number :=
        List.mem_map.2 ⟨f, hf, rfl⟩
      rw [hr] at hfin
      obtain ⟨i, hi, hie⟩ := List.mem_map.1 hfin
      have := List.mem_range.1 hi
      omega
    · obtain ⟨x, hx, hxe⟩ := Multiset.mem_map.1 h1
      have hxc : x.coded_picture_number = d.2.coded_picture_number :=
        congrArg Prod.fst hxe
      have := hL x hx
      omega
  refine ⟨s1, ws, he, by rw [hr, hwsN], ?_, by omega, by rw [hn, hwsN]⟩
  have h0 : live s1.frame_heap = 0 := live_empty _ (by omega)
  rw [h0, Multiset.map_zero, add_zero] at hrel
  exact (Multiset.coe_eq_coe.1 hrel).symm

/-- C1 (amended) applied to the end-to-end scenario of the specification: coded numbers
0, 1, 2 arriving in the order 1, 0, 2 at the start of the program; the last clause
evaluates the run: the frames are written in the order 0, 1, 2, the heap ends empty and
`nextidx = 3`. -/
theorem C1_witness :
    (∃ (s1 : main_state) (ws : List AVFrame),
      ingest_seq (fun _ => 0) true (main_init (fun _ => test_alloc 0) true)
        [(0, test_alloc 1), (0, test_alloc 0), (0, test_alloc 2)] = .ok (s1, ws) ∧
      ws.map AVFrame.coded_picture_number =
        (List.range 3).map (fun (i : Nat) => (0 : Int) + (i : Int)) ∧
      (ws.map frame_id).Perm
        ([((0 : Int), test_alloc 1), (0, test_alloc 0), (0, test_alloc 2)].map
          (fun d => frame_id d.2)) ∧
      s1.frame_heap.n = 0 ∧ s1.nextidx = (0 : Int) + (3 : Nat)) ∧
    ((ingest_seq (fun _ => 0) true (main_init (fun _ => test_alloc 0) true)
        [(0, test_alloc 1), (0, test_alloc 0), (0, test_alloc 2)]).map
      (fun r => (r.2.map AVFrame.coded_picture_number, r.1.frame_heap.n, r.1.nextidx))
      = .ok ([0, 1, 2], 0, 3)) :=
  ⟨C1_coded_order_reordering (fun _ => 0) (fun _ => le_refl _)
      (main_init (fun _ => test_alloc 0) true) 0 3
      [(0, test_alloc 1), (0, test_alloc 0), (0, test_alloc 2)]
      (by decide) (by decide) (by decide) rfl rfl rfl (by decide),
    by rfl⟩

/-- C2. A heap from `avframe_heap_create` (either comparator, or the default) that
receives at most 999 frames with non-negative `int` keys, duplicates allowed, and is then
asked for its minimum as many times, returns without fault the same frames (a
permutation of the inserted list) with keys in non-decreasing order, and
`avframe_heap_peek_min` is null afterwards. -/
theorem C2_insert_then_extract_sorted (mem : Nat → AVFrame)
    (c : Option (AVFrame → AVFrame → Int)) (key : AVFrame → Int) (frames : List AVFrame)
    (hc : comparator_key c key) (hN : frames.length ≤ 999)
    (hkeys : ∀ f ∈ frames, 0 ≤ key f ∧ key f ≤ INT_MAX) :
    ∃ (h1 : avframe_heap_t) (out : List AVFrame) (h2 : avframe_heap_t),
      insert_all (avframe_heap_create mem c) frames = .ok h1 ∧
      get_min_n frames.length h1 = .ok (out.map some, h2) ∧
      out.Perm frames ∧ (out.map key).Sorted (· ≤ ·) ∧ avframe_heap_peek_min h2 = none := by
  obtain ⟨h1, he1, hn1, hi1, hl1⟩ :=
    insert_all_spec key frames (avframe_heap_create mem c) (create_inv mem c key hc)
      (by show 0 + frames.length < 1000; omega) hkeys
  have hn1' : h1.n = frames.length := by rw [hn1]; show 0 + _ = _; omega
  obtain ⟨out, h2, he2, hn2, _, hl2, hs2, _⟩ := get_min_n_spec key frames.length h1 hi1 (by omega)
  have hn2' : h2.n = 0 := by omega
  refine ⟨h1, out, h2, he1, he2, ?_, hs2, by simp [avframe_heap_peek_min, hn2']⟩
  rw [live_empty h2 hn2', add_zero] at hl2
  rw [live_empty (avframe_heap_create mem c) rfl, add_zero] at hl1
  exact Multiset.coe_eq_coe.1 (hl2.symm.trans hl1)

/-- C2 applied to the authors' test `avframe_heap_testing`: the keys 3,4,9,7,84,1,7,16 inserted into a
default heap come out as 1,3,4,7,7,9,16,84 and the heap is empty afterwards. -/
theorem C2_witness :
    (∃ (h1 : avframe_heap_t) (out : List AVFrame) (h2 : avframe_heap_t),
      insert_all (avframe_heap_create (fun _ => test_alloc 0) none)
        ([3, 4, 9, 7, 84, 1, 7, 16].map test_alloc) = .ok h1 ∧
      get_min_n 8 h1 = .ok (out.map some, h2) ∧
      out.Perm ([3, 4, 9, 7, 84, 1, 7, 16].map test_alloc) ∧
      (out.map AVFrame.display_picture_number).Sorted (· ≤ ·) ∧
      avframe_heap_peek_min h2 = none) ∧
    ((insert_all (avframe_heap_create (fun _ => test_alloc 0) none)
        ([3, 4, 9, 7, 84, 1, 7, 16].map test_alloc) >>= get_min_n 8).map Prod.fst
      = .ok ([1, 3, 4, 7, 7, 9, 16, 84].map (fun k => some (test_alloc k)))) :=
  ⟨C2_insert_then_extract_sorted (fun _ => test_alloc 0) none AVFrame.display_picture_number
      ([3, 4, 9, 7, 84, 1, 7, 16].map test_alloc) (Or.inl ⟨rfl, rfl⟩) (by decide)
      (by decide),
    by rfl⟩

/-- C3. Heap-order invariant: on a heap from `avframe_heap_create`, for every sequence of
`avframe_heap_insert` and `avframe_heap_get_min` calls whose inserted keys are non-negative
`int`s and during which never more than 999 frames are held, every initial part of the
sequence runs without fault and leaves `cmp(q[p/2], q[p]) <= 0` for every slot `p` with
`1 < p <= n`. -/
theorem C3_heap_order_invariant (mem : Nat → AVFrame)
    (c : Option (AVFrame → AVFrame → Int)) (key : AVFrame → Int) (cs : List heap_call)
    (hc : comparator_key c key)
    (hkeys : ∀ f, heap_call.insert f ∈ cs → 0 ≤ key f ∧ key f ≤ INT_MAX)
    (hpeak : peak_held 0 cs ≤ 999) (j : Nat) :
    ∃ h1, run_calls (avframe_heap_create mem c) (cs.take j) = .ok h1 ∧
      ∀ p, 1 < p → p ≤ h1.n → h1.cmp (h1.q (p / 2)) (h1.q p) ≤ 0 := by
  obtain ⟨h1, he, hi⟩ := run_calls_spec key (cs.take j) (avframe_heap_create mem c)
    (create_inv mem c key hc) (le_trans (peak_held_take cs 0 j) hpeak)
    (fun f hf => hkeys f (List.mem_of_mem_take hf))
  exact ⟨h1, he, inv_heap_order key h1 hi⟩

/-- C3 applied to the calls insert 5, insert 2, get_min, insert 9, insert 1, get_min on a
heap ordered by `coded_picture_number`, after the first five of them. -/
theorem C3_witness :
    ∃ h1, run_calls (avframe_heap_create (fun _ => test_alloc 0) (some avframe_heap_cmp_coded))
        ([heap_call.insert (test_alloc 5), heap_call.insert (test_alloc 2), heap_call.get_min,
          heap_call.insert (test_alloc 9), heap_call.insert (test_alloc 1),
          heap_call.get_min].take 5) = .ok h1 ∧
      ∀ p, 1 < p → p ≤ h1.n → h1.cmp (h1.q (p / 2)) (h1.q p) ≤ 0 :=
  C3_heap_order_invariant (fun _ => test_alloc 0) (some avframe_heap_cmp_coded)
    AVFrame.coded_picture_number _ (Or.inr (Or.inr ⟨rfl, rfl⟩))
    (by
      intro f hf
      simp only [List.mem_cons, heap_call.insert.injEq, List.mem_singleton, reduceCtorEq,
        or_false, false_or, List.not_mem_nil] at hf
      rcases hf with rfl | rfl | rfl | rfl <;> decide)
    (by decide) 5

/-- C4 (counterexample). With `nextidx = INT_MAX`, an empty heap and a writer that
succeeds, ingesting the frame with coded number `INT_MAX` writes it and leaves
`nextidx = INT_MIN`: the counter is not `k+1` and it has decreased.  If the heap holds
the frame with coded number `INT_MIN`, the same ingest writes the keys `INT_MAX, INT_MIN`
in this order, not `k, k+1`, and leaves `nextidx = INT_MIN + 1`. -/
theorem C4_counterexample :
    ((ingest (fun _ => 0) true
        { frame_heap := avframe_heap_create (fun _ => test_alloc 0) (some avframe_heap_cmp_coded),
          nextidx := 2147483647, ret := 0 } 0 (test_alloc 2147483647)).map
      (fun r => (r.1.nextidx, r.2.map AVFrame.coded_picture_number))
      = .ok (-2147483648, [2147483647])) ∧
    ((ingest (fun _ => 0) true
        { frame_heap := { q := fun _ => test_alloc (-2147483648), n := 1,
                          cmp := avframe_heap_cmp_coded },
          nextidx := 2147483647, ret := 0 } 0 (test_alloc 2147483647)).map
      (fun r => (r.1.nextidx, r.2.map AVFrame.coded_picture_number))
      = .ok (-2147483647, [2147483647, -2147483648])) := by
  refine ⟨by rfl, by rfl⟩

/-- C4 (amended). For every controller state with `nextidx = k` (an `int`), every writer
and every ingested frame: whenever the ingest returns, having written `m` frames, the
frames written have keys exactly `k, k+1, ..., k+m-1` in that order provided
`k + m - 1 <= INT_MAX`, and the resulting `nextidx` is `k + m` (one more per written
frame, never less than `k`) provided `k + m <= INT_MAX`; and the ingest does return
whenever the heap holds at most 998 frames. -/
theorem C4_gap_free_emission (w : AVFrame → Int) (co : Bool) (s : main_state) (ret : Int)
    (frame : AVFrame) (hk : INT_MIN ≤ s.nextidx) :
    (∀ (s1 : main_state) (ws : List AVFrame), ingest w co s ret frame = .ok (s1, ws) →
      (s.nextidx + ws.length - 1 ≤ INT_MAX →
        ws.map (mode_key co)
          = (List.range ws.length).map (fun (i : Nat) => s.nextidx + (i : Int))) ∧
      (s.nextidx + ws.length ≤ INT_MAX → s1.nextidx = s.nextidx + ws.length)) ∧
    (s.frame_heap.n + 1 < MAX_REFERENCE_FRAMES →
      ∃ (s1 : main_state) (ws : List AVFrame), ingest w co s ret frame = .ok (s1, ws)) := by
  have hM : MAX_REFERENCE_FRAMES = 1000 := rfl
  constructor
  · intro s1 ws he
    by_cases hroom : s.frame_heap.n + 1 < MAX_REFERENCE_FRAMES
    · obtain ⟨s2, ws2, he2, _, hks, _, hnx, _⟩ := ingest_general w co s ret frame hroom
      rw [he] at he2
      have heq := Except.ok.inj he2
      have h1 : s1 = s2 := (Prod.mk.inj heq).1
      have h2 : ws = ws2 := (Prod.mk.inj heq).2
      subst h1; subst h2
      exact ⟨fun hno => by rw [hks, idx_run_eq _ _ hk (by omega)],
        fun hno => by rw [hnx, idx_after_eq _ _ hk hno]⟩
    · by_cases h999 : s.frame_heap.n = 999
      · simp only [ingest, insert_at_999 _ _ h999, error_bind] at he
        exact absurd he (by simp)
      · have hfull : MAX_REFERENCE_FRAMES ≤ s.frame_heap.n := by omega
        have hins : avframe_heap_insert s.frame_heap (set_display frame s.nextidx)
            = .ok s.frame_heap := by
          simp [avframe_heap_insert, hfull]
        simp only [ingest, hins, ok_bind] at he
        obtain ⟨h1, h2⟩ := drain_full w co _
          { frame_heap := s.frame_heap, nextidx := s.nextidx, ret := ret } _ _ _ hfull he
        subst h1; subst h2
        simp
  · intro hroom
    obtain ⟨s1, ws, he, _⟩ := ingest_general w co s ret frame hroom
    exact ⟨s1, ws, he⟩

/-- C4 (amended) at the start of the program: coded-order mode, frame 0 arrives. -/
theorem C4_witness :
    (∀ (s1 : main_state) (ws : List AVFrame),
      ingest (fun _ => 0) true (main_init (fun _ => test_alloc 0) true) 0 (test_alloc 0)
        = .ok (s1, ws) →
      ((main_init (fun _ => test_alloc 0) true).nextidx + ws.length - 1 ≤ INT_MAX →
        ws.map (mode_key true) = (List.range ws.length).map
          (fun (i : Nat) => (main_init (fun _ => test_alloc 0) true).nextidx + (i : Int))) ∧
      ((main_init (fun _ => test_alloc 0) true).nextidx + ws.length ≤ INT_MAX →
        s1.nextidx = (main_init (fun _ => test_alloc 0) true).nextidx + ws.length)) ∧
    ((main_init (fun _ => test_alloc 0) true).frame_heap.n + 1 < MAX_REFERENCE_FRAMES →
      ∃ (s1 : main_state) (ws : List AVFrame),
        ingest (fun _ => 0) true (main_init (fun _ => test_alloc 0) true) 0 (test_alloc 0)
          = .ok (s1, ws)) :=
  C4_gap_free_emission (fun _ => 0) true (main_init (fun _ => test_alloc 0) true) 0
    (test_alloc 0) (by decide)

/-- C5. Gap blocking, coded-order mode: from `nextidx = k` and a heap all of whose held
frames have coded numbers above `k` (heap-ordered or not), every sequence of ingests of
frames with coded numbers above `k` that runs to its end has written nothing and leaves
`nextidx = k` and only held numbers above `k`, and an ingest that then writes anything is
the ingest of a frame whose coded number is exactly `k`; and the sequence does run to its
end as long as at most 999 frames are held. -/
theorem C5_gap_blocking (w : AVFrame → Int) (k : Int) (arrivals : List (Int × AVFrame))
    (s : main_state) (hk : s.nextidx = k)
    (hheap : ∀ x ∈ live s.frame_heap, k < x.coded_picture_number)
    (harr : ∀ d ∈ arrivals, k < d.2.coded_picture_number) :
    (∀ (s1 : main_state) (ws : List AVFrame), ingest_seq w true s arrivals = .ok (s1, ws) →
      ws = [] ∧ s1.nextidx = k ∧
      (∀ x ∈ live s1.frame_heap, k < x.coded_picture_number) ∧
      (∀ (ret : Int) (frame : AVFrame) (s2 : main_state) (ws2 : List AVFrame),
        ingest w true s1 ret frame = .ok (s2, ws2) → ws2 ≠ [] →
        frame.coded_picture_number = k)) ∧
    (s.frame_heap.n + arrivals.length < MAX_REFERENCE_FRAMES →
      ∃ s1, ingest_seq w true s arrivals = .ok (s1, [])) := by
  constructor
  · intro s1 ws he
    obtain ⟨h1, h2, h3⟩ := seq_blocked w k arrivals s s1 ws hk hheap harr he
    refine ⟨h1, h2, h3, ?_⟩
    intro ret frame s2 ws2 he2 hws
    by_contra hne
    exact hws (ingest_silent w s1 s2 ret frame ws2
      (fun x hx => by rw [h2]; exact ne_of_gt (h3 x hx)) (by rw [h2]; exact hne) he2)
  · intro hroom
    exact seq_blocked_runs w k arrivals s hk hroom hheap harr

/-- C5 applied to the program's start (`nextidx = 0`, empty heap) and the arrivals 2, 1. -/
theorem C5_witness :
    (∀ (s1 : main_state) (ws : List AVFrame),
      ingest_seq (fun _ => 0) true (main_init (fun _ => test_alloc 0) true)
        [(0, test_alloc 2), (0, test_alloc 1)] = .ok (s1, ws) →
      ws = [] ∧ s1.nextidx = 0 ∧
      (∀ x ∈ live s1.frame_heap, 0 < x.coded_picture_number) ∧
      (∀ (ret : Int) (frame : AVFrame) (s2 : main_state) (ws2 : List AVFrame),
        ingest (fun _ => 0) true s1 ret frame = .ok (s2, ws2) → ws2 ≠ [] →
        frame.coded_picture_number = 0)) ∧
    ((main_init (fun _ => test_alloc 0) true).frame_heap.n +
        [((0 : Int), test_alloc 2), (0, test_alloc 1)].length < MAX_REFERENCE_FRAMES →
      ∃ s1, ingest_seq (fun _ => 0) true (main_init (fun _ => test_alloc 0) true)
        [(0, test_alloc 2), (0, test_alloc 1)] = .ok (s1, [])) :=
  C5_gap_blocking (fun _ => 0) 0 [(0, test_alloc 2), (0, test_alloc 1)]
    (main_init (fun _ => test_alloc 0) true) rfl
    (by intro x hx; rw [live_empty _ rfl] at hx; simp at hx)
    (by decide)

/-- C6. Lifecycle invariant, coded-order mode: in every state reached from the initial
state (empty heap, `nextidx = 0`) by ingesting frames with pairwise distinct non-negative
coded numbers, at most 999 frames being buffered, with any writer, every frame held in the
heap has a coded number `>= nextidx`, and if the writer did not fail in the last ingest
(`ret` is not negative) every held coded number is strictly greater than `nextidx`; and from
such a state the next ingest returns whenever at most 998 frames are held. -/
theorem C6_lifecycle_invariant (w : AVFrame → Int) (mem : Nat → AVFrame) (s : main_state)
    (seen : List Int) (hr : Reachable w mem s seen) :
    (∀ x ∈ live s.frame_heap, s.nextidx ≤ x.coded_picture_number) ∧
    (0 ≤ s.ret → ∀ x ∈ live s.frame_heap, s.nextidx < x.coded_picture_number) ∧
    (∀ (ret : Int) (frame : AVFrame), s.frame_heap.n + 1 < MAX_REFERENCE_FRAMES →
      ∃ (s1 : main_state) (ws : List AVFrame), ingest w true s ret frame = .ok (s1, ws)) := by
  obtain ⟨_, _, _, hL, hS, _⟩ := reachable_inv w mem s seen hr
  refine ⟨hL, hS, ?_⟩
  intro ret frame hroom
  obtain ⟨s1, ws, he, _⟩ := ingest_general w true s ret frame hroom
  exact ⟨s1, ws, he⟩

/-- C6 applied to the state after frame 1 arrived first (it stays in the heap, the
controller waits for frame 0). -/
theorem C6_witness :
    (∀ x ∈ live ({ q := Function.update (fun _ => test_alloc 0) 1 (set_display (test_alloc 1) 0),
                   n := 1, cmp := avframe_heap_cmp_coded } : avframe_heap_t),
      (0 : Int) ≤ x.coded_picture_number) ∧
    ((0 : Int) ≤ 0 →
      ∀ x ∈ live ({ q := Function.update (fun _ => test_alloc 0) 1
                      (set_display (test_alloc 1) 0),
                    n := 1, cmp := avframe_heap_cmp_coded } : avframe_heap_t),
      (0 : Int) < x.coded_picture_number) ∧
    (∀ (ret : Int) (frame : AVFrame), 1 + 1 < MAX_REFERENCE_FRAMES →
      ∃ (s1 : main_state) (ws : List AVFrame),
        ingest (fun _ => 0) true
          { frame_heap := { q := Function.update (fun _ => test_alloc 0) 1
                              (set_display (test_alloc 1) 0),
                            n := 1, cmp := avframe_heap_cmp_coded },
            nextidx := 0, ret := 0 } ret frame = .ok (s1, ws)) :=
  C6_lifecycle_invariant (fun _ => 0) (fun _ => test_alloc 0)
    { frame_heap := { q := Function.update (fun _ => test_alloc 0) 1
                        (set_display (test_alloc 1) 0),
                      n := 1, cmp := avframe_heap_cmp_coded },
      nextidx := 0, ret := 0 } [1]
    (@Reachable.step _ _ _ _ _ [] 0 (test_alloc 1) Reachable.init (by decide) (by decide)
      (by decide) (by decide) (by decide) (by rfl))

/-- C7. Writer failure: at any iteration of the drain loop of an ingest (`out` being the
frames written earlier in the same call) at which the minimum `m` has the expected index
`k = nextidx` and the writer fails on it, once `avframe_heap_get_min` has extracted the
frame the loop returns at once: what it extracted is `m`, the frames written are still
exactly `out`, the heap is the one that single extraction leaves (`m` removed from the
held frames, which are otherwise the same), `nextidx` is still `k`, and `ret` carries the
writer's negative result to the caller.  The extraction does return when at most 999
frames are held. -/
theorem C7_writer_failure (w : AVFrame → Int) (co : Bool) (fuel : Nat) (s : main_state)
    (out : List AVFrame) (m : AVFrame)
    (hpeek : avframe_heap_peek_min s.frame_heap = some m)
    (hidx : mode_key co m = s.nextidx)
    (hfail : w (set_pts m (wrap32 (s.nextidx * 1001))) < 0) :
    (∀ (p : Option AVFrame) (h1 : avframe_heap_t),
      avframe_heap_get_min s.frame_heap = .ok (p, h1) →
      p = some m ∧
      drain_loop w co (fuel + 1) s out =
        .ok ({ frame_heap := h1, nextidx := s.nextidx,
               ret := w (set_pts m (wrap32 (s.nextidx * 1001))) }, out) ∧
      w (set_pts m (wrap32 (s.nextidx * 1001))) < 0 ∧
      h1.n + 1 = s.frame_heap.n ∧ live s.frame_heap = m ::ₘ live h1) ∧
    (s.frame_heap.n < MAX_REFERENCE_FRAMES →
      ∃ h1, avframe_heap_get_min s.frame_heap = .ok (some m, h1)) := by
  have hpos : 0 < s.frame_heap.n := by
    by_contra hcon
    simp [avframe_heap_peek_min, hcon] at hpeek
  have hm : s.frame_heap.q 1 = m := by
    simp [avframe_heap_peek_min, hpos] at hpeek
    exact hpeek
  have hkey2 : (if co = true then m.coded_picture_number
      else m.display_picture_number) = s.nextidx := hidx
  constructor
  · intro p h1 hget
    have hn : s.frame_heap.n < MAX_REFERENCE_FRAMES := by
      by_contra hcon
      rw [get_min_out_of_bounds _ (by omega)] at hget
      exact absurd hget (by simp)
    obtain ⟨h2, he, hn2, _, hl2⟩ := get_min_live s.frame_heap hpos hn
    rw [hm] at he hl2
    rw [he] at hget
    have heq := Prod.mk.inj (Except.ok.inj hget)
    rw [← heq.1, ← heq.2]
    refine ⟨rfl, ?_, hfail, by omega, hl2⟩
    simp only [drain_loop, hpeek, hkey2, if_true, he, ok_bind, hfail]
  · intro hn
    obtain ⟨h2, he, _⟩ := get_min_live s.frame_heap hpos hn
    rw [hm] at he
    exact ⟨h2, he⟩

/-- C7 applied to a heap holding only frame 0 in coded-order mode, with `nextidx = 0` and
a writer that returns -5 for every frame. -/
theorem C7_witness :
    (∀ (p : Option AVFrame) (h1 : avframe_heap_t),
      avframe_heap_get_min
        { q := Function.update (fun _ => test_alloc 0) 1 (test_alloc 0), n := 1,
          cmp := avframe_heap_cmp_coded } = .ok (p, h1) →
      p = some (test_alloc 0) ∧
      drain_loop (fun _ => -5) true (1 + 1)
        { frame_heap := { q := Function.update (fun _ => test_alloc 0) 1 (test_alloc 0), n := 1,
                          cmp := avframe_heap_cmp_coded },
          nextidx := 0, ret := 0 } [] =
        .ok ({ frame_heap := h1, nextidx := 0,
               ret := (fun _ => -5) (set_pts (test_alloc 0) (wrap32 (0 * 1001))) }, []) ∧
      (fun _ => (-5 : Int)) (set_pts (test_alloc 0) (wrap32 (0 * 1001))) < 0 ∧
      h1.n + 1 = 1 ∧
      live ({ q := Function.update (fun _ => test_alloc 0) 1 (test_alloc 0), n := 1,
              cmp := avframe_heap_cmp_coded } : avframe_heap_t) = test_alloc 0 ::ₘ live h1) ∧
    ((1 : Nat) < MAX_REFERENCE_FRAMES →
      ∃ h1, avframe_heap_get_min
        { q := Function.update (fun _ => test_alloc 0) 1 (test_alloc 0), n := 1,
          cmp := avframe_heap_cmp_coded } = .ok (some (test_alloc 0), h1)) :=
  C7_writer_failure (fun _ => -5) true 1
    { frame_heap := { q := Function.update (fun _ => test_alloc 0) 1 (test_alloc 0), n := 1,
                      cmp := avframe_heap_cmp_coded },
      nextidx := 0, ret := 0 } [] (test_alloc 0) (by rfl) (by rfl) (by decide)

/-- C8 (failing input). A heap that is already at `n >= MAX_REFERENCE_FRAMES` ignores an
insertion (the silent drop), but a fresh heap never gets there through insertions:
inserting the 1001 distinct frames with picture numbers 0..1000 leaves the array at the
1000th insertion, so the run does not end with 1000 frames held. -/
theorem C8_capacity_boundary :
    (∀ (h : avframe_heap_t) (f : AVFrame), MAX_REFERENCE_FRAMES ≤ h.n →
      avframe_heap_insert h f = .ok h) ∧
    insert_all (avframe_heap_create (fun _ => test_alloc 0) none)
      ((List.range 1001).map (fun (i : Nat) => test_alloc (i : Int))) = .error .out_of_bounds := by
  constructor
  · intro h f hn
    simp [avframe_heap_insert, hn]
  · apply insert_all_overflow AVFrame.display_picture_number _ _ (Or.inl ⟨rfl, rfl⟩)
    · simp
    · intro f hf
      obtain ⟨i, hi, rfl⟩ := List.mem_map.1 hf
      have := List.mem_range.1 hi
      simp only [test_alloc, INT_MAX]
      omega

/-- C9 (failing input). With 999 frames held the guard `n >= MAX_REFERENCE_FRAMES` lets the
call through, `n` becomes 1000 and the store `h->q[1000] = f` lies outside the
1000-element array: the out-of-bounds branch is reached for every heap with `n = 999`,
here on one holding 999 copies of a frame.  Below that, with `n <= 998`, the call stays
inside the array and returns. -/
theorem C9_insert_at_999_out_of_bounds :
    avframe_heap_insert
      { q := fun _ => test_alloc 0, n := 999, cmp := avframe_heap_cmp_coded } (test_alloc 7)
      = .error .out_of_bounds ∧
    (∀ (h : avframe_heap_t) (f : AVFrame), h.n = 999 →
      avframe_heap_insert h f = .error .out_of_bounds) ∧
    (∀ (h : avframe_heap_t) (f : AVFrame), h.n + 1 < MAX_REFERENCE_FRAMES →
      ∃ h1, avframe_heap_insert h f = .ok h1 ∧ h1.n = h.n + 1) :=
  ⟨insert_at_999 _ _ rfl, insert_at_999, fun h f hr => by
    obtain ⟨h1, he, hn, _⟩ := insert_live h f hr
    exact ⟨h1, he, hn⟩⟩

/-- C10 (failing input). With picture numbers `INT_MIN` and `1` the 32-bit difference
wraps to `INT_MAX`: `avframe_heap_cmp_coded` is positive although the first number is the
smaller one (likewise `avframe_heap_cmp_display`), against the contract written above the
function; and with picture numbers -1500000000, 0, 1500000000 the relation `cmp <= 0` is
not transitive. -/
theorem C10_comparator_overflow :
    (0 < avframe_heap_cmp_coded ⟨-2147483648, 0, 0, 0⟩ ⟨1, 0, 0, 0⟩ ∧
      ¬ ((⟨-2147483648, 0, 0, 0⟩ : AVFrame).coded_picture_number >
          (⟨1, 0, 0, 0⟩ : AVFrame).coded_picture_number)) ∧
    (0 < avframe_heap_cmp_display ⟨0, -2147483648, 0, 0⟩ ⟨0, 1, 0, 0⟩ ∧
      ¬ ((⟨0, -2147483648, 0, 0⟩ : AVFrame).display_picture_number >
          (⟨0, 1, 0, 0⟩ : AVFrame).display_picture_number)) ∧
    (avframe_heap_cmp_coded ⟨-1500000000, 0, 0, 0⟩ ⟨0, 0, 0, 0⟩ ≤ 0 ∧
      avframe_heap_cmp_coded ⟨0, 0, 0, 0⟩ ⟨1500000000, 0, 0, 0⟩ ≤ 0 ∧
      ¬ avframe_heap_cmp_coded ⟨-1500000000, 0, 0, 0⟩ ⟨1500000000, 0, 0, 0⟩ ≤ 0) := by
  decide

/-- C11 (failing input). The frame written for index 2145339 gets
`pts = -2147482957`, not `1001 * 2145339 = 2147484339`: the product `nextidx*1001` is
computed as an `int` before it is stored in the 64-bit `pts`, and it overflows from index
2145339 on.  Every written frame gets the wrapped product of its index, which is the exact
product for the indices 0..2145338. -/
theorem C11_pts_overflow :
    ((ingest (fun _ => 0) true
        { frame_heap := avframe_heap_create (fun _ => test_alloc 0) (some avframe_heap_cmp_coded),
          nextidx := 2145339, ret := 0 } 0 (test_alloc 2145339)).map
      (fun r => r.2.map (fun f => (f.coded_picture_number, f.pts)))
      = .ok [(2145339, -2147482957)]) ∧
    ((-2147482957 : Int) ≠ 1001 * 2145339) ∧
    (∀ (w : AVFrame → Int) (co : Bool) (s s1 : main_state) (ret : Int) (frame : AVFrame)
      (ws : List AVFrame), ingest w co s ret frame = .ok (s1, ws) →
      ∀ f ∈ ws, f.pts = wrap32 (mode_key co f * 1001)) ∧
    (∀ i : Int, 0 ≤ i → i ≤ 2145338 → wrap32 (i * 1001) = 1001 * i) := by
  refine ⟨by rfl, by decide, ?_, wrap32_mul_small⟩
  intro w co s s1 ret frame ws he f hf
  have h := written_pts w co s s1 ret frame ws he
  rw [List.map_map] at h
  have := List.map_inj_left.1 h f hf
  exact this

/-- C12. On every heap, whatever its comparator and contents, `avframe_heap_peek_min`
returns null exactly when `n == 0` and the root `q[1]` otherwise (it is a function of the
heap alone and returns no heap: nothing is changed); and on a heap with `n > 0` that
satisfies the heap-order invariant, with non-negative `int` keys, the frame it returns is
a minimum of the held frames: `cmp(m, q[i]) <= 0`, that is `key(m) <= key(q[i])`, for
every slot `i` of `1..n`. -/
theorem C12_peek_min_is_minimum (h : avframe_heap_t) (key : AVFrame → Int) :
    (avframe_heap_peek_min h = none ↔ h.n = 0) ∧
    (0 < h.n → avframe_heap_peek_min h = some (h.q 1)) ∧
    (Keyed h key → GoodLive key h → heap_order h → 0 < h.n →
      ∃ m, avframe_heap_peek_min h = some m ∧ m = h.q 1 ∧
        ∀ i, 1 ≤ i → i ≤ h.n → h.cmp m (h.q i) ≤ 0 ∧ key m ≤ key (h.q i)) := by
  refine ⟨?_, ?_, ?_⟩
  · unfold avframe_heap_peek_min
    by_cases hpos : h.n > 0
    · simp [hpos]; omega
    · simp [hpos]; omega
  · intro hpos
    simp [avframe_heap_peek_min, hpos]
  · intro hk hgood ho hpos
    refine ⟨h.q 1, by simp [avframe_heap_peek_min, hpos], rfl, ?_⟩
    intro i hi1 hin
    have hle := root_min key h (heap_order_key key h hk hgood ho) i hi1 hin
    exact ⟨(cmp_le_iff hk (hgood _ (mem_live h (le_refl _) (by omega)))
      (hgood _ (mem_live h hi1 hin))).2 hle, hle⟩

/-- C12 applied to the heap holding the frames 1, 3, 2 in slots 1, 2, 3, ordered by
coded number. -/
theorem C12_witness :
    (avframe_heap_peek_min
        { q := fun i => test_alloc (if i = 1 then 1 else if i = 2 then 3 else 2), n := 3,
          cmp := avframe_heap_cmp_coded } = none ↔ (3 : Nat) = 0) ∧
    (0 < (3 : Nat) → ∃ m, avframe_heap_peek_min
        { q := fun i => test_alloc (if i = 1 then 1 else if i = 2 then 3 else 2), n := 3,
          cmp := avframe_heap_cmp_coded } = some m ∧
      m = test_alloc (if (1 : Nat) = 1 then 1 else if (1 : Nat) = 2 then 3 else 2) ∧
      ∀ i, 1 ≤ i → i ≤ 3 →
        avframe_heap_cmp_coded m (test_alloc (if i = 1 then 1 else if i = 2 then 3 else 2)) ≤ 0 ∧
        m.coded_picture_number ≤
          (test_alloc (if i = 1 then 1 else if i = 2 then 3 else 2)).coded_picture_number) :=
  ⟨(C12_peek_min_is_minimum
      { q := fun i => test_alloc (if i = 1 then 1 else if i = 2 then 3 else 2), n := 3,
        cmp := avframe_heap_cmp_coded } AVFrame.coded_picture_number).1,
   fun hpos => (C12_peek_min_is_minimum
      { q := fun i => test_alloc (if i = 1 then 1 else if i = 2 then 3 else 2), n := 3,
        cmp := avframe_heap_cmp_coded } AVFrame.coded_picture_number).2.2
    (fun _ _ => rfl)
    (by
      intro x hx
      simp only [live, Multiset.mem_map, Finset.mem_val, Finset.mem_Icc] at hx
      obtain ⟨i, ⟨h1, h2⟩, rfl⟩ := hx
      have : i = 1 ∨ i = 2 ∨ i = 3 := by omega
      rcases this with rfl | rfl | rfl <;> decide)
    (by
      intro p hp1 hpn
      have hpn3 : p ≤ 3 := hpn
      have : p = 2 ∨ p = 3 := by omega
      rcases this with rfl | rfl <;> decide)
    hpos⟩

/-- C13. On every heap with `1 <= n <= 999`, `avframe_heap_get_min` returns without fault
exactly the frame `avframe_heap_peek_min` returns (the root `q[1]`), decreases `n` by one,
keeps the comparator, and the frames held before are the returned frame together with the
frames held afterwards, as multisets: no other frame is lost or duplicated. -/
theorem C13_get_min_removes_root (h : avframe_heap_t) (h1 : 1 ≤ h.n) (h2 : h.n ≤ 999) :
    ∃ (m : AVFrame) (h3 : avframe_heap_t),
      avframe_heap_peek_min h = some m ∧ m = h.q 1 ∧
      avframe_heap_get_min h = .ok (some m, h3) ∧
      h3.n + 1 = h.n ∧ h3.cmp = h.cmp ∧ live h = m ::ₘ live h3 := by
  have hM : MAX_REFERENCE_FRAMES = 1000 := rfl
  have hpos : 0 < h.n := by omega
  obtain ⟨h3, he, hn3, hc3, hl3⟩ := get_min_live h hpos (by omega)
  exact ⟨h.q 1, h3, by simp [avframe_heap_peek_min, hpos], rfl, he, by omega, hc3, hl3⟩

/-- C13 applied to the heap holding the frames 1, 3, 2 in slots 1, 2, 3. -/
theorem C13_witness :
    ∃ (m : AVFrame) (h3 : avframe_heap_t),
      avframe_heap_peek_min
        { q := fun i => test_alloc (if i = 1 then 1 else if i = 2 then 3 else 2), n := 3,
          cmp := avframe_heap_cmp_coded } = some m ∧
      m = test_alloc (if (1 : Nat) = 1 then 1 else if (1 : Nat) = 2 then 3 else 2) ∧
      avframe_heap_get_min
        { q := fun i => test_alloc (if i = 1 then 1 else if i = 2 then 3 else 2), n := 3,
          cmp := avframe_heap_cmp_coded } = .ok (some m, h3) ∧
      h3.n + 1 = 3 ∧ h3.cmp = avframe_heap_cmp_coded ∧
      live ({ q := fun i => test_alloc (if i = 1 then 1 else if i = 2 then 3 else 2), n := 3,
              cmp := avframe_heap_cmp_coded } : avframe_heap_t) = m ::ₘ live h3 :=
  C13_get_min_removes_root
    { q := fun i => test_alloc (if i = 1 then 1 else if i = 2 then 3 else 2), n := 3,
      cmp := avframe_heap_cmp_coded } (by decide) (by decide)

/-- C14. Idempotent emptiness: on a heap with `n == 0`, `avframe_heap_get_min` returns null
and the heap it leaves is the heap it was given (`n`, every slot and the comparator
unchanged); hence any number of repeated calls all return null and leave that same heap,
with `n == 0`. -/
theorem C14_get_min_empty (h : avframe_heap_t) (h0 : h.n = 0) :
    avframe_heap_get_min h = .ok (none, h) ∧
    ∀ k, get_min_n k h = .ok (List.replicate k none, h) :=
  ⟨get_min_empty h h0, get_min_n_empty h h0⟩

/-- C14 applied to a fresh heap. -/
theorem C14_witness :
    avframe_heap_get_min (avframe_heap_create (fun _ => test_alloc 0) none)
      = .ok (none, avframe_heap_create (fun _ => test_alloc 0) none) ∧
    ∀ k, get_min_n k (avframe_heap_create (fun _ => test_alloc 0) none)
      = .ok (List.replicate k none, avframe_heap_create (fun _ => test_alloc 0) none) :=
  C14_get_min_empty (avframe_heap_create (fun _ => test_alloc 0) none) rfl

/-- C15 (counterexample). Coded-order mode, the program's start, a writer that succeeds:
the frames with coded numbers 1 and 0 arrive in this order. Both are stamped with
`nextidx = 0`, so the frame that arrived second (j = 1) has `display_picture_number = 0`,
and the two written frames carry the same display number. -/
theorem C15_counterexample :
    (ingest_seq (fun _ => 0) true (main_init (fun _ => test_alloc 0) true)
        [(0, test_alloc 1), (0, test_alloc 0)]).map
      (fun r => r.2.map (fun f => (f.coded_picture_number, f.display_picture_number)))
      = .ok [(0, 0), (1, 0)] := by
  rfl

/-- C15 (amended). Display-order mode, a writer that always succeeds: for every sequence of
at most `INT_MAX + 1` displayable frames ingested from the initial state, the run returns,
every frame is written, in arrival order, and the j-th ingested frame (j = 0, 1, 2, ...)
carries `display_picture_number = j`, the value it was stamped with at insertion; so the
display numbers emitted are pairwise distinct (and none is held back). -/
theorem C15_display_index_counts_arrivals (w : AVFrame → Int) (hw : ∀ f, 0 ≤ w f)
    (mem : Nat → AVFrame) (arrivals : List (Int × AVFrame))
    (hlen : (arrivals.length : Int) ≤ INT_MAX + 1) :
    ∃ (s1 : main_state) (ws : List AVFrame),
      ingest_seq w false (main_init mem false) arrivals = .ok (s1, ws) ∧
      ws.map frame_id = arrivals.map (fun d => frame_id d.2) ∧
      ws.map AVFrame.display_picture_number =
        (List.range arrivals.length).map (fun (j : Nat) => (j : Int)) ∧
      (ws.map AVFrame.display_picture_number).Nodup ∧
      s1.frame_heap.n = 0 := by
  obtain ⟨s1, he, hn, _, _⟩ := display_seq w hw arrivals (main_init mem false) rfl
  have hd : (pass_through (main_init mem false).nextidx arrivals).map
      AVFrame.display_picture_number =
      (List.range arrivals.length).map (fun (j : Nat) => (j : Int)) := by
    rw [pass_through_display, idx_run_eq _ _ (by show INT_MIN ≤ (0 : Int); decide)
      (by show (0 : Int) + _ ≤ _; omega)]
    apply List.map_congr_left
    intro j _
    show (0 : Int) + (j : Int) = j
    omega
  refine ⟨s1, _, he, pass_through_ids arrivals _, hd, ?_, hn⟩
  rw [hd]
  apply List.Nodup.map _ (List.nodup_range _)
  intro a b hab
  exact Int.ofNat.inj hab

/-- C15 (amended) applied to three frames arriving at the start of the program. -/
theorem C15_witness :
    ∃ (s1 : main_state) (ws : List AVFrame),
      ingest_seq (fun _ => 0) false (main_init (fun _ => test_alloc 0) false)
        [(0, test_alloc 7), (0, test_alloc 8), (0, test_alloc 9)] = .ok (s1, ws) ∧
      ws.map frame_id =
        [((0 : Int), test_alloc 7), (0, test_alloc 8), (0, test_alloc 9)].map
          (fun d => frame_id d.2) ∧
      ws.map AVFrame.display_picture_number =
        (List.range [((0 : Int), test_alloc 7), (0, test_alloc 8), (0, test_alloc 9)].length).map
          (fun (j : Nat) => (j : Int)) ∧
      (ws.map AVFrame.display_picture_number).Nodup ∧
      s1.frame_heap.n = 0 :=
  C15_display_index_counts_arrivals (fun _ => 0) (fun _ => le_refl _) (fun _ => test_alloc 0)
    [(0, test_alloc 7), (0, test_alloc 8), (0, test_alloc 9)] (by decide)

/-- C16 (counterexample). A heap with `n = 2` holding the keys 5 and 3 in slots 1 and 2
(heap order fails only between position 1 and its child), and the key 1 in the dead slot
3: `avframe_heap_bubble_down(h, 1)` compares `q[2]` with the dead `q[3]`, finds it larger,
skips the second test because `3 > n`, and leaves the heap as it is, with the root 5 above
its child 3.  With the key 9 in the dead slot the same call swaps the two frames.  So the
result on slots `1..n` depends on the dead slot `n+1`. -/
theorem C16_counterexample :
    ((avframe_heap_bubble_down 3
        { q := fun i => test_alloc (if i = 1 then 5 else if i = 2 then 3 else 1), n := 2,
          cmp := avframe_heap_cmp_coded } 1).map
      (fun r => (r.n, (r.q 1).coded_picture_number, (r.q 2).coded_picture_number))
      = .ok (2, 5, 3)) ∧
    ((avframe_heap_bubble_down 3
        { q := fun i => test_alloc (if i = 1 then 5 else if i = 2 then 3 else 9), n := 2,
          cmp := avframe_heap_cmp_coded } 1).map
      (fun r => (r.n, (r.q 1).coded_picture_number, (r.q 2).coded_picture_number))
      = .ok (2, 3, 5)) ∧
    ¬ (avframe_heap_cmp_coded (test_alloc 5) (test_alloc 3) ≤ 0) := by
  refine ⟨by rfl, by rfl, by decide⟩

/-- C16 (amended). `avframe_heap_bubble_down(h, p)` on a heap with `n <= 998` and
non-negative `int` keys whose slots `1..n` satisfy the heap order on every edge except
possibly those from `p` to its children, and whose slot `n+1` holds a frame with a
non-negative `int` key not below that of `q[p]` (in the call made by
`avframe_heap_get_min` it holds the very frame found at `q[p]`): the call returns, for
every fuel of at least `n + 1 - p`, a heap with the same `n`, comparator, held frames and
dead slots in which every edge other than the one into `p` satisfies the heap order, so
the subtree of `p` is ordered; nothing is assumed about the slots beyond `n+1`.  And
`avframe_heap_get_min` on a heap-ordered heap restores the heap order whatever the dead
slots hold. -/
theorem C16_bubble_down_stale_slot (key : AVFrame → Int) (h : avframe_heap_t) (p : Nat)
    (hk : Keyed h key) (hg : GoodLive key h) (hn : h.n ≤ 998) (hp1 : 1 ≤ p) (hpn : p ≤ h.n)
    (hhole : ∀ j, 1 < j → j ≤ h.n → j / 2 ≠ p → h.cmp (h.q (j / 2)) (h.q j) ≤ 0)
    (hd0 : 0 ≤ key (h.q (h.n + 1))) (hd1 : key (h.q (h.n + 1)) ≤ INT_MAX)
    (hdead : h.cmp (h.q p) (h.q (h.n + 1)) ≤ 0) :
    (∃ h1, (∀ fuel, h.n + 1 - p ≤ fuel → avframe_heap_bubble_down fuel h p = .ok h1) ∧
      h1.n = h.n ∧ h1.cmp = h.cmp ∧ live h1 = live h ∧ (∀ i, h.n < i → h1.q i = h.q i) ∧
      ∀ j, 1 < j → j ≤ h.n → j ≠ p →
        h1.cmp (h1.q (j / 2)) (h1.q j) ≤ 0 ∧ key (h1.q (j / 2)) ≤ key (h1.q j)) ∧
    (∀ g : avframe_heap_t, Inv key g → 0 < g.n →
      ∃ g1, avframe_heap_get_min g = .ok (some (g.q 1), g1) ∧ g1.n + 1 = g.n ∧
        heap_order g1) := by
  have hM : MAX_REFERENCE_FRAMES = 1000 := rfl
  constructor
  · have hgp : 0 ≤ key (h.q p) ∧ key (h.q p) ≤ INT_MAX := hg _ (mem_live h hp1 hpn)
    have hsub : SubHole key h p p :=
      ⟨fun j hj1 hjn hj2 _ =>
        (cmp_le_iff hk (hg _ (mem_live h (by omega) (by omega)))
          (hg _ (mem_live h (by omega) hjn))).1 (hhole j hj1 hjn hj2),
       fun j _ _ _ hpp => absurd rfl hpp⟩
    obtain ⟨h1, he, hn1, hc1, ho1, hl1, hq1⟩ :=
      bubble_down_hole key (h.n + 1) h p p hk (by omega) hp1 (le_refl _) (by omega) (by omega)
        hg hd0 hd1 ((cmp_le_iff hk hgp ⟨hd0, hd1⟩).1 hdead) hsub
    obtain ⟨h2, _, hall⟩ := bubble_down_terminates _ h p rfl (by omega) hp1
    have h21 : h2 = h1 := by
      have := hall (h.n + 1) (by omega) (by omega)
      rw [he] at this
      exact (Except.ok.inj this).symm
    refine ⟨h1, fun fuel hf => by rw [← h21]; exact hall fuel (by omega) (by omega),
      hn1, hc1, hl1, hq1, ?_⟩
    intro j hj1 hjn hjp
    have hkj := ho1 j hj1 hjn hjp
    have hk1 : Keyed h1 key := fun a b => by rw [hc1]; exact hk a b
    have hg1 : GoodLive key h1 := by
      intro x hx
      rw [hl1] at hx
      exact hg x hx
    exact ⟨(cmp_le_iff hk1 (hg1 _ (mem_live h1 (by omega) (by omega)))
      (hg1 _ (mem_live h1 (by omega) (by omega)))).2 hkj, hkj⟩
  · intro g hi hpos
    obtain ⟨g1, he, hn1, hi1, _, _⟩ := get_min_spec key g hi hpos
    exact ⟨g1, he, by omega, inv_heap_order key g1 hi1⟩

/-- C16 (amended) applied to the heap with `n = 2` holding the keys 5 and 3, whose dead
slot 3 holds the key 5 as `avframe_heap_get_min` leaves it: the call at the root swaps the
two frames. -/
theorem C16_witness :
    (∃ h1, (∀ fuel, 2 + 1 - 1 ≤ fuel → avframe_heap_bubble_down fuel
        { q := fun i => test_alloc (if i = 2 then 3 else 5), n := 2,
          cmp := avframe_heap_cmp_coded } 1 = .ok h1) ∧
      h1.n = 2 ∧ h1.cmp = avframe_heap_cmp_coded ∧
      live h1 = live ({ q := fun i => test_alloc (if i = 2 then 3 else 5), n := 2,
                        cmp := avframe_heap_cmp_coded } : avframe_heap_t) ∧
      (∀ i, 2 < i → h1.q i = test_alloc (if i = 2 then 3 else 5)) ∧
      ∀ j, 1 < j → j ≤ 2 → j ≠ 1 →
        h1.cmp (h1.q (j / 2)) (h1.q j) ≤ 0 ∧
        (h1.q (j / 2)).coded_picture_number ≤ (h1.q j).coded_picture_number) ∧
    (avframe_heap_bubble_down 2
        { q := fun i => test_alloc (if i = 2 then 3 else 5), n := 2,
          cmp := avframe_heap_cmp_coded } 1).map
      (fun r => (r.n, (r.q 1).coded_picture_number, (r.q 2).coded_picture_number))
      = .ok (2, 3, 5) :=
  ⟨(C16_bubble_down_stale_slot AVFrame.coded_picture_number
      { q := fun i => test_alloc (if i = 2 then 3 else 5), n := 2,
        cmp := avframe_heap_cmp_coded } 1
      (fun _ _ => rfl)
      (by
        intro x hx
        simp only [live, Multiset.mem_map, Finset.mem_val, Finset.mem_Icc] at hx
        obtain ⟨i, ⟨h1, h2⟩, rfl⟩ := hx
        have : i = 1 ∨ i = 2 := by omega
        rcases this with rfl | rfl <;> decide)
      (by decide) (by decide) (by decide)
      (by
        intro j hj1 hjn hj2
        have hjn2 : j ≤ 2 := hjn
        omega)
      (by decide) (by decide) (by decide)).1, rfl⟩

/-- C17. Termination: on every heap with `n <= 999` and for every position `1 <= p <= n`,
`avframe_heap_bubble_up(h, p)` returns a heap for every fuel of at least `p` (the position
at least halves at each call), and `avframe_heap_bubble_down(h, p)` returns a heap for every
fuel of at least `n + 1 - p` (the position at least doubles), the result not depending on
the fuel; the drain loop entered with `n <= 999` frames held returns, for every fuel above
`n`, the same state and written frames, having written no more frames than were held (each
written frame was first removed from the heap); and no ingest, from any controller state
`t` whatever, runs out of fuel, one with room returning after at most `n + 1` written
frames (the frames held after the insertion). -/
theorem C17_termination (h : avframe_heap_t) (p : Nat) (hn : h.n ≤ 999) (hp1 : 1 ≤ p)
    (hpn : p ≤ h.n) (w : AVFrame → Int) (co : Bool) (s : main_state) (out : List AVFrame)
    (hs : s.frame_heap.n ≤ 999) :
    (∃ h1, h1.n = h.n ∧ ∀ fuel, p ≤ fuel → avframe_heap_bubble_up fuel h p = .ok h1) ∧
    (∃ h1, h1.n = h.n ∧
      ∀ fuel, h.n + 1 - p ≤ fuel → avframe_heap_bubble_down fuel h p = .ok h1) ∧
    (∃ (s1 : main_state) (ws : List AVFrame),
      s1.frame_heap.n + ws.length ≤ s.frame_heap.n ∧
      ∀ fuel, s.frame_heap.n < fuel → drain_loop w co fuel s out = .ok (s1, out ++ ws)) ∧
    (∀ (t : main_state) (ret : Int) (frame : AVFrame),
      ingest w co t ret frame ≠ .error .out_of_fuel ∧
      (t.frame_heap.n + 1 < MAX_REFERENCE_FRAMES → ∃ (s1 : main_state) (ws : List AVFrame),
        ingest w co t ret frame = .ok (s1, ws) ∧ ws.length ≤ t.frame_heap.n + 1)) := by
  have hM : MAX_REFERENCE_FRAMES = 1000 := rfl
  refine ⟨bubble_up_terminates p h (by omega) hp1 hpn, ?_,
    drain_terminates w co s.frame_heap.n s out rfl (by omega), ?_⟩
  · obtain ⟨h1, hn1, hall⟩ := bubble_down_terminates _ h p rfl (by omega) hp1
    exact ⟨h1, hn1, fun fuel hf => hall fuel (by omega) (by omega)⟩
  · intro t ret frame
    refine ⟨ingest_never_out_of_fuel w co t ret frame, fun hroom => ?_⟩
    obtain ⟨s1, ws, he, _, _, _, _, _, hcnt, _⟩ := ingest_general w co t ret frame hroom
    exact ⟨s1, ws, he, by omega⟩

/-- C17 applied where the recursions and the loop do iterate.  `avframe_heap_bubble_up` at
position 4 of the heap 5, 7, 8, 1 swaps twice and reaches the root (fuel 2 is not enough,
the result is 1, 5, 8, 7).  `avframe_heap_bubble_down` at the root of the heap 9, 3, 4, 5
(the dead slot 5 holding 9, as `avframe_heap_get_min` leaves it) swaps twice and reaches
position 4 (fuel 2 is not enough, the result is 3, 5, 4, 9).  The drain loop on the heap
0, 1, 2 with `nextidx = 0` writes the three frames (fuel 3 is not enough). -/
theorem C17_witness :
    (∃ h1, h1.n = 4 ∧ ∀ fuel, 4 ≤ fuel → avframe_heap_bubble_up fuel
        { q := fun i => test_alloc (if i = 1 then 5 else if i = 2 then 7 else if i = 3 then 8 else 1),
          n := 4, cmp := avframe_heap_cmp_coded } 4 = .ok h1) ∧
    (∃ h1, h1.n = 4 ∧ ∀ fuel, 4 + 1 - 1 ≤ fuel → avframe_heap_bubble_down fuel
        { q := fun i => test_alloc (if i = 1 then 9 else if i = 2 then 3 else if i = 3 then 4
            else if i = 4 then 5 else 9),
          n := 4, cmp := avframe_heap_cmp_coded } 1 = .ok h1) ∧
    (∃ (s1 : main_state) (ws : List AVFrame),
      s1.frame_heap.n + ws.length ≤ 3 ∧
      ∀ fuel, 3 < fuel →
        drain_loop (fun _ => 0) true fuel
          { frame_heap :=
              { q := fun i => test_alloc (if i = 1 then 0 else if i = 2 then 1 else 2),
                n := 3, cmp := avframe_heap_cmp_coded },
            nextidx := 0, ret := 0 } []
          = .ok (s1, [] ++ ws)) ∧
    (∀ (t : main_state) (ret : Int) (frame : AVFrame),
      ingest (fun _ => 0) true t ret frame ≠ .error .out_of_fuel ∧
      (t.frame_heap.n + 1 < MAX_REFERENCE_FRAMES →
        ∃ (s1 : main_state) (ws : List AVFrame),
          ingest (fun _ => 0) true t ret frame = .ok (s1, ws) ∧
          ws.length ≤ t.frame_heap.n + 1)) ∧
    (avframe_heap_bubble_up 2
        { q := fun i => test_alloc (if i = 1 then 5 else if i = 2 then 7 else if i = 3 then 8 else 1),
          n := 4, cmp := avframe_heap_cmp_coded } 4 = .error .out_of_fuel ∧
      (avframe_heap_bubble_up 4
        { q := fun i => test_alloc (if i = 1 then 5 else if i = 2 then 7 else if i = 3 then 8 else 1),
          n := 4, cmp := avframe_heap_cmp_coded } 4).map
        (fun r => [1, 2, 3, 4].map (fun i => (r.q i).coded_picture_number))
        = .ok [1, 5, 8, 7]) ∧
    (avframe_heap_bubble_down 2
        { q := fun i => test_alloc (if i = 1 then 9 else if i = 2 then 3 else if i = 3 then 4
            else if i = 4 then 5 else 9),
          n := 4, cmp := avframe_heap_cmp_coded } 1 = .error .out_of_fuel ∧
      (avframe_heap_bubble_down 4
        { q := fun i => test_alloc (if i = 1 then 9 else if i = 2 then 3 else if i = 3 then 4
            else if i = 4 then 5 else 9),
          n := 4, cmp := avframe_heap_cmp_coded } 1).map
        (fun r => [1, 2, 3, 4].map (fun i => (r.q i).coded_picture_number))
        = .ok [3, 5, 4, 9]) ∧
    (drain_loop (fun _ => 0) true 3
        { frame_heap :=
            { q := fun i => test_alloc (if i = 1 then 0 else if i = 2 then 1 else 2),
              n := 3, cmp := avframe_heap_cmp_coded },
          nextidx := 0, ret := 0 } []
        = .error .out_of_fuel ∧
      (drain_loop (fun _ => 0) true 4
        { frame_heap :=
            { q := fun i => test_alloc (if i = 1 then 0 else if i = 2 then 1 else 2),
              n := 3, cmp := avframe_heap_cmp_coded },
          nextidx := 0, ret := 0 } []).map
        (fun r => (r.2.map AVFrame.coded_picture_number, r.1.nextidx, r.1.frame_heap.n))
        = .ok ([0, 1, 2], 3, 0)) :=
  ⟨(C17_termination
      { q := fun i => test_alloc (if i = 1 then 5 else if i = 2 then 7 else if i = 3 then 8 else 1),
          n := 4, cmp := avframe_heap_cmp_coded } 4 (by decide) (by decide) (by decide) (fun _ => 0) true
      { frame_heap :=
          { q := fun i => test_alloc (if i = 1 then 0 else if i = 2 then 1 else 2),
            n := 3, cmp := avframe_heap_cmp_coded },
        nextidx := 0, ret := 0 } [] (by decide)).1,
   (C17_termination
      { q := fun i => test_alloc (if i = 1 then 9 else if i = 2 then 3 else if i = 3 then 4
            else if i = 4 then 5 else 9),
          n := 4, cmp := avframe_heap_cmp_coded } 1 (by decide) (by decide) (by decide) (fun _ => 0) true
      { frame_heap :=
          { q := fun i => test_alloc (if i = 1 then 0 else if i = 2 then 1 else 2),
            n := 3, cmp := avframe_heap_cmp_coded },
        nextidx := 0, ret := 0 } [] (by decide)).2.1,
   (C17_termination
      { q := fun i => test_alloc (if i = 1 then 5 else if i = 2 then 7 else if i = 3 then 8 else 1),
          n := 4, cmp := avframe_heap_cmp_coded } 4 (by decide) (by decide) (by decide) (fun _ => 0) true
      { frame_heap :=
          { q := fun i => test_alloc (if i = 1 then 0 else if i = 2 then 1 else 2),
            n := 3, cmp := avframe_heap_cmp_coded },
        nextidx := 0, ret := 0 } [] (by decide)).2.2.1,
   (C17_termination
      { q := fun i => test_alloc (if i = 1 then 5 else if i = 2 then 7 else if i = 3 then 8 else 1),
          n := 4, cmp := avframe_heap_cmp_coded } 4 (by decide) (by decide) (by decide) (fun _ => 0) true
      { frame_heap :=
          { q := fun i => test_alloc (if i = 1 then 0 else if i = 2 then 1 else 2),
            n := 3, cmp := avframe_heap_cmp_coded },
        nextidx := 0, ret := 0 } [] (by decide)).2.2.2,
   ⟨rfl, rfl⟩, ⟨rfl, rfl⟩, ⟨rfl, rfl⟩⟩

/-- C18 (counterexample). Display-order mode, empty heap, a writer that succeeds: at
`nextidx = 2145339` the frame is written with `pts = -2147482957`, not
`1001 * 2145339`; and at `nextidx = INT_MAX` the frame is written and the counter becomes
`INT_MIN`, not `INT_MAX + 1`. -/
theorem C18_counterexample :
    ((ingest (fun _ => 0) false
        { frame_heap := avframe_heap_create (fun _ => test_alloc 0)
            (some avframe_heap_cmp_display),
          nextidx := 2145339, ret := 0 } 0 (test_alloc 5)).map
      (fun r => (r.2.map AVFrame.pts, r.1.nextidx)) = .ok ([-2147482957], 2145340) ∧
      (-2147482957 : Int) ≠ 1001 * 2145339) ∧
    ((ingest (fun _ => 0) false
        { frame_heap := avframe_heap_create (fun _ => test_alloc 0)
            (some avframe_heap_cmp_display),
          nextidx := 2147483647, ret := 0 } 0 (test_alloc 5)).map
      (fun r => (r.2.map AVFrame.display_picture_number, r.1.nextidx))
      = .ok ([2147483647], -2147483648) ∧
      (-2147483648 : Int) ≠ 2147483647 + 1) := by
  refine ⟨⟨by rfl, by decide⟩, ⟨by rfl, by decide⟩⟩

/-- C18 (amended). Display-order mode is a pass-through: with the minimum's key read from
`display_picture_number`, from an empty heap and `nextidx = k` with `0 <= k < INT_MAX`,
ingesting any frame with a writer that succeeds writes exactly that frame, stamped with
display number `k` and with `pts = 1001 * k` whenever `k <= 2145338`, leaves the heap empty
and sets `nextidx = k + 1`; and for every sequence of ingests, after each of them the frames
written so far are the frames that arrived, in arrival order, and the heap holds no
frame. -/
theorem C18_display_pass_through (w : AVFrame → Int) (hw : ∀ f, 0 ≤ w f) (s : main_state)
    (k : Int) (hempty : s.frame_heap.n = 0) (hk : s.nextidx = k) (hk0 : 0 ≤ k)
    (hk1 : k < INT_MAX) :
    (∀ (ret : Int) (frame : AVFrame), ∃ (s1 : main_state) (f : AVFrame),
      ingest w false s ret frame = .ok (s1, [f]) ∧
      f = set_pts (set_display frame k) (wrap32 (k * 1001)) ∧
      frame_id f = frame_id frame ∧ f.display_picture_number = k ∧
      (k ≤ 2145338 → f.pts = 1001 * k) ∧
      s1.frame_heap.n = 0 ∧ s1.nextidx = k + 1) ∧
    (∀ (arrivals : List (Int × AVFrame)) (j : Nat), ∃ (s1 : main_state) (ws : List AVFrame),
      ingest_seq w false s (arrivals.take j) = .ok (s1, ws) ∧
      ws.map frame_id = (arrivals.take j).map (fun d => frame_id d.2) ∧
      s1.frame_heap.n = 0) := by
  constructor
  · intro ret frame
    obtain ⟨s1, he, hn, _, hx, _⟩ := display_step w s ret frame hempty (hw _)
    rw [hk] at he hx
    refine ⟨s1, _, he, rfl, rfl, rfl, ?_, hn, ?_⟩
    · intro hsmall
      exact wrap32_mul_small k hk0 hsmall
    · rw [hx]
      exact wrap32_succ (by unfold INT_MIN; omega) hk1
  · intro arrivals j
    obtain ⟨s1, he, hn, _, _⟩ := display_seq w hw (arrivals.take j) s hempty
    exact ⟨s1, _, he, pass_through_ids _ _, hn⟩

/-- C18 (amended) applied to the program's start in display-order mode (`k = 0`). -/
theorem C18_witness :
    (∀ (ret : Int) (frame : AVFrame), ∃ (s1 : main_state) (f : AVFrame),
      ingest (fun _ => 0) false (main_init (fun _ => test_alloc 0) false) ret frame
        = .ok (s1, [f]) ∧
      f = set_pts (set_display frame 0) (wrap32 (0 * 1001)) ∧
      frame_id f = frame_id frame ∧ f.display_picture_number = 0 ∧
      ((0 : Int) ≤ 2145338 → f.pts = 1001 * 0) ∧
      s1.frame_heap.n = 0 ∧ s1.nextidx = 0 + 1) ∧
    (∀ (arrivals : List (Int × AVFrame)) (j : Nat), ∃ (s1 : main_state) (ws : List AVFrame),
      ingest_seq (fun _ => 0) false (main_init (fun _ => test_alloc 0) false)
        (arrivals.take j) = .ok (s1, ws) ∧
      ws.map frame_id = (arrivals.take j).map (fun d => frame_id d.2) ∧
      s1.frame_heap.n = 0) :=
  C18_display_pass_through (fun _ => 0) (fun _ => le_refl _)
    (main_init (fun _ => test_alloc 0) false) 0 rfl rfl (by decide) (by decide)

/-- C19 (counterexample). Coded-order mode.  First, the heap holds the frame with coded
number 3 while `nextidx = 5`; the frame with coded number -2147483644 arrives, then the
frame 5.  The comparator's subtraction overflows on the negative number (`3 - K` and
`K - 5` both come out as `INT_MAX`), the frame 5 reaches the root, is written, and
`nextidx` becomes 6.  Second, from the program's start with a writer that fails on the
frame whose `data` is 10: two frames with coded number 1 arrive (`data` 10 and 11), then
the frame 0; frame 0 is written, the write of the first frame 1 fails (`ret = -1`,
`nextidx = 1`, one frame left in the heap); then the frame 7 arrives, no frame with coded
number 1 arrives any more, and yet the held duplicate 1 is written and `nextidx` becomes
2. -/
theorem C19_counterexample :
    ((ingest_seq (fun _ => 0) true
        { frame_heap := { q := fun _ => test_alloc 3, n := 1, cmp := avframe_heap_cmp_coded },
          nextidx := 5, ret := 0 }
        [(0, test_alloc (-2147483644)), (0, test_alloc 5)]).map
      (fun r => (r.2.map AVFrame.coded_picture_number, r.1.nextidx)) = .ok ([5], 6)) ∧
    ((ingest_seq (fun f => if f.data = 10 then -1 else 0) true
        (main_init (fun _ => test_alloc 0) true)
        [(0, ⟨1, 0, 0, 10⟩), (0, ⟨1, 0, 0, 11⟩), (0, test_alloc 0)]).map
      (fun r => (r.2.map AVFrame.coded_picture_number, r.1.nextidx, r.1.ret,
        r.1.frame_heap.n)) = .ok ([0], 1, -1, 1)) ∧
    ((ingest_seq (fun f => if f.data = 10 then -1 else 0) true
        (main_init (fun _ => test_alloc 0) true)
        [(0, ⟨1, 0, 0, 10⟩), (0, ⟨1, 0, 0, 11⟩), (0, test_alloc 0), (0, test_alloc 7)]).map
      (fun r => (r.2.map (fun f => (f.coded_picture_number, f.data)), r.1.nextidx))
      = .ok ([(0, 0), (1, 11)], 2)) := by
  refine ⟨by rfl, by rfl, by rfl⟩

/-- C19 (amended). Permanent stall in coded-order mode. Once the heap (heap-ordered by
coded number, non-negative `int` keys, at most 999 frames) holds a frame whose coded number
is below `nextidx`, every later arrival with a non-negative `int` coded number is absorbed
silently:
whatever sequence of iterations returns has written nothing, `nextidx` has not moved, no
held frame has left the heap, a held key is still below `nextidx`, and `ret` is the
decoder's last value (the loop records no fault); the iterations do return while the heap
has room. The same holds in a state where no held frame carries the index `nextidx` and no
arrival carries it either, and a failed write of the frame with index `nextidx` leaves
exactly such a state (with `nextidx` not advanced) when the held coded numbers are
distinct. -/
theorem C19_permanent_stall (w : AVFrame → Int) (s : main_state)
    (arrivals : List (Int × AVFrame))
    (hinv : Inv AVFrame.coded_picture_number s.frame_heap)
    (hlow : ∃ x ∈ live s.frame_heap, x.coded_picture_number < s.nextidx)
    (hgood : ∀ d ∈ arrivals, 0 ≤ d.2.coded_picture_number ∧ d.2.coded_picture_number ≤ INT_MAX) :
    (∀ s1 ws, ingest_seq w true s arrivals = .ok (s1, ws) →
      ws = [] ∧ s1.nextidx = s.nextidx ∧
      s1.ret = (arrivals.map Prod.fst).getLastD s.ret ∧
      live s.frame_heap ≤ live s1.frame_heap ∧
      ∃ x ∈ live s1.frame_heap, x.coded_picture_number < s1.nextidx) ∧
    (s.frame_heap.n + arrivals.length < MAX_REFERENCE_FRAMES →
      ∃ s1, ingest_seq w true s arrivals = .ok (s1, [])) ∧
    (∀ (t : main_state) (later : List (Int × AVFrame)),
      (∀ x ∈ live t.frame_heap, x.coded_picture_number ≠ t.nextidx) →
      (∀ d ∈ later, d.2.coded_picture_number ≠ t.nextidx) →
      (∀ t1 ws, ingest_seq w true t later = .ok (t1, ws) →
        ws = [] ∧ t1.nextidx = t.nextidx ∧
        t1.ret = (later.map Prod.fst).getLastD t.ret ∧
        live t.frame_heap ≤ live t1.frame_heap ∧
        ∀ x ∈ live t1.frame_heap, x.coded_picture_number ≠ t1.nextidx) ∧
      (t.frame_heap.n + later.length < MAX_REFERENCE_FRAMES →
        ∃ t1, ingest_seq w true t later = .ok (t1, []))) ∧
    (∀ (fuel : Nat) (t : main_state) (out : List AVFrame) (m : AVFrame),
      t.frame_heap.n < MAX_REFERENCE_FRAMES →
      ((live t.frame_heap).map AVFrame.coded_picture_number).Nodup →
      avframe_heap_peek_min t.frame_heap = some m →
      m.coded_picture_number = t.nextidx →
      w (set_pts m (wrap32 (t.nextidx * 1001))) < 0 →
      ∃ t1, drain_loop w true (fuel + 1) t out = .ok (t1, out) ∧ t1.nextidx = t.nextidx ∧
        t1.ret < 0 ∧ ∀ x ∈ live t1.frame_heap, x.coded_picture_number ≠ t1.nextidx) := by
  refine ⟨?_, ?_, ?_, ?_⟩
  · intro s1 ws he
    obtain ⟨h1, h2, h3, h4, h5⟩ := silent_seq w true StalledBelow
      (fun _ f => 0 ≤ f.coded_picture_number ∧ f.coded_picture_number ≤ INT_MAX)
      (fun a b r f ws hP hQ he => stalled_below_step w a b r f ws hP hQ he)
      arrivals s s1 ws ⟨hinv, hlow⟩ hgood he
    exact ⟨h1, h2, h3, h4, h5.2⟩
  · intro hroom
    exact silent_seq_runs w true StalledBelow
      (fun _ f => 0 ≤ f.coded_picture_number ∧ f.coded_picture_number ≤ INT_MAX)
      (fun a r f hP hQ hr => by
        obtain ⟨s1, h1, h2, h3, h4, _⟩ := stalled_below_runs w a r f hP hQ hr
        exact ⟨s1, h1, h2, h3, h4⟩)
      arrivals s ⟨hinv, hlow⟩ hgood hroom
  · intro t later ht hlater
    refine ⟨?_, ?_⟩
    · intro t1 ws he
      exact silent_seq w true StalledGap (fun k f => f.coded_picture_number ≠ k)
        (fun a b r f ws hP hQ he => stalled_gap_step w a b r f ws hP hQ he)
        later t t1 ws ht hlater he
    · intro hroom
      exact silent_seq_runs w true StalledGap (fun k f => f.coded_picture_number ≠ k)
        (fun a r f hP hQ hr => stalled_gap_runs w a r f hP hQ hr)
        later t ht hlater hroom
  · intro fuel t out m hn hnd hpeek hidx hfail
    exact failure_leaves_gap w fuel t out m hn hnd hpeek hidx hfail

/-- C19 (amended) applied.  A heap holding the frame with coded number 0 while `nextidx`
is 1, and the arrivals 2 and 1: the two iterations return and nothing is written although
index 1 arrives.  A heap holding the frames 1 and 4 with `nextidx = 1` and a writer that
fails: the drain loop returns with nothing written, `nextidx = 1`, a negative `ret`, and
no held frame with coded number 1.  The heap holding the frame 4 with `nextidx = 1` (the
state after that failure) and the arrivals 7 and 9: nothing is written. -/
theorem C19_witness :
    (∀ s1 ws, ingest_seq (fun _ => 0) true
        { frame_heap := { q := fun _ => test_alloc 0, n := 1, cmp := avframe_heap_cmp_coded },
          nextidx := 1, ret := 0 }
        [(0, test_alloc 2), (0, test_alloc 1)] = .ok (s1, ws) →
      ws = [] ∧ s1.nextidx = 1) ∧
    (∃ s1, ingest_seq (fun _ => 0) true
        { frame_heap := { q := fun _ => test_alloc 0, n := 1, cmp := avframe_heap_cmp_coded },
          nextidx := 1, ret := 0 }
        [(0, test_alloc 2), (0, test_alloc 1)] = .ok (s1, [])) ∧
    (∃ t1, drain_loop (fun _ => -1) true (2 + 1)
        { frame_heap := { q := fun i => test_alloc (if i = 1 then 1 else 4), n := 2,
                          cmp := avframe_heap_cmp_coded },
          nextidx := 1, ret := 0 } [] = .ok (t1, []) ∧
      t1.nextidx = 1 ∧ t1.ret < 0 ∧
      ∀ x ∈ live t1.frame_heap, x.coded_picture_number ≠ t1.nextidx) ∧
    (∀ t1 ws, ingest_seq (fun _ => 0) true
        { frame_heap := { q := fun _ => test_alloc 4, n := 1, cmp := avframe_heap_cmp_coded },
          nextidx := 1, ret := -1 }
        [(0, test_alloc 7), (0, test_alloc 9)] = .ok (t1, ws) →
      ws = [] ∧ t1.nextidx = 1) ∧
    (ingest_seq (fun _ => 0) true
        { frame_heap := { q := fun _ => test_alloc 0, n := 1, cmp := avframe_heap_cmp_coded },
          nextidx := 1, ret := 0 }
        [(0, test_alloc 2), (0, test_alloc 1)]).map
      (fun r => (r.1.frame_heap.n, r.1.nextidx, r.2.length)) = .ok (3, 1, 0) := by
  have hlive : live { q := fun _ => test_alloc 0, n := 1, cmp := avframe_heap_cmp_coded }
      = {test_alloc 0} := live_one _ rfl
  have hlive4 : live { q := fun _ => test_alloc 4, n := 1, cmp := avframe_heap_cmp_coded }
      = {test_alloc 4} := live_one _ rfl
  have hinv : Inv AVFrame.coded_picture_number
      { q := fun _ => test_alloc 0, n := 1, cmp := avframe_heap_cmp_coded } := by
    refine ⟨fun _ _ => rfl, by decide, ?_, ?_⟩
    · intro x hx
      rw [hlive, Multiset.mem_singleton] at hx
      subst hx
      decide
    · intro i hi1 hi2
      have h1 : i ≤ 1 := hi2
      omega
  have hC := C19_permanent_stall (fun _ => 0)
    { frame_heap := { q := fun _ => test_alloc 0, n := 1, cmp := avframe_heap_cmp_coded },
      nextidx := 1, ret := 0 }
    [(0, test_alloc 2), (0, test_alloc 1)] hinv
    ⟨test_alloc 0, by rw [hlive]; exact Multiset.mem_singleton_self _, by decide⟩
    (by
      intro d hd
      simp only [List.mem_cons, List.mem_singleton, List.not_mem_nil, or_false] at hd
      rcases hd with rfl | rfl <;> decide)
  have hF := C19_permanent_stall (fun _ => -1)
    { frame_heap := { q := fun _ => test_alloc 0, n := 1, cmp := avframe_heap_cmp_coded },
      nextidx := 1, ret := 0 }
    [] hinv
    ⟨test_alloc 0, by rw [hlive]; exact Multiset.mem_singleton_self _, by decide⟩
    (by intro d hd; simp at hd)
  refine ⟨fun s1 ws he => ?_, hC.2.1 (by decide), ?_, fun t1 ws he => ?_, rfl⟩
  · have := hC.1 s1 ws he
    exact ⟨this.1, this.2.1⟩
  · exact hF.2.2.2 2
      { frame_heap := { q := fun i => test_alloc (if i = 1 then 1 else 4), n := 2,
                        cmp := avframe_heap_cmp_coded },
        nextidx := 1, ret := 0 } [] (test_alloc 1) (by decide)
      (by
        have : live ({ q := fun i => test_alloc (if i = 1 then 1 else 4), n := 2,
                       cmp := avframe_heap_cmp_coded } : avframe_heap_t)
            = {test_alloc 1, test_alloc 4} := by
          unfold live
          rfl
        show (Multiset.map AVFrame.coded_picture_number
          (live ({ q := fun i => test_alloc (if i = 1 then 1 else 4), n := 2,
                   cmp := avframe_heap_cmp_coded } : avframe_heap_t))).Nodup
        rw [this]
        decide)
      rfl rfl (by decide)
  · have := (hC.2.2.1
      { frame_heap := { q := fun _ => test_alloc 4, n := 1, cmp := avframe_heap_cmp_coded },
        nextidx := 1, ret := -1 }
      [(0, test_alloc 7), (0, test_alloc 9)]
      (by
        intro x hx
        have hx4 : x ∈ ({test_alloc 4} : Multiset AVFrame) := by
          rw [← hlive4]
          exact hx
        rw [Multiset.mem_singleton] at hx4
        subst hx4
        decide)
      (by
        intro d hd
        simp only [List.mem_cons, List.mem_singleton, List.not_mem_nil, or_false] at hd
        rcases hd with rfl | rfl <;> decide)).1 t1 ws he
    exact ⟨this.1, this.2.1⟩

end Y4m
